import Mathlib

/-!
# JSONext `stringify`: a shallow embedding of `src/stringify.js`

Strings are JavaScript strings, i.e. sequences of UTF-16 code units.  The
functions below follow `src/stringify.js` statement by statement; the names of
the source are kept.
-/

namespace JSONext

/-! ## JavaScript strings -/

/-- A JavaScript string is the list of its UTF-16 code units. -/
abbrev JSString := List Nat

/-- UTF-16 encoding of one Unicode scalar value. -/
def utf16Char (c : Char) : JSString :=
  if c.toNat < 0x10000 then [c.toNat]
  else [0xD800 + (c.toNat - 0x10000) / 0x400, 0xDC00 + (c.toNat - 0x10000) % 0x400]

/-- UTF-16 code units of a string literal. -/
def js (s : String) : JSString := (s.toList.map utf16Char).flatten

def isHighSurrogate (u : Nat) : Bool := decide (0xD800 ≤ u) && decide (u ≤ 0xDBFF)

def isLowSurrogate (u : Nat) : Bool := decide (0xDC00 ≤ u) && decide (u ≤ 0xDFFF)

/-- The string iterator behind `for (const c of value)`: it yields one string
per code point, a well-formed surrogate pair as one two-unit string and any
other code unit (a lone surrogate included) on its own. -/
def stringIterator : JSString → List JSString
  | [] => []
  | [u] => [[u]]
  | u :: v :: rest =>
    if isHighSurrogate u && isLowSurrogate v then [u, v] :: stringIterator rest
    else [u] :: stringIterator (v :: rest)

/-- The relational operator `<` on two strings: code units are compared
lexicographically, a proper prefix being smaller. -/
def jsStringLt : JSString → JSString → Bool
  | _, [] => false
  | [], _ :: _ => true
  | a :: as, b :: bs => if a < b then true else if b < a then false else jsStringLt as bs

/-- `Number.prototype.toString(radix)` on a non-negative integer, lower case. -/
def toStringRadix (radix n : Nat) : JSString := (Nat.toDigits radix n).map Char.toNat

/-- `String.prototype.substring(start)` with `start` inside the string. -/
def substring (s : JSString) (start : Nat) : JSString := s.drop start

/-- Own-property read `table[c]` on an object literal with string values;
`none` is `undefined`. -/
def lookupProp {α : Type} (table : List (JSString × α)) (c : JSString) : Option α :=
  match table with
  | [] => none
  | (k, v) :: rest => if k = c then some v else lookupProp rest c

/-! ## `quoteString` (source lines 47-113) -/

def APOSTROPHE : Nat := 39
def DQUOTE : Nat := 34
def BACKTICK : Nat := 96
def BACKSLASH : Nat := 92

/-- The object `quotes` of the source.  Its values 0.1, 0.2, 0.3 are kept in
tenths (1, 2, 3) and `quotes[c]++` adds ten tenths.  The source compares the
sums as doubles; for every count a string can reach (below `2^49`) doubles
order these sums as the exact sums are ordered, which is the comparison made
here. -/
def quotesInit (isKey : Bool) : List (JSString × Nat) :=
  [([APOSTROPHE], 1), ([DQUOTE], 2)] ++ (if !isKey then [([BACKTICK], 3)] else [])

/-- The object `replacements` of the source (the back-tick entry is added only
when `isKey` is false). -/
def replacementsInit (isKey : Bool) : List (JSString × JSString) :=
  [ ([APOSTROPHE], [BACKSLASH, APOSTROPHE]),
    ([DQUOTE], [BACKSLASH, DQUOTE]),
    ([8], [BACKSLASH, 98]),
    ([12], [BACKSLASH, 102]),
    ([10], [BACKSLASH, 110]),
    ([13], [BACKSLASH, 114]),
    ([9], [BACKSLASH, 116]),
    ([11], [BACKSLASH, 118]),
    ([0], [BACKSLASH, 48]),
    ([0x2028], [BACKSLASH, 117, 50, 48, 50, 56]),
    ([0x2029], [BACKSLASH, 117, 50, 48, 50, 57]) ]
  ++ (if !isKey then [([BACKTICK], [BACKSLASH, BACKTICK])] else [])

/-- The statement `quotes[c]++`. -/
def incrementQuote (quotes : List (JSString × Nat)) (c : JSString) : List (JSString × Nat) :=
  quotes.map (fun kv => if kv.1 = c then (kv.1, kv.2 + 10) else kv)

/-- The loop variables of `quoteString`. -/
structure QuoteLoop where
  quotes : List (JSString × Nat)
  product : JSString
deriving DecidableEq, Repr

/-- The text appended to `product` for a character smaller than a space that
has no entry in `replacements`. -/
def hexEscape (c : JSString) : JSString :=
  let hexString := toStringRadix 16 (c.headD 0)
  [BACKSLASH, 120] ++ substring ([48, 48] ++ hexString) hexString.length

/-- One turn of the loop `for (const c of value)`. -/
def quoteStep (isKey : Bool) (st : QuoteLoop) (c : JSString) : QuoteLoop :=
  if c = [APOSTROPHE] ∨ c = [DQUOTE] then
    { quotes := incrementQuote st.quotes c, product := st.product ++ c }
  else if c = [BACKTICK] then
    { quotes := if !isKey then incrementQuote st.quotes c else st.quotes,
      product := st.product ++ c }
  else
    match lookupProp (replacementsInit isKey) c with
    | some r => { st with product := st.product ++ r }
    | none =>
      if jsStringLt c [32] then { st with product := st.product ++ hexEscape c }
      else { st with product := st.product ++ c }

/-- The state after the loop over the code points of `value`. -/
def quoteLoop (value : JSString) (isKey : Bool) : QuoteLoop :=
  (stringIterator value).foldl (quoteStep isKey) { quotes := quotesInit isKey, product := [] }

/-- The callback of `reduce`: `(a, b) => (quotes[a] < quotes[b]) ? a : b`. -/
def cheaper (quotes : List (JSString × Nat)) (a b : JSString) : JSString :=
  if (lookupProp quotes a).getD 0 < (lookupProp quotes b).getD 0 then a else b

/-- `Object.keys(quotes).reduce(...)` without an initial value. -/
def chooseQuote (quotes : List (JSString × Nat)) : JSString :=
  match quotes.map Prod.fst with
  | [] => []
  | k :: ks => ks.foldl (cheaper quotes) k

/-- `product.replace(new RegExp(quote, 'g'), replacement)` for a pattern that
is one literal character, which the three quote characters are. -/
def replaceGlobal (quote replacement product : JSString) : JSString :=
  match quote with
  | [q] => (product.map (fun u => if u = q then replacement else [u])).flatten
  | _ => product

/-- The function `quoteString (value, isKey)`. -/
def quoteString (value : JSString) (isKey : Bool) : JSString :=
  let st := quoteLoop value isKey
  let quote := chooseQuote st.quotes
  let product := replaceGlobal quote
    ((lookupProp (replacementsInit isKey) quote).getD (js "undefined")) st.product
  quote ++ product ++ quote

/-! ## The quoting rules in the words of the specification -/

/-- The candidate quote characters in their fixed preference order. -/
def quoteCandidates (isKey : Bool) : List Nat :=
  if isKey then [APOSTROPHE, DQUOTE] else [APOSTROPHE, DQUOTE, BACKTICK]

/-- The characters that must never appear raw: below U+0020, U+2028, U+2029. -/
def needsEscape (u : Nat) : Bool := decide (u < 32) || u == 0x2028 || u == 0x2029

/-- The letter of a named escape. -/
def namedEscape? (u : Nat) : Option Nat :=
  if u = 8 then some 98 else if u = 12 then some 102 else if u = 10 then some 110
  else if u = 13 then some 114 else if u = 9 then some 116 else if u = 11 then some 118
  else if u = 0 then some 48 else none

/-- The lower-case hexadecimal digit of a value below sixteen. -/
def hexDigit (d : Nat) : Nat := if d < 10 then 48 + d else 87 + d

/-- The value of a hexadecimal digit character. -/
def hexDigitValue? (u : Nat) : Option Nat :=
  if 48 ≤ u ∧ u ≤ 57 then some (u - 48)
  else if 97 ≤ u ∧ u ≤ 102 then some (u - 87)
  else if 65 ≤ u ∧ u ≤ 70 then some (u - 55)
  else none

/-- The mandatory escape of a character: its named escape, the four-digit
escape of U+2028 and U+2029, and two hexadecimal digits after `\x` otherwise. -/
def mandatoryEscape (u : Nat) : JSString :=
  match namedEscape? u with
  | some letter => [BACKSLASH, letter]
  | none =>
    if u = 0x2028 then [BACKSLASH, 117, 50, 48, 50, 56]
    else if u = 0x2029 then [BACKSLASH, 117, 50, 48, 50, 57]
    else [BACKSLASH, 120, hexDigit (u / 16), hexDigit (u % 16)]

/-- The escape-processed text of one code point: quote characters and every
other character that needs no escape are kept. -/
def escapeProcessed (c : JSString) : JSString :=
  match c with
  | [u] => if needsEscape u then mandatoryEscape u else [u]
  | _ => c

/-- The text of one code point between delimiters `q`: the chosen quote is
escaped with a backslash, everything else is escape-processed. -/
def renderChar (q : Nat) (c : JSString) : JSString :=
  if c = [q] then [BACKSLASH, q] else escapeProcessed c

/-- The text one turn of the loop of `quoteString` appends to `product`. -/
def emittedText (isKey : Bool) (c : JSString) : JSString :=
  (quoteStep isKey { quotes := [], product := [] } c).product

/-- The object `quotes` when the three candidates have been counted `a`, `b`
and `c` times. -/
def quotesAfter (isKey : Bool) (a b c : Nat) : List (JSString × Nat) :=
  [([APOSTROPHE], 1 + 10 * a), ([DQUOTE], 2 + 10 * b)]
    ++ (if !isKey then [([BACKTICK], 3 + 10 * c)] else [])

/-- The text `t` in which every occurrence of the character `q` is replaced by
a backslash followed by `q`. -/
def escapeChosen (q : Nat) (t : JSString) : JSString :=
  (t.map (fun u => if u = q then [BACKSLASH, q] else [u])).flatten

/-- The escape-processed text of a string: the escape-processed texts of its
code points, in order. -/
def escapeProcessedText (s : JSString) : JSString :=
  ((stringIterator s).map escapeProcessed).flatten


/-! ## Values, objects and the module state -/

/-- A Number: a finite double is `(-1)^neg * mant * 2^exp`. -/
inductive JSNumber
  | finite (neg : Bool) (mant : Nat) (exp : Int)
  | infinity (neg : Bool)
  | nan
deriving DecidableEq, Repr

/-- A JavaScript value; an object (plain object, array or function) is a
reference into the heap, so that two references are the same object exactly
when their addresses are equal. -/
inductive Value
  | undefined
  | null
  | bool (b : Bool)
  | number (n : JSNumber)
  | string (s : JSString)
  | ref (a : Nat)
deriving DecidableEq, Repr

/-- What kind of object a heap cell holds. -/
inductive ObjKind
  | plain
  | array (elems : List Value)
  | function (f : Nat)
deriving DecidableEq, Repr

/-- A heap object: its kind; `props`, its own enumerable string-keyed
properties in the order in which they were created (for an array, the
properties other than its elements), which are what `Object.keys` lists; and
`inherited`, the other properties a read of the object finds: its own
properties that are not enumerable, then the properties of the objects of its
prototype chain, nearest first.  An accessor such as `__proto__` of
`Object.prototype` stands in `inherited` with the value its getter gives on
this object.  Property names are unique in a JavaScript object; a read takes
the first entry of a name. -/
structure Obj where
  kind : ObjKind
  props : List (JSString × Value)
  inherited : List (JSString × Value) := []
deriving DecidableEq, Repr

/-- The module variables `stack`, `indent`, `propertyList`, `replacerFunc` and
`gap` (source lines 4-8).  The stack holds the addresses of the objects pushed;
`replacerFunc` holds the function when it is set. -/
structure ModuleState where
  stack : List Nat
  indent : JSString
  propertyList : Option (List JSString)
  replacerFunc : Option Nat
  gap : JSString
deriving DecidableEq, Repr

/-- One call of a user function: the function, its receiver, its arguments. -/
structure CallRecord where
  fn : Nat
  receiver : Value
  args : List Value
deriving DecidableEq, Repr

/-- The module variables together with the log of the calls of user functions
made so far (the log is an observation of the run, the code does not read it). -/
structure State where
  mod : ModuleState
  calls : List CallRecord
deriving DecidableEq, Repr

/-- How a call of a user function ends: it returns a value or throws one; in
both cases it may have changed the module variables (only by calling
`stringify` itself). -/
inductive CallOutcome
  | returns (v : Value) (m : ModuleState)
  | throws (e : Value) (m : ModuleState)
deriving DecidableEq, Repr

/-- The errors a run can end with. -/
inductive JSError
  | circular
  | invalidCodePoint
  | thrown (e : Value)
deriving DecidableEq, Repr

/-- The result of a step: a value and the state after it, an exception and the
state it leaves, or no result within the recursion budget. -/
inductive Res (α : Type)
  | ok (a : α) (st : State)
  | throw (e : JSError) (st : State)
  | outOfFuel
deriving DecidableEq, Repr

/-- What the code is run against: the heap, the two classifiers of
`util.js` (not part of the sources at hand), `String(n)` for a finite
number, and the behaviour of the user functions (hooks and replacer). -/
structure Env where
  heap : List Obj
  isIdStartChar : JSString → Bool
  isIdContinueChar : JSString → Bool
  numberToString : JSNumber → JSString
  call : Nat → ModuleState → Value → List Value → CallOutcome

/-- The object at an address. -/
def Env.obj (env : Env) (a : Nat) : Obj := env.heap.getD a { kind := .plain, props := [] }

/-! ## Runtime operations the source uses -/

/-- `String(i)` for a non-negative integer. -/
def decimal (n : Nat) : JSString := toStringRadix 10 n

/-- The array index a property name denotes, if it is the canonical decimal
text of an integer below `2^32 - 1`. -/
def arrayIndex? (key : JSString) : Option Nat :=
  let n := key.foldl (fun acc d => acc * 10 + (d - 48)) 0
  if decimal n = key ∧ n < 4294967295 then some n else none

/-- `Object.keys(o)`: the elements of an array, then the integer-like names in
ascending numeric order, then the other names in creation order. -/
def ownKeys (o : Obj) : List JSString :=
  let names := o.props.map Prod.fst
  let elementKeys := match o.kind with
    | .array elems => (List.range elems.length).map decimal
    | _ => []
  elementKeys
    ++ ((names.filterMap arrayIndex?).insertionSort (fun a b => a ≤ b)).map decimal
    ++ names.filter (fun k => (arrayIndex? k).isNone)

/-- The read `o[key]` of an object: the element of an array at an index below
its length; otherwise the own enumerable property of the name, or else the
property of the name that is not enumerable or comes from the prototype chain;
`undefined` when there is none. -/
def getProp (o : Obj) (key : JSString) : Value :=
  match o.kind, arrayIndex? key with
  | .array elems, some i =>
    if i < elems.length then elems.getD i .undefined
    else (lookupProp o.inherited key).getD .undefined
  | _, _ => (lookupProp (o.props ++ o.inherited) key).getD .undefined

/-- The read `value[name]`.  On a boolean, a number or a string the code
reads the three hook names only, which the standard prototypes do not define:
the read gives `undefined`. -/
def member (env : Env) (value : Value) (name : JSString) : Value :=
  match value with
  | .ref a => getProp (env.obj a) name
  | _ => .undefined

/-- The test `typeof v === 'function'`, giving the function. -/
def callable? (env : Env) (v : Value) : Option Nat :=
  match v with
  | .ref a =>
    match (env.obj a).kind with
    | .function f => some f
    | _ => none
  | _ => none

/-- The test `isFinite(n)`. -/
def JSNumber.isFinite : JSNumber → Bool
  | .finite _ _ _ => true
  | _ => false

/-- `String(n)` for any number. -/
def numberString (env : Env) (n : JSNumber) : JSString :=
  match n with
  | .nan => js "NaN"
  | .infinity false => js "Infinity"
  | .infinity true => js "-Infinity"
  | .finite _ _ _ => env.numberToString n

/-- A call `f.call(receiver, ...args)`, logged. -/
def invoke (env : Env) (f : Nat) (receiver : Value) (args : List Value) (st : State) :
    Res Value :=
  match env.call f st.mod receiver args with
  | .returns v m => .ok v { mod := m, calls := st.calls ++ [⟨f, receiver, args⟩] }
  | .throws e m => .throw (.thrown e) { mod := m, calls := st.calls ++ [⟨f, receiver, args⟩] }

/-- `Array.prototype.join`. -/
def join (parts : List JSString) (separator : JSString) : JSString :=
  match parts with
  | [] => []
  | [p] => p
  | p :: rest => p ++ separator ++ join rest separator

/-- `String.prototype.codePointAt(i)`; `none` is `undefined`. -/
def codePointAt (s : JSString) (i : Nat) : Option Nat :=
  match s.get? i with
  | none => none
  | some first =>
    if isHighSurrogate first then
      match s.get? (i + 1) with
      | some second =>
        if isLowSurrogate second then
          some ((first - 0xD800) * 0x400 + (second - 0xDC00) + 0x10000)
        else some first
      | none => some first
    else some first

deriving instance DecidableEq for Except

/-- `String.fromCodePoint(cp)`: a RangeError for `undefined` and for a number
above U+10FFFF. -/
def fromCodePoint (cp : Option Nat) : Except JSError JSString :=
  match cp with
  | none => .error .invalidCodePoint
  | some n =>
    if n > 0x10FFFF then .error .invalidCodePoint
    else if n < 0x10000 then .ok [n]
    else .ok [0xD800 + (n - 0x10000) / 0x400, 0xDC00 + (n - 0x10000) % 0x400]

/-! ## `serializeKey` (source lines 159-172) -/

/-- The loop `for (let i = firstChar.length; i < key.length; i++)`, over the
indices still to visit. -/
def serializeKeyLoop (env : Env) (key : JSString) : List Nat → Except JSError JSString
  | [] => .ok key
  | i :: rest =>
    match fromCodePoint (codePointAt key i) with
    | .error e => .error e
    | .ok c =>
      if !env.isIdContinueChar c then .ok (quoteString key true)
      else serializeKeyLoop env key rest

/-- The function `serializeKey (key)`. -/
def serializeKey (env : Env) (key : JSString) : Except JSError JSString :=
  match fromCodePoint (codePointAt key 0) with
  | .error e => .error e
  | .ok firstChar =>
    if !env.isIdStartChar firstChar then .ok (quoteString key true)
    else serializeKeyLoop env key
      (List.range' firstChar.length (key.length - firstChar.length))


/-! ## `serializeProperty`, `serializeObject`, `serializeArray` (source lines 10-45, 115-207) -/

/-- Source lines 12-20: the custom hook, looked up as `toJSONext`, then
`toJSON5`, then `toJSON`, and called with the key. -/
def applyHook (env : Env) (key : JSString) (value : Value) (st : State) : Res Value :=
  if value = .null ∨ value = .undefined then .ok value st
  else
    match callable? env (member env value (js "toJSONext")) with
    | some f => invoke env f value [.string key] st
    | none =>
      match callable? env (member env value (js "toJSON5")) with
      | some f => invoke env f value [.string key] st
      | none =>
        match callable? env (member env value (js "toJSON")) with
        | some f => invoke env f value [.string key] st
        | none => .ok value st

/-- Source lines 22-24: `replacerFunc.call(holder, key, value)` when a replacer
function is set. -/
def applyReplacer (env : Env) (key : JSString) (holder value : Value) (st : State) :
    Res Value :=
  match st.mod.replacerFunc with
  | some f => invoke env f holder [.string key, value] st
  | none => .ok value st

/-- The text of one member: `serializeKey(key) + ':'`, a space when `gap` is
not empty, and the text of the value (source lines 130-134). -/
def memberText (gap keyText propertyString : JSString) : JSString :=
  keyText ++ js ":" ++ (if gap ≠ [] then js " " else []) ++ propertyString

/-- The loop over `keys` in `serializeObject` (source lines 127-137), with
`sp` standing for `serializeProperty`. -/
def serializeMembers (env : Env) (sp : JSString → Value → State → Res (Option JSString))
    (value : Value) : List JSString → List JSString → State → Res (List JSString)
  | [], partials, st => .ok partials st
  | key :: keys, partials, st =>
    match sp key value st with
    | .ok none st1 => serializeMembers env sp value keys partials st1
    | .ok (some propertyString) st1 =>
      match serializeKey env key with
      | .error e => .throw e st1
      | .ok keyText =>
        serializeMembers env sp value keys
          (partials ++ [memberText st1.mod.gap keyText propertyString]) st1
    | .throw e st1 => .throw e st1
    | .outOfFuel => .outOfFuel

/-- The text assembled from `partial` (source lines 139-152 and 190-202):
`opening` and `closing` are the two brackets. -/
def assemble (opening closing : JSString) (partials : List JSString)
    (gap indent stepback : JSString) : JSString :=
  if partials.length = 0 then opening ++ closing
  else if gap = [] then
    let properties := join partials (js ",")
    opening ++ properties ++ closing
  else
    let separator := js ",\n" ++ indent
    let properties := join partials separator
    opening ++ js "\n" ++ indent ++ properties ++ js ",\n" ++ stepback ++ closing

/-- Source line 125: `propertyList || Object.keys(value)`. -/
def keysOf (env : Env) (m : ModuleState) (a : Nat) : List JSString :=
  match m.propertyList with
  | some l => l
  | none => ownKeys (env.obj a)

/-- The function `serializeObject (value)` on the object at address `a`, with
`sp` standing for `serializeProperty`. -/
def serializeObjectWith (env : Env) (sp : JSString → Value → State → Res (Option JSString))
    (a : Nat) (st : State) : Res JSString :=
  if a ∈ st.mod.stack then .throw .circular st
  else
    let stepback := st.mod.indent
    let st1 : State :=
      { st with mod := { st.mod with stack := st.mod.stack ++ [a],
                                     indent := st.mod.indent ++ st.mod.gap } }
    let keys := keysOf env st1.mod a
    match serializeMembers env sp (.ref a) keys [] st1 with
    | .ok partials st2 =>
      let final := assemble (js "\x7b") (js "\x7d") partials st2.mod.gap st2.mod.indent stepback
      .ok final { st2 with mod := { st2.mod with stack := st2.mod.stack.dropLast,
                                                 indent := stepback } }
    | .throw e st2 => .throw e st2
    | .outOfFuel => .outOfFuel

/-- `value.length` of the object at an address. -/
def arrayLength (env : Env) (a : Nat) : Nat :=
  match (env.obj a).kind with
  | .array elems => elems.length
  | _ => 0

/-- The loop `for (let i = 0; i < value.length; i++)` of `serializeArray`
(source lines 185-188), over the indices still to visit. -/
def serializeElements (sp : JSString → Value → State → Res (Option JSString))
    (value : Value) : List Nat → List JSString → State → Res (List JSString)
  | [], partials, st => .ok partials st
  | i :: rest, partials, st =>
    match sp (decimal i) value st with
    | .ok propertyString st1 =>
      serializeElements sp value rest (partials ++ [propertyString.getD (js "null")]) st1
    | .throw e st1 => .throw e st1
    | .outOfFuel => .outOfFuel

/-- The function `serializeArray (value)` on the array at address `a`. -/
def serializeArrayWith (env : Env) (sp : JSString → Value → State → Res (Option JSString))
    (a : Nat) (st : State) : Res JSString :=
  if a ∈ st.mod.stack then .throw .circular st
  else
    let stepback := st.mod.indent
    let st1 : State :=
      { st with mod := { st.mod with stack := st.mod.stack ++ [a],
                                     indent := st.mod.indent ++ st.mod.gap } }
    match serializeElements sp (.ref a) (List.range (arrayLength env a)) [] st1 with
    | .ok partials st2 =>
      let final := assemble (js "[") (js "]") partials st2.mod.gap st2.mod.indent stepback
      .ok final { st2 with mod := { st2.mod with stack := st2.mod.stack.dropLast,
                                                 indent := stepback } }
    | .throw e st2 => .throw e st2
    | .outOfFuel => .outOfFuel

/-- A text result as the result of `serializeProperty`. -/
def Res.present : Res JSString → Res (Option JSString)
  | .ok t st => .ok (some t) st
  | .throw e st => .throw e st
  | .outOfFuel => .outOfFuel

/-- Source lines 26-44: the text of the value left by the hook and the
replacer, with `sp` standing for `serializeProperty` in the calls of
`serializeArray` and `serializeObject`. -/
def serializeValue (env : Env) (sp : JSString → Value → State → Res (Option JSString))
    (value : Value) (st : State) : Res (Option JSString) :=
  match value with
  | .null => .ok (some (js "null")) st
  | .bool true => .ok (some (js "true")) st
  | .bool false => .ok (some (js "false")) st
  | .string s => .ok (some (quoteString s false)) st
  | .number n => .ok (some (if n.isFinite then numberString env n else js "null")) st
  | .ref a =>
    match (env.obj a).kind with
    | .array _ => (serializeArrayWith env sp a st).present
    | .plain => (serializeObjectWith env sp a st).present
    | .function _ => .ok none st
  | .undefined => .ok none st

/-- The function `serializeProperty (key, holder)`; the first argument bounds
the depth of the recursion. -/
def serializeProperty (env : Env) : Nat → JSString → Value → State → Res (Option JSString)
  | 0, _, _, _ => .outOfFuel
  | fuel + 1, key, holder, st =>
    match applyHook env key (member env holder key) st with
    | .ok value st1 =>
      match applyReplacer env key holder value st1 with
      | .ok value st2 => serializeValue env (serializeProperty env fuel) value st2
      | .throw e st2 => .throw e st2
      | .outOfFuel => .outOfFuel
    | .throw e st1 => .throw e st1
    | .outOfFuel => .outOfFuel

/-- The function `serializeObject (value)`, its calls of `serializeProperty`
having recursion depth `fuel`. -/
def serializeObject (env : Env) (fuel : Nat) (a : Nat) (st : State) : Res JSString :=
  serializeObjectWith env (serializeProperty env fuel) a st

/-- The function `serializeArray (value)`, its calls of `serializeProperty`
having recursion depth `fuel`. -/
def serializeArray (env : Env) (fuel : Nat) (a : Nat) (st : State) : Res JSString :=
  serializeArrayWith env (serializeProperty env fuel) a st

/-! ## `stringify` (source lines 209-245) -/

/-- The test `space > 0` on a number. -/
def JSNumber.isPositive : JSNumber → Bool
  | .finite false mant _ => decide (0 < mant)
  | .infinity false => true
  | _ => false

/-- `Math.min(10, Math.floor(space))` for a positive number. -/
def floorMin10 : JSNumber → Nat
  | .finite _ mant (.ofNat e) => min 10 (mant * 2 ^ e)
  | .finite _ mant (.negSucc e) => min 10 (mant / 2 ^ (e + 1))
  | _ => 10

/-- Source lines 235-242: the gap computed from `space`. -/
def gapOf (space : Value) : JSString :=
  match space with
  | .number n => if n.isPositive then (js "          ").take (floorMin10 n) else []
  | .string s => s.take 10
  | _ => []

/-- Source lines 220-232: the property list built from the items of an array
replacer. -/
def buildPropertyList (env : Env) : List Value → List JSString → List JSString
  | [], propertyList => propertyList
  | v :: rest, propertyList =>
    let item : Option JSString := match v with
      | .string s => some s
      | .number n => some (numberString env n)
      | _ => none
    match item with
    | some t =>
      if t ∈ propertyList then buildPropertyList env rest propertyList
      else buildPropertyList env rest (propertyList ++ [t])
    | none => buildPropertyList env rest propertyList

/-- Source lines 210-242: the module variables as `stringify` sets them
before the traversal. -/
def initialModule (env : Env) (replacer space : Value) : ModuleState :=
  let m : ModuleState :=
    { stack := [], indent := [], propertyList := none, replacerFunc := none, gap := [] }
  let m : ModuleState :=
    match callable? env replacer with
    | some f => { m with replacerFunc := some f }
    | none =>
      match replacer with
      | .ref a =>
        match (env.obj a).kind with
        | .array elems => { m with propertyList := some (buildPropertyList env elems []) }
        | _ => m
      | _ => m
  { m with gap := gapOf space }

/-- The heap after the holder object `{'': value}` of source line 244 has been
created at the next free address (the only read of the holder is that of its
own key, the empty string). -/
def withHolder (env : Env) (value : Value) : Env :=
  { env with heap := env.heap ++ [{ kind := .plain, props := [([], value)] }] }

/-- The function `stringify (value, replacer, space)`, run from the state `st`
a previous call has left, with recursion depth `fuel`. -/
def stringify (env : Env) (fuel : Nat) (value replacer space : Value) (st : State) :
    Res (Option JSString) :=
  serializeProperty (withHolder env value) fuel [] (.ref env.heap.length)
    { mod := initialModule env replacer space, calls := st.calls }

/-- The value a step returned, if it returned. -/
def Res.value? {α : Type} : Res α → Option α
  | .ok a _ => some a
  | _ => none

/-- The state a step ended in, if it ended with a value or an exception. -/
def Res.state? {α : Type} : Res α → Option State
  | .ok _ st => some st
  | .throw _ st => some st
  | .outOfFuel => none

/-! ## Notions used to state the properties -/

/-- The user functions do not change the module variables: whatever they are
called with, they return or throw with the module variables they were given
(in particular they do not call `stringify`). -/
def Env.StateFree (env : Env) : Prop :=
  ∀ f m receiver args, ∃ v,
    env.call f m receiver args = .returns v m ∨ env.call f m receiver args = .throws v m

/-- A per-property function that gives the module variables back unchanged
whenever it returns. -/
def FramePreserving (sp : JSString → Value → State → Res (Option JSString)) : Prop :=
  ∀ key holder st r st1, sp key holder st = .ok r st1 → st1.mod = st.mod

/-- The state in which the loop of `serializeObject` or `serializeArray`
starts: the object pushed on the stack and the indent extended by the gap. -/
def entered (st : State) (a : Nat) : State :=
  { st with mod := { st.mod with stack := st.mod.stack ++ [a],
                                 indent := st.mod.indent ++ st.mod.gap } }

/-- The layout of a container in the words of the specification: the two
brackets alone when there is no entry; the entries joined by a comma when the
gap is empty; otherwise a line break and the inner indent before the first
entry, a comma, a line break and the inner indent between entries, and a
trailing comma, a line break and the outer indent before the closing bracket. -/
def layout (opening closing gap indent : JSString) (entries : List JSString) : JSString :=
  match entries with
  | [] => opening ++ closing
  | _ :: _ =>
    if gap = [] then opening ++ (js ",").intercalate entries ++ closing
    else
      opening ++ js "\n" ++ (indent ++ gap)
        ++ (js ",\n" ++ (indent ++ gap)).intercalate entries
        ++ js ",\n" ++ indent ++ closing

/-- The loop of `serializeObject`, keeping with each member the key it was
built from. -/
def memberEntries (env : Env) (sp : JSString → Value → State → Res (Option JSString))
    (value : Value) : List JSString → State → Res (List (JSString × JSString))
  | [], st => .ok [] st
  | key :: keys, st =>
    match sp key value st with
    | .ok none st1 => memberEntries env sp value keys st1
    | .ok (some propertyString) st1 =>
      match serializeKey env key with
      | .error e => .throw e st1
      | .ok keyText =>
        match memberEntries env sp value keys st1 with
        | .ok rest st2 => .ok ((key, memberText st1.mod.gap keyText propertyString) :: rest) st2
        | .throw e st2 => .throw e st2
        | .outOfFuel => .outOfFuel
    | .throw e st1 => .throw e st1
    | .outOfFuel => .outOfFuel

/-- The per-value results of the elements of an array, in index order. -/
def elementResults (sp : JSString → Value → State → Res (Option JSString))
    (value : Value) : List Nat → State → Res (List (Option JSString))
  | [], st => .ok [] st
  | i :: rest, st =>
    match sp (decimal i) value st with
    | .ok r st1 =>
      match elementResults sp value rest st1 with
      | .ok rs st2 => .ok (r :: rs) st2
      | .throw e st2 => .throw e st2
      | .outOfFuel => .outOfFuel
    | .throw e st1 => .throw e st1
    | .outOfFuel => .outOfFuel

/-- The first hook a value exposes, in the order `toJSONext`, `toJSON5`,
`toJSON`. -/
def firstHook (env : Env) (value : Value) : Option Nat :=
  ([js "toJSONext", js "toJSON5", js "toJSON"].filterMap
    (fun name => callable? env (member env value name))).head?

/-- The result of a step with its value transformed. -/
def Res.map {α β : Type} (f : α → β) : Res α → Res β
  | .ok a st => .ok (f a) st
  | .throw e st => .throw e st
  | .outOfFuel => .outOfFuel

/-! ## Example environment -/

/-- The number `n` as a double. -/
def num (n : Nat) : Value := .number (.finite false n 0)

/-- An environment for the examples.  Its heap holds `{a: 1, b: 2}` at
address 0, `[0, 1, 2]` at 1, function 0 at 2, `{b: 1, '2': 2}` (declared in
this order) at 3, at 4 an object whose only property `toJSONExtended` is the
function at address 5, function 1 at 5, at 6 an object with the two hooks
`toJSON` (function 1) and `toJSON5` (function 2), and function 2 at 7.  Its
classifiers accept the ASCII letters, `$` and `_` as start and also the digits,
U+200C and U+200D as continuation, and the letter U+1D49C as both; `String(n)`
is the decimal text of a non-negative integer; function 0 is the replacer
`(k, v) => k === '1' ? undefined : v`, function 1 returns the string `hooked`
and every other function returns the number 5. -/
def exampleEnv : Env where
  heap :=
    [ { kind := .plain, props := [(js "a", num 1), (js "b", num 2)] },
      { kind := .array [num 0, num 1, num 2], props := [] },
      { kind := .function 0, props := [] },
      { kind := .plain, props := [(js "b", num 1), (js "2", num 2)] },
      { kind := .plain, props := [(js "toJSONExtended", .ref 5)] },
      { kind := .function 1, props := [] },
      { kind := .plain, props := [(js "toJSON", .ref 5), (js "toJSON5", .ref 7)] },
      { kind := .function 2, props := [] } ]
  isIdStartChar := fun c =>
    match c with
    | [u] => decide (65 ≤ u ∧ u ≤ 90) || decide (97 ≤ u ∧ u ≤ 122) || u == 36 || u == 95
    | _ => c == [0xD835, 0xDC9C]
  isIdContinueChar := fun c =>
    match c with
    | [u] => decide (65 ≤ u ∧ u ≤ 90) || decide (97 ≤ u ∧ u ≤ 122) || u == 36 || u == 95
        || decide (48 ≤ u ∧ u ≤ 57) || u == 0x200C || u == 0x200D
    | _ => c == [0xD835, 0xDC9C]
  numberToString := fun n =>
    match n with
    | .finite false mant (.ofNat e) => decimal (mant * 2 ^ e)
    | _ => []
  call := fun f m _ args =>
    if f = 0 then
      match args with
      | [.string k, v] => .returns (if k = js "1" then .undefined else v) m
      | _ => .returns .undefined m
    else if f = 1 then .returns (.string (js "hooked")) m
    else .returns (num 5) m

/-- The module state before any call of `stringify`, with an empty call log. -/
def idleState : State :=
  { mod := { stack := [], indent := [], propertyList := none, replacerFunc := none, gap := [] },
    calls := [] }

/-- The module state inside a call `stringify(value, null, 2)`, before the
root value is entered. -/
def twoSpaceState : State :=
  { mod := { stack := [], indent := [], propertyList := none, replacerFunc := none,
             gap := js "  " },
    calls := [] }

/-! ## The string literals of the parser -/

/-- The value of a run of hexadecimal digits. -/
def hexValue? : List Nat → Option Nat
  | [] => some 0
  | d :: rest =>
    match hexDigitValue? d, hexValue? rest with
    | some a, some b => some (a * 16 ^ rest.length + b)
    | _, _ => none

/-- Modelled from the spec: the body of a quoted or template-quoted string of
the lexer (section 4.2), which is not among the sources at hand.  The text
after the opening delimiter `q` is decoded up to the closing delimiter, which
must end the text: `\b \f \n \r \t \v \0`, `\xHH` with exactly two hexadecimal
digits, `\uHHHH` with exactly four and `\u` with one or more between braces, a
backslash before a line terminator contributing nothing (CR LF as one unit), a
backslash before any other character contributing that character; in a
template a raw CR or CR LF is read as LF.  `none` is a syntax failure.  The
first argument bounds the number of steps. -/
def decodeBody (q : Nat) : Nat → JSString → Option JSString
  | 0, _ => none
  | _ + 1, [] => none
  | fuel + 1, u :: rest =>
    if u = q then (if rest = [] then some [] else none)
    else if u = BACKSLASH then
      match rest with
      | [] => none
      | v :: rest1 =>
        if v = 98 then (decodeBody q fuel rest1).map (fun t => 8 :: t)
        else if v = 102 then (decodeBody q fuel rest1).map (fun t => 12 :: t)
        else if v = 110 then (decodeBody q fuel rest1).map (fun t => 10 :: t)
        else if v = 114 then (decodeBody q fuel rest1).map (fun t => 13 :: t)
        else if v = 116 then (decodeBody q fuel rest1).map (fun t => 9 :: t)
        else if v = 118 then (decodeBody q fuel rest1).map (fun t => 11 :: t)
        else if v = 48 then (decodeBody q fuel rest1).map (fun t => 0 :: t)
        else if v = 120 then
          match hexValue? (rest1.take 2) with
          | some n =>
            if (rest1.take 2).length = 2 then
              (decodeBody q fuel (rest1.drop 2)).map (fun t => n :: t)
            else none
          | none => none
        else if v = 117 then
          if rest1.head? = some 123 then
            let digits := (rest1.drop 1).takeWhile (fun d => d ≠ 125)
            match hexValue? digits with
            | some n =>
              if digits ≠ [] ∧ n ≤ 0x10FFFF ∧ digits.length < (rest1.drop 1).length then
                (decodeBody q fuel (rest1.drop (digits.length + 2))).map
                  (fun t => (if n < 0x10000 then [n]
                    else [0xD800 + (n - 0x10000) / 0x400, 0xDC00 + (n - 0x10000) % 0x400]) ++ t)
              else none
            | none => none
          else
            match hexValue? (rest1.take 4) with
            | some n =>
              if (rest1.take 4).length = 4 then
                (decodeBody q fuel (rest1.drop 4)).map (fun t => n :: t)
              else none
            | none => none
        else if v = 10 ∨ v = 0x2028 ∨ v = 0x2029 then decodeBody q fuel rest1
        else if v = 13 then
          (if rest1.head? = some 10 then decodeBody q fuel (rest1.drop 1)
           else decodeBody q fuel rest1)
        else (decodeBody q fuel rest1).map (fun t => v :: t)
    else if u = 13 ∧ q = BACKTICK then
      (if rest.head? = some 10 then (decodeBody q fuel (rest.drop 1)).map (fun t => 10 :: t)
       else (decodeBody q fuel rest).map (fun t => 10 :: t))
    else if (u = 10 ∨ u = 13) ∧ q ≠ BACKTICK then none
    else (decodeBody q fuel rest).map (fun t => u :: t)

/-- Modelled from the spec: the parser on a text that is one string or
template token (sections 4.2 and 4.3, `value := string | template`), which is
not among the sources at hand; the value is the decoded body. -/
def parseString (text : JSString) : Option JSString :=
  match text with
  | [] => none
  | q :: rest =>
    if q = APOSTROPHE ∨ q = DQUOTE ∨ q = BACKTICK then decodeBody q (rest.length + 1) rest
    else none

/-! ## Notions used to state the properties of the allow-list, the gap and the result -/

/-- The elements of a list without their later repetitions, in the order of
their first occurrences. -/
def firstOccurrences : List JSString → List JSString
  | [] => []
  | x :: xs => x :: (firstOccurrences xs).filter (fun y => y ≠ x)

/-- The names an array replacer lists, in the words of the specification: its
strings, its numbers as their text `String(n)`, its other items left out. -/
def allowListItems (env : Env) (items : List Value) : List JSString :=
  items.filterMap (fun v =>
    match v with
    | .string s => some s
    | .number n => some (numberString env n)
    | _ => none)

/-- The rational value of a finite double (and 0 for the others). -/
def JSNumber.toRat : JSNumber → ℚ
  | .finite neg mant exp => (if neg then -1 else 1) * (mant : ℚ) * (2 : ℚ) ^ exp
  | _ => 0

/-- The number of spaces a numeric `space` asks for, in the words of the
specification: `min(10, max(0, floor(n)))`, with ten for `Infinity` and none
for `-Infinity` and `NaN`. -/
def spaceCount : JSNumber → Nat
  | .finite neg mant exp => min 10 (max 0 ⌊(JSNumber.finite neg mant exp).toRat⌋).toNat
  | .infinity false => 10
  | _ => 0

/-- The compact texts: the scalars, the quoted strings, and arrays and objects
whose entries are compact texts separated by one comma and nothing else, a
member being the text of its key, a colon and the text of its value. -/
inductive CompactText (env : Env) : JSString → Prop
  | null : CompactText env (js "null")
  | true : CompactText env (js "true")
  | false : CompactText env (js "false")
  | string (s : JSString) : CompactText env (quoteString s false)
  | number (n : JSNumber) : CompactText env (numberString env n)
  | array (items : List JSString) :
      (∀ t ∈ items, CompactText env t) →
      CompactText env (js "[" ++ (js ",").intercalate items ++ js "]")
  | object (members : List (JSString × JSString)) :
      (∀ m ∈ members, ∃ key, serializeKey env key = .ok m.1) →
      (∀ m ∈ members, CompactText env m.2) →
      CompactText env
        (js "\x7b" ++ (js ",").intercalate (members.map (fun m => m.1 ++ js ":" ++ m.2))
          ++ js "\x7d")

/-- The value is a function object. -/
def isFunction (env : Env) (v : Value) : Prop :=
  ∃ a f, v = .ref a ∧ (env.obj a).kind = .function f

/-- The value is an array or a plain object. -/
def isContainer (env : Env) (v : Value) : Prop :=
  ∃ a, v = .ref a ∧ ((∃ elems, (env.obj a).kind = .array elems) ∨ (env.obj a).kind = .plain)

/-! ## A second example environment: sharing, cycles, a re-entrant hook -/

/-- The heap of the second example environment: at 0 `{a: 1, b: 2, c: o1}`
with `o1 = {a: 3, b: 4}` at 1; at 2 the array `['b', 'a', 'b', 7, null]`; at 3
the array `[o1, o1]`; at 4 an array that is its own only element; at 5 and 6
the objects `{x: o6}` and `{y: o5}`; at 7 function 0; at 8 an object without
properties; at 9 the array `[o8, 1]`; at 10 the object whose only key is the
empty string, with value 1; at 11 `[undefined, f]` with `f` the function at 7;
at 12 `{a: undefined, f: f}`. -/
def circularHeap : List Obj :=
  [ { kind := .plain, props := [(js "a", num 1), (js "b", num 2), (js "c", .ref 1)] },
    { kind := .plain, props := [(js "a", num 3), (js "b", num 4)] },
    { kind := .array [.string (js "b"), .string (js "a"), .string (js "b"), num 7, .null],
      props := [] },
    { kind := .array [.ref 1, .ref 1], props := [] },
    { kind := .array [.ref 4], props := [] },
    { kind := .plain, props := [(js "x", .ref 6)] },
    { kind := .plain, props := [(js "y", .ref 5)] },
    { kind := .function 0, props := [] },
    { kind := .plain, props := [] },
    { kind := .array [.ref 8, num 1], props := [] },
    { kind := .plain, props := [([], num 1)] },
    { kind := .array [.undefined, .ref 7], props := [] },
    { kind := .plain, props := [(js "a", .undefined), (js "f", .ref 7)] } ]

/-- The second example environment, with the classifiers and `String(n)` of
the first; no value of its heap has a hook; its function returns the number 0
and leaves the module variables alone. -/
def circularEnv : Env :=
  { exampleEnv with
    heap := circularHeap
    call := fun _ m _ _ => .returns (num 0) m }

/-- The second example environment with the object at 8 replaced by
`{toJSON: f}`, `f` returning the number 0 and leaving the module variables
alone. -/
def hookEnv : Env :=
  { circularEnv with
    heap := circularHeap.set 8 { kind := .plain, props := [(js "toJSON", .ref 7)] } }

/-- The module variables after a call `stringify('x')` made when they were `m`. -/
def afterNestedCall (m : ModuleState) : ModuleState :=
  match stringify circularEnv 1 (.string (js "x")) .undefined .undefined
      { mod := m, calls := [] } with
  | .ok _ st => st.mod
  | .throw _ st => st.mod
  | .outOfFuel => m

/-- The environment `hookEnv` with a re-entrant function instead: `f` calls
`stringify('x')` and then returns the number 0. -/
def reentrantEnv : Env :=
  { hookEnv with call := fun _ m _ _ => .returns (num 0) (afterNestedCall m) }

/-! ## Notions used to state the properties of the traversal state -/

/-- The error a step ended with, if it ended with one. -/
def Res.error? {α : Type} : Res α → Option JSError
  | .throw e _ => some e
  | _ => none

/-- A state without its log of calls. -/
def State.forget (st : State) : State := { st with calls := [] }

/-- A result without the log of calls of its state: the value or the error,
and the module variables. -/
def Res.forget {α : Type} : Res α → Res α
  | .ok a st => .ok a st.forget
  | .throw e st => .throw e st.forget
  | .outOfFuel => .outOfFuel

/-- The gap repeated `d` times. -/
def repeatGap (gap : JSString) (d : Nat) : JSString := (List.replicate d gap).flatten

/-- No value exposes a custom hook. -/
def Env.NoHooks (env : Env) : Prop := ∀ v, firstHook env v = none

/-- The environment with user functions that do nothing. -/
def Env.quiet (env : Env) : Env := { env with call := fun _ m _ _ => .returns .undefined m }

/-- The values the loop of `serializeArray` or `serializeObject` reads from the
container at an address when no allow-list is set: the elements of an array,
the values of the own keys of a plain object. -/
def childValues (env : Env) (a : Nat) : List Value :=
  match (env.obj a).kind with
  | .array elems => (List.range elems.length).map (fun i => member env (.ref a) (decimal i))
  | .plain => (ownKeys (env.obj a)).map (fun k => member env (.ref a) k)
  | .function _ => []

/-- The address holds an array or a plain object. -/
def isContainerAt (env : Env) (a : Nat) : Prop :=
  (∃ elems, (env.obj a).kind = .array elems) ∨ (env.obj a).kind = .plain

/-- The descent from the container at `a`, whose ancestors are `path`, can
reach a container that is then one of its own ancestors: `a` itself is on the
path, or one of the containers `a` holds can reach one with `a` added to the
path. -/
inductive ReachesAncestor (env : Env) : List Nat → Nat → Prop
  | onPath (path : List Nat) (a : Nat) :
      a ∈ path → isContainerAt env a → ReachesAncestor env path a
  | deeper (path : List Nat) (a b : Nat) :
      a ∉ path → isContainerAt env a → .ref b ∈ childValues env a →
      ReachesAncestor env (path ++ [a]) b → ReachesAncestor env path a

/-- A per-property function whose value, error and final module variables do
not depend on the log of calls of the state it starts from. -/
def Blind (sp : JSString → Value → State → Res (Option JSString)) : Prop :=
  ∀ key holder st st1, st.mod = st1.mod →
    (sp key holder st).forget = (sp key holder st1).forget

/-- The state a call `stringify(a)` leaves when `a` is the array at 4 of the
second example environment, which is its own element: the call has ended with
the circular-structure error and the stack still holds the array. -/
def abortedState : State :=
  { mod := { stack := [4], indent := [], propertyList := none, replacerFunc := none,
             gap := [] },
    calls := [] }

/-- The module state inside `stringify(o0, null, 2)` of the second example
environment while the members of `o0` are serialized: `o0` on the stack, the
indent one gap. -/
def depthOneState : State :=
  { mod := { stack := [0], indent := js "  ", propertyList := none, replacerFunc := none,
             gap := js "  " },
    calls := [] }

/-- The number of heap addresses that are not on the stack. -/
def freeSlots (env : Env) (stack : List Nat) : Nat :=
  ((List.range env.heap.length).filter (fun a => decide (a ∉ stack))).length

/-! ## A third example environment: inherited properties, hooks that call `stringify` -/

/-- The heap of the third example environment: at 0 `{a: 1, k: o1}` with
`o1 = {toJSON: f}` at 1 and `f`, function 0, at 2; at 3 the array `[o1, 1]`;
at 4 `{k: o1, c: o5}` with `o5 = {a: 3, b: 4}` at 5; at 6 the array
`['k', 'c']`; at 7 an object `P` without enumerable properties on which a read
of `__proto__` gives `null`, as on `Object.prototype`; at 8 the object
`{a: 1, b: 2}` whose prototype is `P`, so that a read of `__proto__` on it
gives `P`; at 9 the array `['__proto__']`; at 10 the object `Q = {x: 1}`; at 11
the object made by `Object.create(Q)` and given the property `a: 5`, which
inherits `x`; at 12 the array `['x', 'a']`.  Of the inherited properties only
those the examples read are listed. -/
def nestedHeap : List Obj :=
  [ { kind := .plain, props := [(js "a", num 1), (js "k", .ref 1)] },
    { kind := .plain, props := [(js "toJSON", .ref 2)] },
    { kind := .function 0, props := [] },
    { kind := .array [.ref 1, num 1], props := [] },
    { kind := .plain, props := [(js "k", .ref 1), (js "c", .ref 5)] },
    { kind := .plain, props := [(js "a", num 3), (js "b", num 4)] },
    { kind := .array [.string (js "k"), .string (js "c")], props := [] },
    { kind := .plain, props := [], inherited := [(js "__proto__", .null)] },
    { kind := .plain, props := [(js "a", num 1), (js "b", num 2)],
      inherited := [(js "__proto__", .ref 7)] },
    { kind := .array [.string (js "__proto__")], props := [] },
    { kind := .plain, props := [(js "x", num 1)] },
    { kind := .plain, props := [(js "a", num 5)], inherited := [(js "x", num 1)] },
    { kind := .array [.string (js "x"), .string (js "a")], props := [] } ]

/-- The module variables after a call `stringify('x', null, space)` made when
they were `m` (a call on a string reads neither the heap nor a user function,
so the environment it is run in does not matter). -/
def afterNestedCallWith (space : Value) (m : ModuleState) : ModuleState :=
  match stringify circularEnv 1 (.string (js "x")) .null space { mod := m, calls := [] } with
  | .ok _ st => st.mod
  | .throw _ st => st.mod
  | .outOfFuel => m

/-- The third example environment, with the classifiers and `String(n)` of the
first: its function calls `stringify('x', null, space)` and then returns the
number 0. -/
def nestingEnv (space : Value) : Env :=
  { exampleEnv with
    heap := nestedHeap
    call := fun _ m _ _ => .returns (num 0) (afterNestedCallWith space m) }

/-- The environment whose user functions return or throw what those of `env`
do and leave the module variables as they found them: the run in which the
functions make no call of `stringify`. -/
def Env.restoring (env : Env) : Env :=
  { env with
    call := fun f m receiver args =>
      match env.call f m receiver args with
      | .returns v _ => .returns v m
      | .throws e _ => .throws e m }

/-! ## Lemmas on the string iterator -/

theorem stringIterator_shape (s : JSString) :
    ∀ c ∈ stringIterator s, (∃ u, c = [u]) ∨
      ∃ u v, c = [u, v] ∧ isHighSurrogate u = true ∧ isLowSurrogate v = true := by
  induction s using stringIterator.induct with
  | case1 => simp [stringIterator]
  | case2 u => simp [stringIterator]
  | case3 u v rest h ih =>
    intro c hc
    rw [stringIterator, if_pos h] at hc
    rcases List.mem_cons.1 hc with rfl | hc
    · simp only [Bool.and_eq_true] at h
      exact Or.inr ⟨u, v, rfl, h.1, h.2⟩
    · exact ih c hc
  | case4 u v rest h ih =>
    intro c hc
    rw [stringIterator, if_neg h] at hc
    rcases List.mem_cons.1 hc with rfl | hc
    · exact Or.inl ⟨u, rfl⟩
    · exact ih c hc

theorem stringIterator_flatten (s : JSString) : (stringIterator s).flatten = s := by
  induction s using stringIterator.induct with
  | case1 => simp [stringIterator]
  | case2 u => simp [stringIterator]
  | case3 u v rest h ih => rw [stringIterator, if_pos h]; simp [ih]
  | case4 u v rest h ih => rw [stringIterator, if_neg h]; simp [ih]

theorem stringIterator_count (s : JSString) (q : Nat)
    (hq : isHighSurrogate q = false) (hq' : isLowSurrogate q = false) :
    (stringIterator s).count [q] = s.count q := by
  induction s using stringIterator.induct with
  | case1 => simp [stringIterator]
  | case2 u => simp [stringIterator, List.count_cons]
  | case3 u v rest h ih =>
    rw [stringIterator, if_pos h]
    simp only [Bool.and_eq_true] at h
    have hu : u ≠ q := by rintro rfl; rw [hq] at h; exact absurd h.1 (by simp)
    have hv : v ≠ q := by rintro rfl; rw [hq'] at h; exact absurd h.2 (by simp)
    simp [List.count_cons, ih, hu, hv]
  | case4 u v rest h ih =>
    rw [stringIterator, if_neg h]
    simp [List.count_cons, ih]


/-! ## Lemmas on the loop of `quoteString` -/

theorem quoteStep_product (isKey : Bool) (st : QuoteLoop) (c : JSString) :
    (quoteStep isKey st c).product = st.product ++ emittedText isKey c := by
  unfold emittedText quoteStep
  split
  · simp
  · split
    · simp
    · split
      · simp
      · split <;> simp

theorem quoteStep_quotes (isKey : Bool) (st : QuoteLoop) (c : JSString) :
    (quoteStep isKey st c).quotes =
      if c = [APOSTROPHE] ∨ c = [DQUOTE] ∨ (c = [BACKTICK] ∧ isKey = false)
      then incrementQuote st.quotes c else st.quotes := by
  by_cases h1 : c = [APOSTROPHE] ∨ c = [DQUOTE]
  · have hp : c = [APOSTROPHE] ∨ c = [DQUOTE] ∨ (c = [BACKTICK] ∧ isKey = false) := by tauto
    rw [if_pos hp]; unfold quoteStep; rw [if_pos h1]
  · by_cases h2 : c = [BACKTICK]
    · unfold quoteStep; rw [if_neg h1, if_pos h2]
      cases isKey <;> simp [h2, APOSTROPHE, DQUOTE, BACKTICK]
    · have hn : ¬ (c = [APOSTROPHE] ∨ c = [DQUOTE] ∨ (c = [BACKTICK] ∧ isKey = false)) := by
        tauto
      rw [if_neg hn]; unfold quoteStep; rw [if_neg h1, if_neg h2]
      cases lookupProp (replacementsInit isKey) c with
      | some r => rfl
      | none =>
        by_cases h3 : jsStringLt c [32] = true
        · simp [h3]
        · simp [h3]

theorem emittedText_low : ∀ u < 32, ∀ isKey : Bool,
    emittedText isKey [u] = mandatoryEscape u := by decide

theorem emittedText_single (isKey : Bool) (u : Nat) :
    emittedText isKey [u] = escapeProcessed [u] := by
  by_cases h : u < 32
  · simp [escapeProcessed, needsEscape, h, emittedText_low u h isKey]
  · by_cases h1 : u = 0x2028
    · subst h1; revert isKey; decide
    · by_cases h2 : u = 0x2029
      · subst h2; revert isKey; decide
      · by_cases h3 : u = 39
        · subst h3; revert isKey; decide
        · by_cases h4 : u = 34
          · subst h4; revert isKey; decide
          · by_cases h5 : u = 96
            · subst h5; revert isKey; decide
            · have e : escapeProcessed [u] = [u] := by
                simp [escapeProcessed, needsEscape, h, h1, h2]
              have n8 : u ≠ 8 := by omega
              have n12 : u ≠ 12 := by omega
              have n10 : u ≠ 10 := by omega
              have n13 : u ≠ 13 := by omega
              have n9 : u ≠ 9 := by omega
              have n11 : u ≠ 11 := by omega
              have n0 : u ≠ 0 := by omega
              have hlt : ¬ u < 32 := h
              rw [e]
              cases isKey <;>
              simp [emittedText, quoteStep, lookupProp, replacementsInit, APOSTROPHE, DQUOTE,
                BACKTICK, BACKSLASH, jsStringLt, h1, h2, h3, h4, h5, n8, n12, n10, n13, n9, n11,
                n0, hlt, Ne.symm h3, Ne.symm h4, Ne.symm h5, Ne.symm n8, Ne.symm n12,
                Ne.symm n10, Ne.symm n13, Ne.symm n9, Ne.symm n11, Ne.symm n0, Ne.symm h1,
                Ne.symm h2]

theorem emittedText_pair (isKey : Bool) (u v : Nat) (hu : isHighSurrogate u = true) :
    emittedText isKey [u, v] = [u, v] := by
  have h : 0xD800 ≤ u := by
    simp only [isHighSurrogate, Bool.and_eq_true, decide_eq_true_eq] at hu; exact hu.1
  have h1 : ¬ u < 32 := by omega
  have h2 : 32 < u := by omega
  cases isKey <;>
  simp [emittedText, quoteStep, lookupProp, replacementsInit, APOSTROPHE, DQUOTE,
    BACKTICK, BACKSLASH, jsStringLt, h1, h2]

theorem emittedText_chunk (isKey : Bool) (s : JSString) :
    ∀ c ∈ stringIterator s, emittedText isKey c = escapeProcessed c := by
  intro c hc
  rcases stringIterator_shape s c hc with ⟨u, rfl⟩ | ⟨u, v, rfl, hu, _⟩
  · exact emittedText_single isKey u
  · rw [emittedText_pair isKey u v hu]; rfl


theorem foldl_quoteStep_product (isKey : Bool) (l : List JSString) (st : QuoteLoop) :
    (l.foldl (quoteStep isKey) st).product
      = st.product ++ (l.map (emittedText isKey)).flatten := by
  induction l generalizing st with
  | nil => simp
  | cons c l ih => simp [List.foldl_cons, ih, quoteStep_product, List.append_assoc]

theorem quoteLoop_product (s : JSString) (isKey : Bool) :
    (quoteLoop s isKey).product = escapeProcessedText s := by
  unfold quoteLoop escapeProcessedText
  rw [foldl_quoteStep_product]
  simp only [List.nil_append]
  congr 1
  exact List.map_congr_left (emittedText_chunk isKey s)

theorem incrementQuote_quotesAfter (isKey : Bool) (a b c : Nat) (x : JSString) :
    (x = [APOSTROPHE] → incrementQuote (quotesAfter isKey a b c) x
        = quotesAfter isKey (a + 1) b c) ∧
    (x = [DQUOTE] → incrementQuote (quotesAfter isKey a b c) x
        = quotesAfter isKey a (b + 1) c) ∧
    (x = [BACKTICK] → isKey = false → incrementQuote (quotesAfter isKey a b c) x
        = quotesAfter isKey a b (c + 1)) := by
  refine ⟨?_, ?_, ?_⟩
  · rintro rfl
    cases isKey <;>
      simp [incrementQuote, quotesAfter, APOSTROPHE, DQUOTE, BACKTICK] <;> omega
  · rintro rfl
    cases isKey <;>
      simp [incrementQuote, quotesAfter, APOSTROPHE, DQUOTE, BACKTICK] <;> omega
  · rintro rfl rfl
    simp [incrementQuote, quotesAfter, APOSTROPHE, DQUOTE, BACKTICK]; omega

theorem quotesAfter_key (a b c c' : Nat) : quotesAfter true a b c = quotesAfter true a b c' := by
  simp [quotesAfter]

theorem foldl_quoteStep_quotes (isKey : Bool) (l : List JSString) :
    ∀ (st : QuoteLoop) (a b c : Nat), st.quotes = quotesAfter isKey a b c →
      (l.foldl (quoteStep isKey) st).quotes
        = quotesAfter isKey (a + l.count [APOSTROPHE]) (b + l.count [DQUOTE])
            (c + l.count [BACKTICK]) := by
  induction l with
  | nil => intro st a b c h; simpa using h
  | cons x l ih =>
    intro st a b c h
    rw [List.foldl_cons]
    obtain ⟨h1, h2, h3⟩ := incrementQuote_quotesAfter isKey a b c x
    by_cases e1 : x = [APOSTROPHE]
    · have hq : (quoteStep isKey st x).quotes = quotesAfter isKey (a + 1) b c := by
        rw [quoteStep_quotes, if_pos (Or.inl e1), h, h1 e1]
      rw [ih _ _ _ _ hq]; subst e1
      simp [List.count_cons, APOSTROPHE, DQUOTE, BACKTICK]; congr 1; omega
    · by_cases e2 : x = [DQUOTE]
      · have hq : (quoteStep isKey st x).quotes = quotesAfter isKey a (b + 1) c := by
          rw [quoteStep_quotes, if_pos (Or.inr (Or.inl e2)), h, h2 e2]
        rw [ih _ _ _ _ hq]; subst e2
        simp [List.count_cons, APOSTROPHE, DQUOTE, BACKTICK]; congr 1; omega
      · by_cases e3 : x = [BACKTICK]
        · have hq : (quoteStep isKey st x).quotes = quotesAfter isKey a b (c + 1) := by
            rw [quoteStep_quotes]
            cases isKey with
            | false => rw [if_pos (Or.inr (Or.inr ⟨e3, rfl⟩)), h, h3 e3 rfl]
            | true =>
              rw [if_neg (by simp [e1, e2]), h]
              exact quotesAfter_key a b c (c + 1)
          rw [ih _ _ _ _ hq]; subst e3
          simp [List.count_cons, APOSTROPHE, DQUOTE, BACKTICK]; congr 1; omega
        · have hq : (quoteStep isKey st x).quotes = quotesAfter isKey a b c := by
            rw [quoteStep_quotes, if_neg (by simp [e1, e2, e3]), h]
          rw [ih _ _ _ _ hq]
          simp [List.count_cons, e1, e2, e3, Ne.symm e1, Ne.symm e2, Ne.symm e3]

theorem quoteLoop_quotes (s : JSString) (isKey : Bool) :
    (quoteLoop s isKey).quotes
      = quotesAfter isKey (s.count APOSTROPHE) (s.count DQUOTE) (s.count BACKTICK) := by
  unfold quoteLoop
  rw [foldl_quoteStep_quotes isKey _ _ 0 0 0 (by simp [quotesAfter, quotesInit])]
  rw [stringIterator_count s APOSTROPHE (by decide) (by decide),
    stringIterator_count s DQUOTE (by decide) (by decide),
    stringIterator_count s BACKTICK (by decide) (by decide)]
  simp


/-- The quote `reduce` picks from the counted candidates: a candidate with the
fewest occurrences, the earliest such candidate in the preference order. -/
theorem chooseQuote_quotesAfter (isKey : Bool) (a b c : Nat) :
    ∃ q, chooseQuote (quotesAfter isKey a b c) = [q] ∧ q ∈ quoteCandidates isKey ∧
      ∀ x ∈ quoteCandidates isKey,
        (if q = APOSTROPHE then a else if q = DQUOTE then b else c)
          ≤ (if x = APOSTROPHE then a else if x = DQUOTE then b else c) ∧
        ((if x = APOSTROPHE then a else if x = DQUOTE then b else c)
          = (if q = APOSTROPHE then a else if q = DQUOTE then b else c) →
          (quoteCandidates isKey).indexOf q ≤ (quoteCandidates isKey).indexOf x) := by
  cases isKey with
  | true =>
    by_cases h : 1 + 10 * a < 2 + 10 * b
    · refine ⟨APOSTROPHE, ?_, ?_, ?_⟩
      · simp [chooseQuote, quotesAfter, cheaper, lookupProp, APOSTROPHE, DQUOTE, h]
      · simp [quoteCandidates]
      · intro x hx
        simp only [quoteCandidates, if_true, List.mem_cons, List.mem_singleton,
          List.not_mem_nil, or_false] at hx
        rcases hx with rfl | rfl
        · simp
        · simp [APOSTROPHE, DQUOTE, quoteCandidates, List.indexOf_cons]; omega
    · refine ⟨DQUOTE, ?_, ?_, ?_⟩
      · simp [chooseQuote, quotesAfter, cheaper, lookupProp, APOSTROPHE, DQUOTE, h]
      · simp [quoteCandidates]
      · intro x hx
        simp only [quoteCandidates, if_true, List.mem_cons, List.mem_singleton,
          List.not_mem_nil, or_false] at hx
        rcases hx with rfl | rfl
        · simp [APOSTROPHE, DQUOTE, quoteCandidates, List.indexOf_cons]; omega
        · simp
  | false =>
    by_cases h : 1 + 10 * a < 2 + 10 * b
    · by_cases h' : 1 + 10 * a < 3 + 10 * c
      · refine ⟨APOSTROPHE, ?_, ?_, ?_⟩
        · simp [chooseQuote, quotesAfter, cheaper, lookupProp, APOSTROPHE, DQUOTE, BACKTICK,
            h, h']
        · simp [quoteCandidates]
        · intro x hx
          simp only [quoteCandidates, Bool.false_eq_true, if_false, List.mem_cons,
            List.mem_singleton, List.not_mem_nil, or_false] at hx
          rcases hx with rfl | rfl | rfl
          · simp
          · simp [APOSTROPHE, DQUOTE, quoteCandidates, List.indexOf_cons]; omega
          · simp [APOSTROPHE, DQUOTE, BACKTICK, quoteCandidates, List.indexOf_cons]; omega
      · refine ⟨BACKTICK, ?_, ?_, ?_⟩
        · simp [chooseQuote, quotesAfter, cheaper, lookupProp, APOSTROPHE, DQUOTE, BACKTICK,
            h, h']
        · simp [quoteCandidates]
        · intro x hx
          simp only [quoteCandidates, Bool.false_eq_true, if_false, List.mem_cons,
            List.mem_singleton, List.not_mem_nil, or_false] at hx
          rcases hx with rfl | rfl | rfl
          · simp [APOSTROPHE, DQUOTE, BACKTICK, quoteCandidates, List.indexOf_cons]; omega
          · simp [APOSTROPHE, DQUOTE, BACKTICK, quoteCandidates, List.indexOf_cons]; omega
          · simp
    · by_cases h' : 2 + 10 * b < 3 + 10 * c
      · refine ⟨DQUOTE, ?_, ?_, ?_⟩
        · simp [chooseQuote, quotesAfter, cheaper, lookupProp, APOSTROPHE, DQUOTE, BACKTICK,
            h, h']
        · simp [quoteCandidates]
        · intro x hx
          simp only [quoteCandidates, Bool.false_eq_true, if_false, List.mem_cons,
            List.mem_singleton, List.not_mem_nil, or_false] at hx
          rcases hx with rfl | rfl | rfl
          · simp [APOSTROPHE, DQUOTE, BACKTICK, quoteCandidates, List.indexOf_cons]; omega
          · simp
          · simp [APOSTROPHE, DQUOTE, BACKTICK, quoteCandidates, List.indexOf_cons]; omega
      · refine ⟨BACKTICK, ?_, ?_, ?_⟩
        · simp [chooseQuote, quotesAfter, cheaper, lookupProp, APOSTROPHE, DQUOTE, BACKTICK,
            h, h']
        · simp [quoteCandidates]
        · intro x hx
          simp only [quoteCandidates, Bool.false_eq_true, if_false, List.mem_cons,
            List.mem_singleton, List.not_mem_nil, or_false] at hx
          rcases hx with rfl | rfl | rfl
          · simp [APOSTROPHE, DQUOTE, BACKTICK, quoteCandidates, List.indexOf_cons]; omega
          · simp [APOSTROPHE, DQUOTE, BACKTICK, quoteCandidates, List.indexOf_cons]; omega
          · simp


/-! ## The shape of the output of `quoteString` -/

theorem mem_candidates_all (isKey : Bool) (q : Nat) (h : q ∈ quoteCandidates isKey) :
    q = APOSTROPHE ∨ q = DQUOTE ∨ q = BACKTICK := by
  cases isKey <;> simp [quoteCandidates] at h <;> tauto

theorem lookup_replacement (isKey : Bool) (q : Nat) (h : q ∈ quoteCandidates isKey) :
    lookupProp (replacementsInit isKey) [q] = some [BACKSLASH, q] := by
  cases isKey
  · simp only [quoteCandidates, Bool.false_eq_true, if_false, List.mem_cons,
      List.mem_singleton, List.not_mem_nil, or_false] at h
    rcases h with rfl | rfl | rfl <;> decide
  · simp only [quoteCandidates, if_true, List.mem_cons,
      List.mem_singleton, List.not_mem_nil, or_false] at h
    rcases h with rfl | rfl <;> decide

theorem escapeChosen_append (q : Nat) (a b : JSString) :
    escapeChosen q (a ++ b) = escapeChosen q a ++ escapeChosen q b := by
  simp [escapeChosen]

theorem escapeChosen_flatten (q : Nat) (l : List JSString) :
    escapeChosen q l.flatten = (l.map (escapeChosen q)).flatten := by
  induction l with
  | nil => simp [escapeChosen]
  | cons a l ih => simp [escapeChosen_append, ih]

theorem mandatoryEscape_low_clean : ∀ u < 32, ∀ x ∈ mandatoryEscape u,
    32 ≤ x ∧ x < 128 ∧ x ≠ APOSTROPHE ∧ x ≠ DQUOTE ∧ x ≠ BACKTICK := by decide

theorem mandatoryEscape_clean (u : Nat) (h : needsEscape u = true) :
    ∀ x ∈ mandatoryEscape u, 32 ≤ x ∧ x < 128 ∧ x ≠ APOSTROPHE ∧ x ≠ DQUOTE ∧ x ≠ BACKTICK := by
  by_cases h0 : u < 32
  · exact mandatoryEscape_low_clean u h0
  · simp only [needsEscape, h0, decide_False, Bool.false_or, Bool.or_eq_true, beq_iff_eq] at h
    rcases h with rfl | rfl <;> decide

theorem escapeChosen_of_not_mem (q : Nat) (t : JSString) (h : ∀ x ∈ t, x ≠ q) :
    escapeChosen q t = t := by
  induction t with
  | nil => simp [escapeChosen]
  | cons a t ih =>
    have ha : a ≠ q := h a (List.mem_cons_self _ _)
    have ht : escapeChosen q t = t := ih (fun x hx => h x (List.mem_cons_of_mem _ hx))
    have e : escapeChosen q (a :: t) = [a] ++ escapeChosen q t := by
      simp [escapeChosen, ha]
    rw [e, ht]; rfl

theorem escapeChosen_escapeProcessed (q : Nat)
    (hq : q = APOSTROPHE ∨ q = DQUOTE ∨ q = BACKTICK) (c : JSString)
    (hc : (∃ u, c = [u]) ∨ ∃ u v, c = [u, v] ∧ isHighSurrogate u = true ∧ isLowSurrogate v = true) :
    escapeChosen q (escapeProcessed c) = renderChar q c := by
  have hq32 : 32 ≤ q ∧ q < 128 := by
    rcases hq with rfl | rfl | rfl <;> decide
  rcases hc with ⟨u, rfl⟩ | ⟨u, v, rfl, hu, hv⟩
  · by_cases e : u = q
    · subst e
      have hn : needsEscape u = false := by
        rcases hq with rfl | rfl | rfl <;> decide
      simp [renderChar, escapeProcessed, hn, escapeChosen]
    · have e' : ([u] : JSString) ≠ [q] := by simpa using e
      rw [renderChar, if_neg e']
      apply escapeChosen_of_not_mem
      intro x hx
      cases hn : needsEscape u with
      | true =>
        simp only [escapeProcessed, hn, if_true] at hx
        have := mandatoryEscape_clean u hn x hx
        rcases hq with rfl | rfl | rfl <;> tauto
      | false =>
        simp only [escapeProcessed, hn, Bool.false_eq_true, if_false, List.mem_singleton] at hx
        rw [hx]; exact e
  · simp only [isHighSurrogate, isLowSurrogate, Bool.and_eq_true, decide_eq_true_eq] at hu hv
    have e' : ([u, v] : JSString) ≠ [q] := by simp
    rw [renderChar, if_neg e']
    apply escapeChosen_of_not_mem
    intro x hx
    simp only [escapeProcessed, List.mem_cons, List.mem_singleton, List.not_mem_nil,
      or_false] at hx
    rcases hx with rfl | rfl <;> omega

theorem escapeChosen_text (q : Nat) (hq : q = APOSTROPHE ∨ q = DQUOTE ∨ q = BACKTICK)
    (s : JSString) :
    escapeChosen q (escapeProcessedText s) = ((stringIterator s).map (renderChar q)).flatten := by
  unfold escapeProcessedText
  rw [escapeChosen_flatten, List.map_map]
  congr 1
  apply List.map_congr_left
  intro c hc
  exact escapeChosen_escapeProcessed q hq c (stringIterator_shape s c hc)

theorem count_candidate (s : JSString) (isKey : Bool) (x : Nat) (h : x ∈ quoteCandidates isKey) :
    (if x = APOSTROPHE then s.count APOSTROPHE else if x = DQUOTE then s.count DQUOTE
      else s.count BACKTICK) = s.count x := by
  rcases mem_candidates_all isKey x h with rfl | rfl | rfl <;>
    simp [APOSTROPHE, DQUOTE, BACKTICK]

/-- The output of `quoteString` is the chosen quote, the escape-processed text
with the chosen quote escaped, and the chosen quote again; the chosen quote
has the fewest occurrences, the earlier candidate winning a tie. -/
theorem quoteString_chosen (s : JSString) (isKey : Bool) :
    ∃ q, q ∈ quoteCandidates isKey ∧
      quoteString s isKey = [q] ++ escapeChosen q (escapeProcessedText s) ++ [q] ∧
      ∀ x ∈ quoteCandidates isKey, s.count q ≤ s.count x ∧
        (s.count x = s.count q →
          (quoteCandidates isKey).indexOf q ≤ (quoteCandidates isKey).indexOf x) := by
  obtain ⟨q, hq, hmem, hmin⟩ := chooseQuote_quotesAfter isKey (s.count APOSTROPHE)
    (s.count DQUOTE) (s.count BACKTICK)
  refine ⟨q, hmem, ?_, ?_⟩
  · unfold quoteString
    simp only [quoteLoop_quotes, hq, lookup_replacement isKey q hmem, Option.getD_some,
      quoteLoop_product]
    rfl
  · intro x hx
    have := hmin x hx
    rw [count_candidate s isKey x hx, count_candidate s isKey q hmem] at this
    exact this


/-! ## Claims on `quoteString` -/

/-- C3 (quote selection): the delimiter that opens and closes
`quoteString s isKey` is a candidate quote (apostrophe, double quote and, for
values only, back-tick) with the fewest occurrences in `s`, and among the
candidates with that same count it is the earliest in the order apostrophe,
double quote, back-tick. -/
theorem quoteString_selects_fewest (s : JSString) (isKey : Bool) :
    ∃ q, (quoteString s isKey).head? = some q ∧ (quoteString s isKey).getLast? = some q ∧
      q ∈ quoteCandidates isKey ∧
      ∀ x ∈ quoteCandidates isKey, s.count q ≤ s.count x ∧
        (s.count x = s.count q →
          (quoteCandidates isKey).indexOf q ≤ (quoteCandidates isKey).indexOf x) := by
  obtain ⟨q, hmem, heq, hmin⟩ := quoteString_chosen s isKey
  exact ⟨q, by simp [heq], by rw [heq]; exact List.getLast?_concat _, hmem, hmin⟩

/-- C4 (chosen-quote escaping): `quoteString s isKey` is `q + body + q` for the
chosen quote `q` (a candidate with the fewest occurrences in `s`), where `body`
is the escape-processed text of `s` with every occurrence of `q` replaced by a
backslash and `q`; code point by code point, the chosen quote is rendered as
backslash + quote and a candidate quote that was not chosen is rendered as
itself. -/
theorem quoteString_escapes_chosen_quote (s : JSString) (isKey : Bool) :
    ∃ q, q ∈ quoteCandidates isKey ∧ (∀ x ∈ quoteCandidates isKey, s.count q ≤ s.count x) ∧
      quoteString s isKey = [q] ++ escapeChosen q (escapeProcessedText s) ++ [q] ∧
      escapeChosen q (escapeProcessedText s)
        = ((stringIterator s).map (renderChar q)).flatten ∧
      renderChar q [q] = [BACKSLASH, q] ∧
      ∀ x ∈ [APOSTROPHE, DQUOTE, BACKTICK], x ≠ q → renderChar q [x] = [x] := by
  obtain ⟨q, hmem, heq, hmin⟩ := quoteString_chosen s isKey
  refine ⟨q, hmem, fun x hx => (hmin x hx).1, heq,
    escapeChosen_text q (mem_candidates_all isKey q hmem) s, ?_, ?_⟩
  · simp [renderChar]
  · intro x hx hne
    have e' : ([x] : JSString) ≠ [q] := by simpa using hne
    rw [renderChar, if_neg e']
    simp only [List.mem_cons, List.mem_singleton, List.not_mem_nil, or_false] at hx
    rcases hx with rfl | rfl | rfl <;> decide

theorem renderChar_clean (q : Nat) (hq : q = APOSTROPHE ∨ q = DQUOTE ∨ q = BACKTICK)
    (c : JSString)
    (hc : (∃ u, c = [u]) ∨ ∃ u v, c = [u, v] ∧ isHighSurrogate u = true ∧ isLowSurrogate v = true) :
    ∀ x ∈ renderChar q c, 32 ≤ x ∧ x ≠ 0x2028 ∧ x ≠ 0x2029 := by
  have hq32 : 32 ≤ q ∧ q < 128 := by
    rcases hq with rfl | rfl | rfl <;> decide
  intro x hx
  unfold renderChar at hx
  split at hx
  · simp only [BACKSLASH, List.mem_cons, List.mem_singleton, List.not_mem_nil, or_false] at hx
    rcases hx with rfl | rfl <;> omega
  · rcases hc with ⟨u, rfl⟩ | ⟨u, v, rfl, hu, hv⟩
    · cases hn : needsEscape u with
      | true =>
        simp only [escapeProcessed, hn, if_true] at hx
        have := mandatoryEscape_clean u hn x hx
        omega
      | false =>
        simp only [escapeProcessed, hn, Bool.false_eq_true, if_false, List.mem_singleton] at hx
        subst hx
        simp only [needsEscape, Bool.or_eq_false_iff, decide_eq_false_iff_not,
          beq_eq_false_iff_ne, ne_eq] at hn
        omega
    · simp only [isHighSurrogate, isLowSurrogate, Bool.and_eq_true, decide_eq_true_eq] at hu hv
      simp only [escapeProcessed, List.mem_cons, List.mem_singleton, List.not_mem_nil,
        or_false] at hx
      rcases hx with rfl | rfl <;> omega

theorem hex_escape_value : ∀ u < 32, namedEscape? u = none →
    ∃ d1 d2 h1 h2, mandatoryEscape u = [BACKSLASH, 120, d1, d2] ∧
      hexDigitValue? d1 = some h1 ∧ hexDigitValue? d2 = some h2 ∧ 16 * h1 + h2 = u := by
  intro u hu hn
  refine ⟨hexDigit (u / 16), hexDigit (u % 16), u / 16, u % 16, ?_, ?_, ?_, by omega⟩
  · have h1 : u ≠ 0x2028 := by omega
    have h2 : u ≠ 0x2029 := by omega
    simp [mandatoryEscape, hn, h1, h2]
  · have : u / 16 < 2 := by omega
    interval_cases h : u / 16 <;> decide
  · have : u % 16 < 16 := Nat.mod_lt _ (by decide)
    interval_cases h : u % 16 <;> decide

/-- C5 (mandatory escapes): for either `isKey` setting the output of
`quoteString` holds no raw character below U+0020 and no raw U+2028 or U+2029;
whatever quote `q` is chosen, each such character of `s` is rendered as its
named escape (`\b \f \n \r \t \v \0`), as `\u2028` or `\u2029`, and otherwise
as `\x` followed by exactly two hexadecimal digits whose value is its code. -/
theorem quoteString_mandatory_escapes (s : JSString) (isKey : Bool) :
    (∀ x ∈ quoteString s isKey, 32 ≤ x ∧ x ≠ 0x2028 ∧ x ≠ 0x2029) ∧
    ∃ q, q ∈ quoteCandidates isKey ∧
      quoteString s isKey = [q] ++ ((stringIterator s).map (renderChar q)).flatten ++ [q] ∧
      renderChar q [8] = js "\\b" ∧ renderChar q [12] = js "\\f" ∧
      renderChar q [10] = js "\\n" ∧ renderChar q [13] = js "\\r" ∧
      renderChar q [9] = js "\\t" ∧ renderChar q [11] = js "\\v" ∧
      renderChar q [0] = js "\\0" ∧
      renderChar q [0x2028] = js "\\u2028" ∧ renderChar q [0x2029] = js "\\u2029" ∧
      ∀ u < 32, u ∉ [8, 12, 10, 13, 9, 11, 0] →
        ∃ d1 d2 h1 h2, renderChar q [u] = js "\\x" ++ [d1, d2] ∧
          hexDigitValue? d1 = some h1 ∧ hexDigitValue? d2 = some h2 ∧ 16 * h1 + h2 = u := by
  obtain ⟨q, hmem, heq, _⟩ := quoteString_chosen s isKey
  have hq := mem_candidates_all isKey q hmem
  rw [escapeChosen_text q hq s] at heq
  refine ⟨?_, q, hmem, heq, ?_⟩
  · intro x hx
    rw [heq] at hx
    have hq32 : 32 ≤ q ∧ q < 128 := by
      rcases hq with rfl | rfl | rfl <;> decide
    simp only [List.mem_append, List.mem_singleton, List.mem_flatten, List.mem_map] at hx
    rcases hx with (rfl | ⟨l, ⟨c, hc, rfl⟩, hxl⟩) | rfl
    · omega
    · exact renderChar_clean q hq c (stringIterator_shape s c hc) x hxl
    · omega
  · refine ⟨?_, ?_, ?_, ?_, ?_, ?_, ?_, ?_, ?_, ?_⟩
    iterate 9 (rcases hq with rfl | rfl | rfl <;> decide)
    intro u hu hnot
    have hn : namedEscape? u = none := by
      simp only [List.mem_cons, List.mem_singleton, List.not_mem_nil, or_false, not_or] at hnot
      simp [namedEscape?, hnot]
    obtain ⟨d1, d2, h1, h2, e, e1, e2, e3⟩ := hex_escape_value u hu hn
    refine ⟨d1, d2, h1, h2, ?_, e1, e2, e3⟩
    have hne : ([u] : JSString) ≠ [q] := by
      have hq32 : 32 ≤ q := by
        rcases hq with rfl | rfl | rfl <;> decide
      simp; omega
    have hneed : needsEscape u = true := by simp [needsEscape, hu]
    rw [renderChar, if_neg hne]
    simp only [escapeProcessed, hneed, if_true, e]
    have hx : js "\\x" = [BACKSLASH, 120] := by decide
    rw [hx]; rfl


/-! ## Frame lemmas: what a step leaves of the module variables -/

theorem join_eq_intercalate (parts : List JSString) (sep : JSString) :
    join parts sep = sep.intercalate parts := by
  induction parts with
  | nil => simp [join, List.intercalate]
  | cons p rest ih =>
    cases rest with
    | nil => simp [join, List.intercalate]
    | cons r rest =>
      show p ++ sep ++ join (r :: rest) sep = _
      rw [ih]
      simp [List.intercalate, List.intersperse, List.append_assoc]

theorem assemble_eq_layout (opening closing : JSString) (partials : List JSString)
    (gap indent : JSString) :
    assemble opening closing partials gap (indent ++ gap) indent
      = layout opening closing gap indent partials := by
  cases partials with
  | nil => simp [assemble, layout]
  | cons p rest =>
    by_cases hg : gap = []
    · simp [assemble, layout, hg, join_eq_intercalate]
    · simp [assemble, layout, hg, join_eq_intercalate, List.append_assoc]

theorem invoke_frame (env : Env) (h : env.StateFree) (f : Nat) (receiver : Value)
    (args : List Value) (st : State) (v : Value) (st1 : State)
    (hr : invoke env f receiver args st = .ok v st1) :
    st1.mod = st.mod ∧ st1.calls = st.calls ++ [⟨f, receiver, args⟩] := by
  unfold invoke at hr
  obtain ⟨w, hw | hw⟩ := h f st.mod receiver args
  · rw [hw] at hr
    simp only [Res.ok.injEq] at hr
    obtain ⟨_, rfl⟩ := hr
    exact ⟨rfl, rfl⟩
  · rw [hw] at hr; simp at hr

theorem applyHook_frame (env : Env) (h : env.StateFree) (key : JSString) (value : Value)
    (st : State) (v : Value) (st1 : State) (hr : applyHook env key value st = .ok v st1) :
    st1.mod = st.mod := by
  unfold applyHook at hr
  split at hr
  · simp only [Res.ok.injEq] at hr; rw [← hr.2]
  · split at hr
    · exact (invoke_frame env h _ _ _ _ _ _ hr).1
    · split at hr
      · exact (invoke_frame env h _ _ _ _ _ _ hr).1
      · split at hr
        · exact (invoke_frame env h _ _ _ _ _ _ hr).1
        · simp only [Res.ok.injEq] at hr; rw [← hr.2]

theorem applyReplacer_frame (env : Env) (h : env.StateFree) (key : JSString)
    (holder value : Value) (st : State) (v : Value) (st1 : State)
    (hr : applyReplacer env key holder value st = .ok v st1) :
    st1.mod = st.mod := by
  unfold applyReplacer at hr
  split at hr
  · exact (invoke_frame env h _ _ _ _ _ _ hr).1
  · simp only [Res.ok.injEq] at hr; rw [← hr.2]

theorem serializeMembers_frame (env : Env)
    (sp : JSString → Value → State → Res (Option JSString)) (hsp : FramePreserving sp)
    (value : Value) (keys : List JSString) :
    ∀ (partials : List JSString) (st : State) (out : List JSString) (st1 : State),
      serializeMembers env sp value keys partials st = .ok out st1 → st1.mod = st.mod := by
  induction keys with
  | nil =>
    intro partials st out st1 hr
    simp only [serializeMembers, Res.ok.injEq] at hr
    rw [← hr.2]
  | cons key keys ih =>
    intro partials st out st1 hr
    rw [serializeMembers] at hr
    cases hk : sp key value st with
    | ok r st2 =>
      rw [hk] at hr
      have hm := hsp key value st r st2 hk
      cases r with
      | none => exact (ih _ _ _ _ hr).trans hm
      | some propertyString =>
        simp only at hr
        cases hs : serializeKey env key with
        | error e => rw [hs] at hr; simp at hr
        | ok keyText => rw [hs] at hr; exact (ih _ _ _ _ hr).trans hm
    | throw e st2 => rw [hk] at hr; simp at hr
    | outOfFuel => rw [hk] at hr; simp at hr

theorem serializeElements_frame
    (sp : JSString → Value → State → Res (Option JSString)) (hsp : FramePreserving sp)
    (value : Value) (indices : List Nat) :
    ∀ (partials : List JSString) (st : State) (out : List JSString) (st1 : State),
      serializeElements sp value indices partials st = .ok out st1 → st1.mod = st.mod := by
  induction indices with
  | nil =>
    intro partials st out st1 hr
    simp only [serializeElements, Res.ok.injEq] at hr
    rw [← hr.2]
  | cons i rest ih =>
    intro partials st out st1 hr
    rw [serializeElements] at hr
    cases hk : sp (decimal i) value st with
    | ok r st2 =>
      rw [hk] at hr
      exact (ih _ _ _ _ hr).trans (hsp _ value st r st2 hk)
    | throw e st2 => rw [hk] at hr; simp at hr
    | outOfFuel => rw [hk] at hr; simp at hr

theorem entered_restore (st : State) (a : Nat) (st2 : State) (h : st2.mod = (entered st a).mod) :
    ({ st2.mod with stack := st2.mod.stack.dropLast, indent := st.mod.indent } : ModuleState)
      = st.mod := by
  rw [h]
  simp [entered]


theorem serializeObjectWith_frame (env : Env)
    (sp : JSString → Value → State → Res (Option JSString)) (hsp : FramePreserving sp)
    (a : Nat) (st : State) (out : JSString) (st1 : State)
    (hr : serializeObjectWith env sp a st = .ok out st1) : st1.mod = st.mod := by
  unfold serializeObjectWith at hr
  split at hr
  · simp at hr
  · simp only at hr
    split at hr
    · rename_i partials st2 hloop
      simp only [Res.ok.injEq] at hr
      rw [← hr.2]
      exact entered_restore st a st2 (serializeMembers_frame env sp hsp _ _ _ _ _ _ hloop)
    · simp at hr
    · simp at hr

theorem serializeArrayWith_frame (env : Env)
    (sp : JSString → Value → State → Res (Option JSString)) (hsp : FramePreserving sp)
    (a : Nat) (st : State) (out : JSString) (st1 : State)
    (hr : serializeArrayWith env sp a st = .ok out st1) : st1.mod = st.mod := by
  unfold serializeArrayWith at hr
  split at hr
  · simp at hr
  · simp only at hr
    split at hr
    · rename_i partials st2 hloop
      simp only [Res.ok.injEq] at hr
      rw [← hr.2]
      exact entered_restore st a st2 (serializeElements_frame sp hsp _ _ _ _ _ _ hloop)
    · simp at hr
    · simp at hr

theorem present_ok {r : Res JSString} {o : Option JSString} {st : State}
    (h : r.present = .ok o st) : ∃ t, o = some t ∧ r = .ok t st := by
  cases r with
  | ok t st1 =>
    simp only [Res.present, Res.ok.injEq] at h
    exact ⟨t, h.1.symm, by rw [h.2]⟩
  | throw e st1 => simp [Res.present] at h
  | outOfFuel => simp [Res.present] at h

theorem serializeValue_frame (env : Env)
    (sp : JSString → Value → State → Res (Option JSString)) (hsp : FramePreserving sp)
    (value : Value) (st : State) (out : Option JSString) (st1 : State)
    (hr : serializeValue env sp value st = .ok out st1) : st1.mod = st.mod := by
  unfold serializeValue at hr
  split at hr
  · simp only [Res.ok.injEq] at hr; rw [← hr.2]
  · simp only [Res.ok.injEq] at hr; rw [← hr.2]
  · simp only [Res.ok.injEq] at hr; rw [← hr.2]
  · simp only [Res.ok.injEq] at hr; rw [← hr.2]
  · simp only [Res.ok.injEq] at hr; rw [← hr.2]
  · split at hr
    · obtain ⟨t, _, ht⟩ := present_ok hr
      exact serializeArrayWith_frame env sp hsp _ _ _ _ ht
    · obtain ⟨t, _, ht⟩ := present_ok hr
      exact serializeObjectWith_frame env sp hsp _ _ _ _ ht
    · simp only [Res.ok.injEq] at hr; rw [← hr.2]
  · simp only [Res.ok.injEq] at hr; rw [← hr.2]

/-- With user functions that leave the module variables alone, a call of
`serializeProperty` that returns gives the module variables back unchanged. -/
theorem serializeProperty_frame (env : Env) (h : env.StateFree) (fuel : Nat) :
    FramePreserving (serializeProperty env fuel) := by
  induction fuel with
  | zero => intro key holder st r st1 hr; simp [serializeProperty] at hr
  | succ fuel ih =>
    intro key holder st r st1 hr
    rw [serializeProperty] at hr
    cases h1 : applyHook env key (member env holder key) st with
    | ok value st2 =>
      rw [h1] at hr
      simp only at hr
      cases h2 : applyReplacer env key holder value st2 with
      | ok value2 st3 =>
        rw [h2] at hr
        simp only at hr
        rw [serializeValue_frame env _ ih _ _ _ _ hr,
          applyReplacer_frame env h _ _ _ _ _ _ h2, applyHook_frame env h _ _ _ _ _ h1]
      | throw e st3 => rw [h2] at hr; simp at hr
      | outOfFuel => rw [h2] at hr; simp at hr
    | throw e st2 => rw [h1] at hr; simp at hr
    | outOfFuel => rw [h1] at hr; simp at hr

/-! ## The loops, member by member -/

theorem serializeMembers_eq_entries (env : Env)
    (sp : JSString → Value → State → Res (Option JSString)) (value : Value)
    (keys : List JSString) :
    ∀ (partials : List JSString) (st : State),
      serializeMembers env sp value keys partials st
        = (memberEntries env sp value keys st).map (fun es => partials ++ es.map Prod.snd) := by
  induction keys with
  | nil => intro partials st; simp [serializeMembers, memberEntries, Res.map]
  | cons key keys ih =>
    intro partials st
    rw [serializeMembers, memberEntries]
    cases hk : sp key value st with
    | ok r st1 =>
      cases r with
      | none => simp only; exact ih _ _
      | some propertyString =>
        simp only
        cases hs : serializeKey env key with
        | error e => simp [Res.map]
        | ok keyText =>
          simp only
          rw [ih]
          cases memberEntries env sp value keys st1 with
          | ok rest st2 => simp [Res.map]
          | throw e st2 => simp [Res.map]
          | outOfFuel => simp [Res.map]
    | throw e st1 => simp [Res.map]
    | outOfFuel => simp [Res.map]

theorem serializeElements_eq_results
    (sp : JSString → Value → State → Res (Option JSString)) (value : Value)
    (indices : List Nat) :
    ∀ (partials : List JSString) (st : State),
      serializeElements sp value indices partials st
        = (elementResults sp value indices st).map
            (fun rs => partials ++ rs.map (fun r => r.getD (js "null"))) := by
  induction indices with
  | nil => intro partials st; simp [serializeElements, elementResults, Res.map]
  | cons i rest ih =>
    intro partials st
    rw [serializeElements, elementResults]
    cases hk : sp (decimal i) value st with
    | ok r st1 =>
      simp only
      rw [ih]
      cases elementResults sp value rest st1 with
      | ok rs st2 => simp [Res.map]
      | throw e st2 => simp [Res.map]
      | outOfFuel => simp [Res.map]
    | throw e st1 => simp [Res.map]
    | outOfFuel => simp [Res.map]

theorem elementResults_length
    (sp : JSString → Value → State → Res (Option JSString)) (value : Value)
    (indices : List Nat) :
    ∀ (st : State) (rs : List (Option JSString)) (st1 : State),
      elementResults sp value indices st = .ok rs st1 → rs.length = indices.length := by
  induction indices with
  | nil => intro st rs st1 hr; simp only [elementResults, Res.ok.injEq] at hr; simp [← hr.1]
  | cons i rest ih =>
    intro st rs st1 hr
    rw [elementResults] at hr
    cases hk : sp (decimal i) value st with
    | ok r st2 =>
      rw [hk] at hr
      simp only at hr
      cases hrest : elementResults sp value rest st2 with
      | ok rs2 st3 =>
        rw [hrest] at hr
        simp only [Res.ok.injEq] at hr
        rw [← hr.1]
        simp [ih _ _ _ hrest]
      | throw e st3 => rw [hrest] at hr; simp at hr
      | outOfFuel => rw [hrest] at hr; simp at hr
    | throw e st2 => rw [hk] at hr; simp at hr
    | outOfFuel => rw [hk] at hr; simp at hr

theorem elementResults_frame
    (sp : JSString → Value → State → Res (Option JSString)) (hsp : FramePreserving sp)
    (value : Value) (indices : List Nat) :
    ∀ (st : State) (rs : List (Option JSString)) (st1 : State),
      elementResults sp value indices st = .ok rs st1 → st1.mod = st.mod := by
  intro st rs st1 hr
  have h := serializeElements_eq_results sp value indices [] st
  rw [hr] at h
  exact serializeElements_frame sp hsp value indices [] st _ st1 h

theorem memberEntries_frame (env : Env)
    (sp : JSString → Value → State → Res (Option JSString)) (hsp : FramePreserving sp)
    (value : Value) (keys : List JSString) :
    ∀ (st : State) (es : List (JSString × JSString)) (st1 : State),
      memberEntries env sp value keys st = .ok es st1 → st1.mod = st.mod := by
  intro st es st1 hr
  have h := serializeMembers_eq_entries env sp value keys [] st
  rw [hr] at h
  exact serializeMembers_frame env sp hsp value keys [] st _ st1 h


theorem exampleEnv_stateFree : exampleEnv.StateFree := by
  intro f m receiver args
  unfold exampleEnv
  simp only
  split
  · split
    · exact ⟨_, Or.inl rfl⟩
    · exact ⟨_, Or.inl rfl⟩
  · split
    · exact ⟨_, Or.inl rfl⟩
    · exact ⟨_, Or.inl rfl⟩

theorem memberEntries_sublist (env : Env)
    (sp : JSString → Value → State → Res (Option JSString)) (value : Value)
    (keys : List JSString) :
    ∀ (st : State) (es : List (JSString × JSString)) (st1 : State),
      memberEntries env sp value keys st = .ok es st1 → (es.map Prod.fst).Sublist keys := by
  induction keys with
  | nil =>
    intro st es st1 hr
    simp only [memberEntries, Res.ok.injEq] at hr
    simp [← hr.1]
  | cons key keys ih =>
    intro st es st1 hr
    rw [memberEntries] at hr
    cases hk : sp key value st with
    | ok r st2 =>
      rw [hk] at hr
      cases r with
      | none => exact (ih _ _ _ hr).cons _
      | some propertyString =>
        simp only at hr
        cases hs : serializeKey env key with
        | error e => rw [hs] at hr; simp at hr
        | ok keyText =>
          rw [hs] at hr
          simp only at hr
          cases hrest : memberEntries env sp value keys st2 with
          | ok rest st3 =>
            rw [hrest] at hr
            simp only [Res.ok.injEq] at hr
            rw [← hr.1]
            exact (ih _ _ _ hrest).cons₂ _
          | throw e st3 => rw [hrest] at hr; simp at hr
          | outOfFuel => rw [hrest] at hr; simp at hr
    | throw e st2 => rw [hk] at hr; simp at hr
    | outOfFuel => rw [hk] at hr; simp at hr

theorem memberEntries_form (env : Env)
    (sp : JSString → Value → State → Res (Option JSString)) (hsp : FramePreserving sp)
    (value : Value) (keys : List JSString) :
    ∀ (st : State) (es : List (JSString × JSString)) (st1 : State),
      memberEntries env sp value keys st = .ok es st1 →
      ∀ e ∈ es, ∃ keyText propertyString s s1,
        sp e.1 value s = .ok (some propertyString) s1 ∧ serializeKey env e.1 = .ok keyText ∧
        e.2 = memberText st.mod.gap keyText propertyString := by
  induction keys with
  | nil =>
    intro st es st1 hr
    simp only [memberEntries, Res.ok.injEq] at hr
    simp [← hr.1]
  | cons key keys ih =>
    intro st es st1 hr
    rw [memberEntries] at hr
    cases hk : sp key value st with
    | ok r st2 =>
      rw [hk] at hr
      have hm := hsp key value st r st2 hk
      cases r with
      | none =>
        intro e he
        have := ih _ _ _ hr e he
        rwa [hm] at this
      | some propertyString =>
        simp only at hr
        cases hs : serializeKey env key with
        | error e => rw [hs] at hr; simp at hr
        | ok keyText =>
          rw [hs] at hr
          simp only at hr
          cases hrest : memberEntries env sp value keys st2 with
          | ok rest st3 =>
            rw [hrest] at hr
            simp only [Res.ok.injEq] at hr
            rw [← hr.1]
            intro e he
            rcases List.mem_cons.1 he with rfl | he
            · exact ⟨keyText, propertyString, st, st2, hk, hs, by rw [hm]⟩
            · have := ih _ _ _ hrest e he
              rwa [hm] at this
          | throw e st3 => rw [hrest] at hr; simp at hr
          | outOfFuel => rw [hrest] at hr; simp at hr
    | throw e st2 => rw [hk] at hr; simp at hr
    | outOfFuel => rw [hk] at hr; simp at hr

theorem elementResults_get
    (sp : JSString → Value → State → Res (Option JSString)) (value : Value)
    (indices : List Nat) :
    ∀ (st : State) (rs : List (Option JSString)) (st1 : State),
      elementResults sp value indices st = .ok rs st1 →
      ∀ (j : Nat) (r : Option JSString), rs[j]? = some r →
        ∃ i s s1, indices[j]? = some i ∧ sp (decimal i) value s = .ok r s1 := by
  induction indices with
  | nil =>
    intro st rs st1 hr j r hj
    simp only [elementResults, Res.ok.injEq] at hr
    rw [← hr.1] at hj
    simp at hj
  | cons i rest ih =>
    intro st rs st1 hr j r hj
    rw [elementResults] at hr
    cases hk : sp (decimal i) value st with
    | ok r0 st2 =>
      rw [hk] at hr
      simp only at hr
      cases hrest : elementResults sp value rest st2 with
      | ok rs2 st3 =>
        rw [hrest] at hr
        simp only [Res.ok.injEq] at hr
        rw [← hr.1] at hj
        cases j with
        | zero =>
          simp only [List.getElem?_cons_zero, Option.some.injEq] at hj
          exact ⟨i, st, st2, by simp, by rw [← hj]; exact hk⟩
        | succ j =>
          simp only [List.getElem?_cons_succ] at hj
          obtain ⟨i', s, s1, h1, h2⟩ := ih _ _ _ hrest j r hj
          exact ⟨i', s, s1, by simpa using h1, h2⟩
      | throw e st3 => rw [hrest] at hr; simp at hr
      | outOfFuel => rw [hrest] at hr; simp at hr
    | throw e st2 => rw [hk] at hr; simp at hr
    | outOfFuel => rw [hk] at hr; simp at hr

theorem memberEntries_source (env : Env)
    (sp : JSString → Value → State → Res (Option JSString)) (value : Value)
    (keys : List JSString) :
    ∀ (st : State) (es : List (JSString × JSString)) (st1 : State),
      memberEntries env sp value keys st = .ok es st1 →
      (∀ e ∈ es, ∃ keyText propertyString s s1,
        sp e.1 value s = .ok (some propertyString) s1 ∧ serializeKey env e.1 = .ok keyText ∧
        e.2 = memberText s1.mod.gap keyText propertyString) ∧
      (∀ k ∈ keys, k ∉ es.map Prod.fst → ∃ s s1, sp k value s = .ok none s1) := by
  induction keys with
  | nil =>
    intro st es st1 hr
    simp only [memberEntries, Res.ok.injEq] at hr
    simp [← hr.1]
  | cons key keys ih =>
    intro st es st1 hr
    rw [memberEntries] at hr
    cases hk : sp key value st with
    | ok r st2 =>
      rw [hk] at hr
      cases r with
      | none =>
        obtain ⟨h1, h2⟩ := ih _ _ _ hr
        refine ⟨h1, ?_⟩
        intro k hkm hnot
        rcases List.mem_cons.1 hkm with rfl | hkm
        · exact ⟨st, st2, hk⟩
        · exact h2 k hkm hnot
      | some propertyString =>
        simp only at hr
        cases hs : serializeKey env key with
        | error e => rw [hs] at hr; simp at hr
        | ok keyText =>
          rw [hs] at hr
          simp only at hr
          cases hrest : memberEntries env sp value keys st2 with
          | ok rest st3 =>
            rw [hrest] at hr
            simp only [Res.ok.injEq] at hr
            obtain ⟨h1, h2⟩ := ih _ _ _ hrest
            rw [← hr.1]
            refine ⟨?_, ?_⟩
            · intro e he
              rcases List.mem_cons.1 he with rfl | he
              · exact ⟨keyText, propertyString, st, st2, hk, hs, rfl⟩
              · exact h1 e he
            · intro k hkm hnot
              simp only [List.map_cons, List.mem_cons, not_or] at hnot
              rcases List.mem_cons.1 hkm with rfl | hkm
              · exact absurd rfl hnot.1
              · exact h2 k hkm hnot.2
          | throw e st3 => rw [hrest] at hr; simp at hr
          | outOfFuel => rw [hrest] at hr; simp at hr
    | throw e st2 => rw [hk] at hr; simp at hr
    | outOfFuel => rw [hk] at hr; simp at hr

theorem serializeObjectWith_of_entries (env : Env)
    (sp : JSString → Value → State → Res (Option JSString)) (a : Nat) (st : State)
    (hstack : a ∉ st.mod.stack) (es : List (JSString × JSString)) (st2 : State)
    (hloop : memberEntries env sp (.ref a) (keysOf env (entered st a).mod a) (entered st a)
      = .ok es st2) :
    serializeObjectWith env sp a st
      = .ok (assemble (js "\x7b") (js "\x7d") (es.map Prod.snd) st2.mod.gap st2.mod.indent
              st.mod.indent)
          { st2 with mod := { st2.mod with stack := st2.mod.stack.dropLast,
                                           indent := st.mod.indent } } := by
  unfold serializeObjectWith
  rw [if_neg hstack]
  simp only
  have h := serializeMembers_eq_entries env sp (.ref a) (keysOf env (entered st a).mod a) []
    (entered st a)
  rw [hloop] at h
  simp only [Res.map, List.nil_append] at h
  unfold entered at h
  rw [h]

theorem serializeArrayWith_of_results (env : Env)
    (sp : JSString → Value → State → Res (Option JSString)) (a : Nat) (st : State)
    (hstack : a ∉ st.mod.stack) (rs : List (Option JSString)) (st2 : State)
    (hloop : elementResults sp (.ref a) (List.range (arrayLength env a)) (entered st a)
      = .ok rs st2) :
    serializeArrayWith env sp a st
      = .ok (assemble (js "[") (js "]") (rs.map (fun r => r.getD (js "null"))) st2.mod.gap
              st2.mod.indent st.mod.indent)
          { st2 with mod := { st2.mod with stack := st2.mod.stack.dropLast,
                                           indent := st.mod.indent } } := by
  unfold serializeArrayWith
  rw [if_neg hstack]
  simp only
  have h := serializeElements_eq_results sp (.ref a) (List.range (arrayLength env a)) []
    (entered st a)
  rw [hloop] at h
  simp only [Res.map, List.nil_append] at h
  unfold entered at h
  rw [h]


/-! ## Claims on the layout of objects and arrays -/

/-- C6, as amended (object layout): when the loop over the keys of an object
yields the members `m1..mn` (each the key text, a colon, one space iff the gap
is not empty, and the value text), with gap `g` and entry indent `I` and user
functions that leave the module variables alone (they make no call of
`stringify`), `serializeObject` returns
the two braces for `n = 0`, the members joined by a comma between the braces
when `g` is empty, and otherwise every member on its own line at indent
`I + g` with a trailing comma before the closing brace at indent `I`; the
module variables are as on entry.  So `stringify({a:1,b:2}, null, 2)` is the
text with the lines `a: 1,` and `b: 2,` indented by two spaces. -/
theorem serializeObject_layout :
    (∀ (env : Env) (fuel a : Nat) (st : State) (es : List (JSString × JSString))
        (st2 : State),
      env.StateFree → a ∉ st.mod.stack →
      memberEntries env (serializeProperty env fuel) (.ref a)
          (keysOf env (entered st a).mod a) (entered st a) = .ok es st2 →
      serializeObject env fuel a st
          = .ok (layout (js "\x7b") (js "\x7d") st.mod.gap st.mod.indent (es.map Prod.snd))
              { st2 with mod := st.mod } ∧
        (es = [] → (serializeObject env fuel a st).value? = some (js "\x7b\x7d")) ∧
        ∀ e ∈ es, ∃ keyText propertyString s s1,
          serializeProperty env fuel e.1 (.ref a) s = .ok (some propertyString) s1 ∧
          serializeKey env e.1 = .ok keyText ∧
          e.2 = keyText ++ js ":" ++ (if st.mod.gap ≠ [] then js " " else [])
                  ++ propertyString) ∧
    (stringify exampleEnv 3 (.ref 0) .null (num 2) idleState).value?
      = some (some (js "\x7b\n  a: 1,\n  b: 2,\n\x7d")) := by
  refine ⟨?_, by decide⟩
  intro env fuel a st es st2 hfree hstack hloop
  have hsp := serializeProperty_frame env hfree fuel
  have hmod : st2.mod = (entered st a).mod := memberEntries_frame env _ hsp _ _ _ _ _ hloop
  have hret : serializeObject env fuel a st
      = .ok (layout (js "\x7b") (js "\x7d") st.mod.gap st.mod.indent (es.map Prod.snd))
          { st2 with mod := st.mod } := by
    unfold serializeObject
    rw [serializeObjectWith_of_entries env _ a st hstack es st2 hloop, entered_restore st a st2 hmod]
    have hg : st2.mod.gap = st.mod.gap := by rw [hmod]; rfl
    have hi : st2.mod.indent = st.mod.indent ++ st.mod.gap := by rw [hmod]; rfl
    rw [hg, hi, assemble_eq_layout]
  refine ⟨hret, ?_, ?_⟩
  · intro he
    rw [hret, he]
    rfl
  · intro e he
    obtain ⟨keyText, p, s, s1, hp, hk, hm⟩ := memberEntries_form env _ hsp _ _ _ _ _ hloop e he
    exact ⟨keyText, p, s, s1, hp, hk, hm⟩

/-- The layout claim applied to the object `{a: 1, b: 2}` inside
`stringify(value, null, 2)`. -/
theorem serializeObject_layout_witness :
    exampleEnv.StateFree ∧ 0 ∉ twoSpaceState.mod.stack ∧
    memberEntries exampleEnv (serializeProperty exampleEnv 2) (.ref 0)
        (keysOf exampleEnv (entered twoSpaceState 0).mod 0) (entered twoSpaceState 0)
      = .ok [(js "a", js "a: 1"), (js "b", js "b: 2")] (entered twoSpaceState 0) ∧
    serializeObject exampleEnv 2 0 twoSpaceState
      = .ok (js "\x7b\n  a: 1,\n  b: 2,\n\x7d") twoSpaceState :=
  ⟨exampleEnv_stateFree, by decide, by decide,
    (serializeObject_layout.1 exampleEnv 2 0 twoSpaceState
      [(js "a", js "a: 1"), (js "b", js "b: 2")] (entered twoSpaceState 0)
      exampleEnv_stateFree (by decide) (by decide)).1⟩

/-- C7, as amended (arrays never change length): whatever the hooks and the
replacer return, the array being as it is during the call, when the per-value
results of the elements of an array are `r0..r(n-1)`, `n` is the length of the
array and `serializeArray` lays out, in index order, one entry per element,
the text of `ri` when it is present and `null` when it is absent, with the gap
and the indent that the module variables hold after the last element; the
empty array gives the two brackets alone.  With user functions that leave the
module variables alone (they make no call of `stringify`) the layout is the
one of objects with square brackets, for the gap and the indent of the entry
(commas when the gap is empty, one line per entry and a trailing comma
otherwise).  So `stringify([0,1,2], (k,v) => k === '1' ? undefined : v)` is
`[0,null,2]`. -/
theorem serializeArray_keeps_length :
    (∀ (env : Env) (fuel a : Nat) (st : State) (rs : List (Option JSString)) (st2 : State),
      a ∉ st.mod.stack →
      elementResults (serializeProperty env fuel) (.ref a) (List.range (arrayLength env a))
          (entered st a) = .ok rs st2 →
      rs.length = arrayLength env a ∧
      (rs.map (fun r => r.getD (js "null"))).length = arrayLength env a ∧
      (∀ (j : Nat) (r : Option JSString), rs[j]? = some r →
        ∃ s s1, serializeProperty env fuel (decimal j) (.ref a) s = .ok r s1) ∧
      (serializeArray env fuel a st).value?
        = some (assemble (js "[") (js "]") (rs.map (fun r => r.getD (js "null")))
            st2.mod.gap st2.mod.indent st.mod.indent) ∧
      (arrayLength env a = 0 → (serializeArray env fuel a st).value? = some (js "[]")) ∧
      (env.StateFree →
        serializeArray env fuel a st
          = .ok (layout (js "[") (js "]") st.mod.gap st.mod.indent
                  (rs.map (fun r => r.getD (js "null"))))
              { st2 with mod := st.mod })) ∧
    (stringify exampleEnv 3 (.ref 1) (.ref 2) .undefined idleState).value?
      = some (some (js "[0,null,2]")) := by
  refine ⟨?_, by decide⟩
  intro env fuel a st rs st2 hstack hloop
  have hlen : rs.length = arrayLength env a := by
    rw [elementResults_length _ _ _ _ _ _ hloop, List.length_range]
  have hret := serializeArrayWith_of_results env (serializeProperty env fuel) a st hstack rs
    st2 hloop
  refine ⟨hlen, by rw [List.length_map, hlen], ?_, ?_, ?_, ?_⟩
  · intro j r hj
    obtain ⟨i, s, s1, hi, hs⟩ := elementResults_get _ _ _ _ _ _ hloop j r hj
    have hij : i = j := by
      rw [List.getElem?_range] at hi
      · exact (Option.some.inj hi).symm
      · by_contra hge
        rw [List.getElem?_eq_none (by simpa using hge)] at hi
        exact Option.noConfusion hi
    rw [← hij]
    exact ⟨s, s1, hs⟩
  · unfold serializeArray
    rw [hret]
    rfl
  · intro hzero
    have hnil : rs = [] := List.length_eq_zero.1 (by rw [hlen, hzero])
    unfold serializeArray
    rw [hret, hnil]
    rfl
  · intro hfree
    have hsp := serializeProperty_frame env hfree fuel
    have hmod : st2.mod = (entered st a).mod := elementResults_frame _ hsp _ _ _ _ _ hloop
    unfold serializeArray
    rw [hret, entered_restore st a st2 hmod]
    have hg : st2.mod.gap = st.mod.gap := by rw [hmod]; rfl
    have hi : st2.mod.indent = st.mod.indent ++ st.mod.gap := by rw [hmod]; rfl
    rw [hg, hi, assemble_eq_layout]

/-- The array claim applied to `[0, 1, 2]` with the replacer that drops the
element of key `1`. -/
theorem serializeArray_keeps_length_witness :
    1 ∉ ({ idleState with mod := { idleState.mod with replacerFunc := some 0 } } : State).mod.stack ∧
    (elementResults (serializeProperty exampleEnv 2) (.ref 1)
        (List.range (arrayLength exampleEnv 1))
        (entered { idleState with mod := { idleState.mod with replacerFunc := some 0 } } 1)).value?
      = some [some (js "0"), none, some (js "2")] ∧
    (serializeArray exampleEnv 2 1
        { idleState with mod := { idleState.mod with replacerFunc := some 0 } }).value?
      = some (js "[0,null,2]") := by
  refine ⟨by decide, by decide, ?_⟩
  have h := (serializeArray_keeps_length.1 exampleEnv 2 1
    { idleState with mod := { idleState.mod with replacerFunc := some 0 } }
    [some (js "0"), none, some (js "2")]
    { mod := { stack := [1], indent := [], propertyList := none, replacerFunc := some 0,
               gap := [] },
      calls := [⟨0, .ref 1, [.string (js "0"), num 0]⟩, ⟨0, .ref 1, [.string (js "1"), num 1]⟩,
                ⟨0, .ref 1, [.string (js "2"), num 2]⟩] }
    (by decide) (by decide)).2.2.2.1
  rw [h]
  decide


/-! ## Claims on key order, hooks and the replacer -/

theorem ownKeys_plain (o : Obj) (h : o.kind = .plain) :
    ownKeys o
      = (((o.props.map Prod.fst).filterMap arrayIndex?).insertionSort (fun a b => a ≤ b)).map
          decimal
        ++ (o.props.map Prod.fst).filter (fun k => (arrayIndex? k).isNone) := by
  unfold ownKeys
  rw [h]
  simp

/-- C8, as amended (key order): with no allow-list, the members `serializeObject`
emits are built from a subsequence, in order, of `Object.keys(value)`, namely
from the keys whose value has a text (a key is left out only when the result
for its value is absent); for a
plain object these keys are the integer-like names in ascending numeric order
followed by the other names in declaration order, which is the declaration
order of the object when none of its names is integer-like. -/
theorem serializeObject_key_order (env : Env) (fuel a : Nat) (st : State)
    (es : List (JSString × JSString)) (st2 : State)
    (hlist : st.mod.propertyList = none) (hstack : a ∉ st.mod.stack)
    (hloop : memberEntries env (serializeProperty env fuel) (.ref a) (ownKeys (env.obj a))
      (entered st a) = .ok es st2) :
    (serializeObject env fuel a st).value?
        = some (assemble (js "\x7b") (js "\x7d") (es.map Prod.snd) st2.mod.gap st2.mod.indent
            st.mod.indent) ∧
      (es.map Prod.fst).Sublist (ownKeys (env.obj a)) ∧
      (∀ e ∈ es, ∃ propertyString s s1,
        serializeProperty env fuel e.1 (.ref a) s = .ok (some propertyString) s1) ∧
      (∀ k ∈ ownKeys (env.obj a), k ∉ es.map Prod.fst →
        ∃ s s1, serializeProperty env fuel k (.ref a) s = .ok none s1) ∧
      ((env.obj a).kind = .plain →
        (∃ indices : List Nat, indices.Sorted (fun x y => x ≤ y) ∧
          indices.Perm (((env.obj a).props.map Prod.fst).filterMap arrayIndex?) ∧
          ownKeys (env.obj a) = indices.map decimal
            ++ ((env.obj a).props.map Prod.fst).filter (fun k => (arrayIndex? k).isNone)) ∧
        ((∀ k ∈ (env.obj a).props.map Prod.fst, arrayIndex? k = none) →
          ownKeys (env.obj a) = (env.obj a).props.map Prod.fst)) := by
  have hkeys : keysOf env (entered st a).mod a = ownKeys (env.obj a) := by
    simp [keysOf, entered, hlist]
  obtain ⟨hsrc, hdrop⟩ := memberEntries_source env _ _ _ _ _ _ hloop
  refine ⟨?_, memberEntries_sublist env _ _ _ _ _ _ hloop, ?_, hdrop, ?_⟩
  · unfold serializeObject
    rw [serializeObjectWith_of_entries env _ a st hstack es st2 (by rw [hkeys]; exact hloop)]
    rfl
  · intro e he
    obtain ⟨_, p, s, s1, hp, _, _⟩ := hsrc e he
    exact ⟨p, s, s1, hp⟩
  · intro hk
    refine ⟨⟨_, List.sorted_insertionSort _ _, List.perm_insertionSort _ _,
      ownKeys_plain _ hk⟩, ?_⟩
    intro hnone
    rw [ownKeys_plain _ hk]
    have h1 : ((env.obj a).props.map Prod.fst).filterMap arrayIndex? = [] := by
      rw [List.filterMap_eq_nil_iff]
      exact hnone
    have h2 : ((env.obj a).props.map Prod.fst).filter (fun k => (arrayIndex? k).isNone)
        = (env.obj a).props.map Prod.fst := by
      rw [List.filter_eq_self]
      intro k hk'
      simp [hnone k hk']
    rw [h1, h2]
    simp

/-- The key-order claim applied to `{a: 1, b: 2}`. -/
theorem serializeObject_key_order_witness :
    idleState.mod.propertyList = none ∧ 0 ∉ idleState.mod.stack ∧
    memberEntries exampleEnv (serializeProperty exampleEnv 2) (.ref 0)
        (ownKeys (exampleEnv.obj 0)) (entered idleState 0)
      = .ok [(js "a", js "a:1"), (js "b", js "b:2")] (entered idleState 0) ∧
    ([js "a", js "b"] : List JSString).Sublist (ownKeys (exampleEnv.obj 0)) :=
  ⟨rfl, by decide, by decide,
    (serializeObject_key_order exampleEnv 2 0 idleState
      [(js "a", js "a:1"), (js "b", js "b:2")] (entered idleState 0) rfl (by decide)
      (by decide)).2.1⟩

/-- C8 as stated fails: the object declared as `{b: 1, '2': 2}` has no
allow-list and is emitted with the key `2` before the key `b`. -/
theorem serializeObject_declaration_order_counterexample :
    (exampleEnv.obj 3).props.map Prod.fst = [js "b", js "2"] ∧
    (memberEntries exampleEnv (serializeProperty exampleEnv 2) (.ref 3)
        (keysOf exampleEnv (entered idleState 3).mod 3) (entered idleState 3)).value?
      = some [(js "2", js "\x272\x27:2"), (js "b", js "b:1")] ∧
    (stringify exampleEnv 3 (.ref 3) .undefined .undefined idleState).value?
      = some (some (js "\x7b\x272\x27:2,b:1\x7d")) ∧
    ¬ ([js "2", js "b"] : List JSString).Sublist ((exampleEnv.obj 3).props.map Prod.fst) := by
  refine ⟨by decide, by decide, by decide, by decide⟩


theorem applyHook_eq_firstHook (env : Env) (key : JSString) (value : Value) (st : State)
    (h1 : value ≠ .null) (h2 : value ≠ .undefined) :
    applyHook env key value st
      = match firstHook env value with
        | some f => invoke env f value [.string key] st
        | none => .ok value st := by
  unfold applyHook firstHook
  rw [if_neg (by simp [h1, h2])]
  cases ha : callable? env (member env value (js "toJSONext")) with
  | some f => simp [List.filterMap_cons, ha]
  | none =>
    cases hb : callable? env (member env value (js "toJSON5")) with
    | some f => simp [List.filterMap_cons, ha, hb]
    | none =>
      cases hc : callable? env (member env value (js "toJSON")) with
      | some f => simp [List.filterMap_cons, ha, hb, hc]
      | none => simp [List.filterMap_cons, ha, hb, hc]

theorem invoke_calls (env : Env) (f : Nat) (receiver : Value) (args : List Value) (st : State) :
    (invoke env f receiver args st).state?.map (fun s => s.calls)
      = some (st.calls ++ [⟨f, receiver, args⟩]) := by
  unfold invoke
  cases env.call f st.mod receiver args <;> rfl

/-- C9, as amended (custom hook priority): the hook names the code looks up
are `toJSONext`, `toJSON5` and `toJSON`, in this order.  For a value that is
neither null nor absent, the first of these that is a function is called with
the value as receiver and the key as argument, its result replaces the value,
and that call is the only one the hook step makes; when the value exposes none
of the three, or is null or absent, no function is called and the value is
unchanged. -/
theorem applyHook_priority (env : Env) (key : JSString) (value : Value) (st : State) :
    (value = .null ∨ value = .undefined → applyHook env key value st = .ok value st) ∧
    (value ≠ .null → value ≠ .undefined →
      (∀ f, callable? env (member env value (js "toJSONext")) = some f →
        applyHook env key value st = invoke env f value [.string key] st) ∧
      (∀ f, callable? env (member env value (js "toJSONext")) = none →
        callable? env (member env value (js "toJSON5")) = some f →
        applyHook env key value st = invoke env f value [.string key] st) ∧
      (∀ f, callable? env (member env value (js "toJSONext")) = none →
        callable? env (member env value (js "toJSON5")) = none →
        callable? env (member env value (js "toJSON")) = some f →
        applyHook env key value st = invoke env f value [.string key] st) ∧
      (callable? env (member env value (js "toJSONext")) = none →
        callable? env (member env value (js "toJSON5")) = none →
        callable? env (member env value (js "toJSON")) = none →
        applyHook env key value st = .ok value st)) ∧
    (∀ f v m, value ≠ .null → value ≠ .undefined → firstHook env value = some f →
      env.call f st.mod value [.string key] = .returns v m →
      applyHook env key value st
        = .ok v { mod := m, calls := st.calls ++ [⟨f, value, [.string key]⟩] }) ∧
    (applyHook env key value st).state?.map (fun s => s.calls)
      = some (st.calls ++
          (if value = .null ∨ value = .undefined then []
           else match firstHook env value with
             | some f => [⟨f, value, [.string key]⟩]
             | none => [])) := by
  refine ⟨?_, ?_, ?_, ?_⟩
  · intro h
    unfold applyHook
    rw [if_pos h]
  · intro h1 h2
    rw [applyHook_eq_firstHook env key value st h1 h2]
    refine ⟨?_, ?_, ?_, ?_⟩
    · intro f ha
      simp [firstHook, List.filterMap_cons, ha]
    · intro f ha hb
      simp [firstHook, List.filterMap_cons, ha, hb]
    · intro f ha hb hc
      simp [firstHook, List.filterMap_cons, ha, hb, hc]
    · intro ha hb hc
      simp [firstHook, List.filterMap_cons, ha, hb, hc]
  · intro f v m h1 h2 hf hcall
    rw [applyHook_eq_firstHook env key value st h1 h2, hf]
    simp only [invoke, hcall]
  · by_cases h : value = .null ∨ value = .undefined
    · rw [if_pos h]
      unfold applyHook
      rw [if_pos h]
      simp [Res.state?]
    · rw [if_neg h]
      have h1 : value ≠ .null := fun e => h (Or.inl e)
      have h2 : value ≠ .undefined := fun e => h (Or.inr e)
      rw [applyHook_eq_firstHook env key value st h1 h2]
      cases firstHook env value with
      | some f => exact invoke_calls env f value [.string key] st
      | none => simp [Res.state?]

/-- The hook claim applied to the object that has both `toJSON` and `toJSON5`:
`toJSON5` is the hook called. -/
theorem applyHook_priority_witness :
    (Value.ref 6 ≠ .null) ∧ (Value.ref 6 ≠ .undefined) ∧
    callable? exampleEnv (member exampleEnv (.ref 6) (js "toJSONext")) = none ∧
    callable? exampleEnv (member exampleEnv (.ref 6) (js "toJSON5")) = some 2 ∧
    applyHook exampleEnv (js "k") (.ref 6) idleState
      = invoke exampleEnv 2 (.ref 6) [.string (js "k")] idleState ∧
    invoke exampleEnv 2 (.ref 6) [.string (js "k")] idleState
      = .ok (num 5) { idleState with calls := [⟨2, .ref 6, [.string (js "k")]⟩] } :=
  ⟨by decide, by decide, by decide, by decide,
    ((applyHook_priority exampleEnv (js "k") (.ref 6) idleState).2.1 (by decide)
      (by decide)).2.1 2 (by decide) (by decide),
    by decide⟩

/-- C9 as stated fails: a value whose only hook is named `toJSONExtended` has
no hook called; it is serialized as the object it is, and no user function is
called during the run. -/
theorem applyHook_toJSONExtended_counterexample :
    callable? exampleEnv (member exampleEnv (.ref 4) (js "toJSONExtended")) = some 1 ∧
    applyHook exampleEnv [] (.ref 4) idleState = .ok (.ref 4) idleState ∧
    (stringify exampleEnv 3 (.ref 4) .undefined .undefined idleState).value?
      = some (some (js "\x7b\x7d")) ∧
    (stringify exampleEnv 3 (.ref 4) .undefined .undefined idleState).state?.map
      (fun s => s.calls) = some [] := by
  refine ⟨by decide, by decide, by decide, by decide⟩


theorem withHolder_obj (env : Env) (value : Value) :
    (withHolder env value).obj env.heap.length = { kind := .plain, props := [([], value)] } := by
  simp [withHolder, Env.obj, List.getD_eq_getElem?_getD]

theorem withHolder_member (env : Env) (value : Value) :
    member (withHolder env value) (.ref env.heap.length) [] = value := by
  have h : arrayIndex? [] = none := by decide
  simp [member, withHolder_obj, getProp, lookupProp]

theorem serializeElements_congr
    (sp sp' : JSString → Value → State → Res (Option JSString)) (value : Value)
    (indices : List Nat)
    (h : ∀ i ∈ indices, ∀ s, sp (decimal i) value s = sp' (decimal i) value s) :
    ∀ (partials : List JSString) (st : State),
      serializeElements sp value indices partials st
        = serializeElements sp' value indices partials st := by
  induction indices with
  | nil => intro partials st; simp [serializeElements]
  | cons i rest ih =>
    intro partials st
    rw [serializeElements, serializeElements, h i (List.mem_cons_self _ _)]
    cases sp' (decimal i) value st with
    | ok r st1 => exact ih (fun j hj s => h j (List.mem_cons_of_mem _ hj) s) _ _
    | throw e st1 => rfl
    | outOfFuel => rfl

theorem serializeMembers_congr (env : Env)
    (sp sp' : JSString → Value → State → Res (Option JSString)) (value : Value)
    (keys : List JSString)
    (h : ∀ k ∈ keys, ∀ s, sp k value s = sp' k value s) :
    ∀ (partials : List JSString) (st : State),
      serializeMembers env sp value keys partials st
        = serializeMembers env sp' value keys partials st := by
  induction keys with
  | nil => intro partials st; simp [serializeMembers]
  | cons key keys ih =>
    intro partials st
    have ih' := ih (fun j hj s => h j (List.mem_cons_of_mem _ hj) s)
    rw [serializeMembers, serializeMembers, h key (List.mem_cons_self _ _)]
    cases sp' key value st with
    | ok r st1 =>
      cases r with
      | none => exact ih' _ _
      | some propertyString =>
        simp only
        cases serializeKey env key with
        | error e => rfl
        | ok keyText => exact ih' _ _
    | throw e st1 => rfl
    | outOfFuel => rfl

/-- C10 (replacer function): at a node `(key, holder)` reached while a replacer
function `f` is set, `serializeProperty` calls `f` once, after the hook step,
with the holder as receiver and `(key, value after the hook step)` as
arguments, and what it returns is the serialization of the value `f` returned;
`stringify` visits the root with the key `''` and the holder `{'': root}` and
with `f` set when the replacer is a function; the loops of `serializeObject`
and `serializeArray` consult `serializeProperty` only at the keys of the
object, respectively the indices of the array as strings, with the object as
holder. -/
theorem serializeProperty_replacer :
    (∀ (env : Env) (fuel : Nat) (key : JSString) (holder : Value) (st : State) (f : Nat)
        (hooked : Value) (st1 : State) (v : Value) (m : ModuleState),
      applyHook env key (member env holder key) st = .ok hooked st1 →
      st1.mod.replacerFunc = some f →
      env.call f st1.mod holder [.string key, hooked] = .returns v m →
      applyReplacer env key holder hooked st1
        = .ok v { mod := m, calls := st1.calls ++ [⟨f, holder, [.string key, hooked]⟩] } ∧
      serializeProperty env (fuel + 1) key holder st
        = serializeValue env (serializeProperty env fuel) v
            { mod := m, calls := st1.calls ++ [⟨f, holder, [.string key, hooked]⟩] }) ∧
    (∀ (env : Env) (fuel : Nat) (value replacer space : Value) (st : State) (f : Nat),
      callable? env replacer = some f →
      (initialModule env replacer space).replacerFunc = some f ∧
      member (withHolder env value) (.ref env.heap.length) [] = value ∧
      (withHolder env value).obj env.heap.length = { kind := .plain, props := [([], value)] } ∧
      stringify env fuel value replacer space st
        = serializeProperty (withHolder env value) fuel [] (.ref env.heap.length)
            { mod := initialModule env replacer space, calls := st.calls }) ∧
    (∀ (env : Env) (sp sp' : JSString → Value → State → Res (Option JSString)) (a : Nat)
        (st : State),
      (∀ k ∈ keysOf env (entered st a).mod a, ∀ s, sp k (.ref a) s = sp' k (.ref a) s) →
      serializeObjectWith env sp a st = serializeObjectWith env sp' a st) ∧
    (∀ (env : Env) (sp sp' : JSString → Value → State → Res (Option JSString)) (a : Nat)
        (st : State),
      (∀ i < arrayLength env a, ∀ s, sp (decimal i) (.ref a) s = sp' (decimal i) (.ref a) s) →
      serializeArrayWith env sp a st = serializeArrayWith env sp' a st) := by
  refine ⟨?_, ?_, ?_, ?_⟩
  · intro env fuel key holder st f hooked st1 v m hhook hf hcall
    have hrep : applyReplacer env key holder hooked st1
        = .ok v { mod := m, calls := st1.calls ++ [⟨f, holder, [.string key, hooked]⟩] } := by
      unfold applyReplacer
      rw [hf]
      simp only [invoke, hcall]
    refine ⟨hrep, ?_⟩
    rw [serializeProperty, hhook]
    simp only
    rw [hrep]
  · intro env fuel value replacer space st f hf
    refine ⟨?_, withHolder_member env value, withHolder_obj env value, rfl⟩
    simp [initialModule, hf]
  · intro env sp sp' a st h
    unfold serializeObjectWith
    by_cases hs : a ∈ st.mod.stack
    · rw [if_pos hs, if_pos hs]
    · rw [if_neg hs, if_neg hs]
      simp only
      have e := serializeMembers_congr env sp sp' (.ref a) _ h [] (entered st a)
      simp only [entered] at e
      rw [e]
  · intro env sp sp' a st h
    unfold serializeArrayWith
    by_cases hs : a ∈ st.mod.stack
    · rw [if_pos hs, if_pos hs]
    · rw [if_neg hs, if_neg hs]
      simp only
      rw [serializeElements_congr sp sp' (.ref a) _
        (fun i hi s => h i (List.mem_range.1 hi) s)]

/-- The replacer claim applied to the element of index 1 of `[0, 1, 2]` with
the replacer that drops the key `1`: the replacer is called once and the
element has no text. -/
theorem serializeProperty_replacer_witness :
    applyHook exampleEnv (js "1") (member exampleEnv (.ref 1) (js "1"))
        { idleState with mod := { idleState.mod with replacerFunc := some 0 } }
      = .ok (num 1) { idleState with mod := { idleState.mod with replacerFunc := some 0 } } ∧
    exampleEnv.call 0 { idleState.mod with replacerFunc := some 0 } (.ref 1)
        [.string (js "1"), num 1]
      = .returns .undefined { idleState.mod with replacerFunc := some 0 } ∧
    serializeProperty exampleEnv 1 (js "1") (.ref 1)
        { idleState with mod := { idleState.mod with replacerFunc := some 0 } }
      = .ok none
          { mod := { idleState.mod with replacerFunc := some 0 },
            calls := [⟨0, .ref 1, [.string (js "1"), num 1]⟩] } := by
  refine ⟨by decide, by decide, ?_⟩
  rw [(serializeProperty_replacer.1 exampleEnv 0 (js "1") (.ref 1)
    { idleState with mod := { idleState.mod with replacerFunc := some 0 } } 0 (num 1)
    { idleState with mod := { idleState.mod with replacerFunc := some 0 } } .undefined
    { idleState.mod with replacerFunc := some 0 } (by decide) rfl (by decide)).2]
  rfl


/-! ## Claims that the code does not meet -/

theorem stringify_string (env : Env) (fuel : Nat) (s : JSString) (st : State) :
    stringify env (fuel + 1) (.string s) .undefined .undefined st
      = .ok (some (quoteString s false))
          { mod := initialModule env .undefined .undefined, calls := st.calls } := by
  unfold stringify
  rw [serializeProperty, withHolder_member]
  have hm : ∀ name, member (withHolder env (.string s)) (.string s) name = .undefined := by
    intro name; rfl
  have hc : callable? (withHolder env (.string s)) .undefined = none := rfl
  have hr : (initialModule env .undefined .undefined).replacerFunc = none := by
    simp [initialModule, callable?]
  simp [applyHook, hm, hc, applyReplacer, hr, serializeValue]

/-- C1 (round trip) fails on a backslash: the string made of a backslash and
the letter `n` is serialized as that same text between apostrophes, which the
string grammar of the specification reads as the one-character string LF; the
string made of one backslash is serialized as a text the grammar rejects
(the backslash escapes the closing apostrophe). -/
theorem stringify_backslash_round_trip_fails (env : Env) (fuel : Nat) (st : State) :
    (stringify env (fuel + 1) (.string (js "\\n")) .undefined .undefined st).value?
        = some (some (js "\x27\\n\x27")) ∧
      parseString (js "\x27\\n\x27") = some [10] ∧
      ([10] : JSString) ≠ js "\\n" ∧
    (stringify env (fuel + 1) (.string (js "\\")) .undefined .undefined st).value?
        = some (some (js "\x27\\\x27")) ∧
      parseString (js "\x27\\\x27") = none := by
  refine ⟨?_, by decide, by decide, ?_, by decide⟩
  · rw [stringify_string]
    have h : quoteString (js "\\n") false = js "\x27\\n\x27" := by decide
    simp [Res.value?, h]
  · rw [stringify_string]
    have h : quoteString (js "\\") false = js "\x27\\\x27" := by decide
    simp [Res.value?, h]

/-- C2 (key rendering) fails on a key whose second code point lies outside the
BMP: for the key `a` followed by U+1D49C, with `a` an identifier start,
U+1D49C an identifier continuation and the lone surrogate U+DC9C not one, the
key has the two code points `a` and U+1D49C, yet `serializeKey` does not
return it bare but quoted, because its loop also classifies what
`codePointAt` reads at the index of the low surrogate. -/
theorem serializeKey_quotes_astral_continuation (env : Env)
    (h1 : env.isIdStartChar [0x61] = true)
    (h2 : env.isIdContinueChar [0xD835, 0xDC9C] = true)
    (h3 : env.isIdContinueChar [0xDC9C] = false) :
    stringIterator [0x61, 0xD835, 0xDC9C] = [[0x61], [0xD835, 0xDC9C]] ∧
    fromCodePoint (codePointAt [0x61, 0xD835, 0xDC9C] 1) = .ok [0xD835, 0xDC9C] ∧
    fromCodePoint (codePointAt [0x61, 0xD835, 0xDC9C] 2) = .ok [0xDC9C] ∧
    serializeKey env [0x61, 0xD835, 0xDC9C] = .ok [39, 0x61, 0xD835, 0xDC9C, 39] := by
  have hq : quoteString [0x61, 0xD835, 0xDC9C] true = [39, 0x61, 0xD835, 0xDC9C, 39] := by
    decide
  have c0 : fromCodePoint (codePointAt [0x61, 0xD835, 0xDC9C] 0) = .ok [0x61] := by decide
  have c1 : fromCodePoint (codePointAt [0x61, 0xD835, 0xDC9C] 1) = .ok [0xD835, 0xDC9C] := by
    decide
  have c2 : fromCodePoint (codePointAt [0x61, 0xD835, 0xDC9C] 2) = .ok [0xDC9C] := by decide
  refine ⟨by decide, c1, c2, ?_⟩
  unfold serializeKey
  rw [c0]
  simp only [h1, Bool.not_true, Bool.false_eq_true, if_false, List.length_cons,
    List.length_nil]
  show serializeKeyLoop env [0x61, 0xD835, 0xDC9C] [1, 2] = _
  rw [serializeKeyLoop, c1]
  simp only [h2, Bool.not_true, Bool.false_eq_true, if_false]
  rw [serializeKeyLoop, c2]
  simp [h3, hq]

/-- The key of the failing input in the example environment. -/
theorem serializeKey_quotes_astral_continuation_witness :
    exampleEnv.isIdStartChar [0x61] = true ∧
    exampleEnv.isIdContinueChar [0xD835, 0xDC9C] = true ∧
    exampleEnv.isIdContinueChar [0xDC9C] = false ∧
    serializeKey exampleEnv [0x61, 0xD835, 0xDC9C] = .ok [39, 0x61, 0xD835, 0xDC9C, 39] :=
  ⟨by decide, by decide, by decide,
    (serializeKey_quotes_astral_continuation exampleEnv (by decide) (by decide)
      (by decide)).2.2.2⟩

/-! ## The steps of `serializeProperty` -/

theorem serializeProperty_steps (env : Env) (fuel : Nat) (key : JSString) (holder : Value)
    (st : State) (hooked : Value) (st1 : State) (v : Value) (st2 : State)
    (hhook : applyHook env key (member env holder key) st = .ok hooked st1)
    (hrep : applyReplacer env key holder hooked st1 = .ok v st2) :
    serializeProperty env (fuel + 1) key holder st
      = serializeValue env (serializeProperty env fuel) v st2 := by
  rw [serializeProperty, hhook]
  simp only
  rw [hrep]

theorem serializeProperty_ok_steps (env : Env) (fuel : Nat) (key : JSString) (holder : Value)
    (st : State) (r : Option JSString) (st3 : State)
    (h : serializeProperty env (fuel + 1) key holder st = .ok r st3) :
    ∃ hooked st1 v st2,
      applyHook env key (member env holder key) st = .ok hooked st1 ∧
      applyReplacer env key holder hooked st1 = .ok v st2 ∧
      serializeValue env (serializeProperty env fuel) v st2 = .ok r st3 := by
  rw [serializeProperty] at h
  cases h1 : applyHook env key (member env holder key) st with
  | ok hooked st1 =>
    rw [h1] at h
    simp only at h
    cases h2 : applyReplacer env key holder hooked st1 with
    | ok v st2 =>
      rw [h2] at h
      exact ⟨hooked, st1, v, st2, rfl, h2, h⟩
    | throw e st2 => rw [h2] at h; simp at h
    | outOfFuel => rw [h2] at h; simp at h
  | throw e st1 => rw [h1] at h; simp at h
  | outOfFuel => rw [h1] at h; simp at h

/-- C13 (scalar dispatch): when the hook and replacer steps leave the value
`v`, `serializeProperty` returns the text `null` for null, `true` and `false`
for the booleans, `quoteString(v, false)` for a string, `String(v)` for a
finite number and the text `null` for `Infinity`, `-Infinity` and `NaN`. -/
theorem serializeProperty_scalars (env : Env) (fuel : Nat) (key : JSString) (holder : Value)
    (st : State) (hooked : Value) (st1 : State) (v : Value) (st2 : State)
    (hhook : applyHook env key (member env holder key) st = .ok hooked st1)
    (hrep : applyReplacer env key holder hooked st1 = .ok v st2) :
    (v = .null → serializeProperty env (fuel + 1) key holder st = .ok (some (js "null")) st2) ∧
    (v = .bool true →
      serializeProperty env (fuel + 1) key holder st = .ok (some (js "true")) st2) ∧
    (v = .bool false →
      serializeProperty env (fuel + 1) key holder st = .ok (some (js "false")) st2) ∧
    (∀ s, v = .string s →
      serializeProperty env (fuel + 1) key holder st = .ok (some (quoteString s false)) st2) ∧
    (∀ neg mant exp, v = .number (.finite neg mant exp) →
      serializeProperty env (fuel + 1) key holder st
        = .ok (some (env.numberToString (.finite neg mant exp))) st2) ∧
    (v = .number (.infinity false) ∨ v = .number (.infinity true) ∨ v = .number .nan →
      serializeProperty env (fuel + 1) key holder st = .ok (some (js "null")) st2) := by
  rw [serializeProperty_steps env fuel key holder st hooked st1 v st2 hhook hrep]
  refine ⟨?_, ?_, ?_, ?_, ?_, ?_⟩
  · rintro rfl; rfl
  · rintro rfl; rfl
  · rintro rfl; rfl
  · rintro s rfl; rfl
  · rintro neg mant exp rfl; rfl
  · rintro (rfl | rfl | rfl) <;> rfl

/-- The scalar claim applied to the member `a` of `{a: 1, b: 2}`, whose text
is `1`. -/
theorem serializeProperty_scalars_witness :
    applyHook exampleEnv (js "a") (member exampleEnv (.ref 0) (js "a")) idleState
      = .ok (num 1) idleState ∧
    applyReplacer exampleEnv (js "a") (.ref 0) (num 1) idleState = .ok (num 1) idleState ∧
    serializeProperty exampleEnv 1 (js "a") (.ref 0) idleState = .ok (some (js "1")) idleState :=
  ⟨by decide, by decide,
    (serializeProperty_scalars exampleEnv 0 (js "a") (.ref 0) idleState (num 1) idleState
      (num 1) idleState (by decide) (by decide)).2.2.2.2.1 false 1 0 rfl⟩

/-! ## The result of `stringify` at the root -/

theorem stringify_steps (env : Env) (fuel : Nat) (value replacer space : Value) (st : State)
    (hooked : Value) (st1 : State) (v : Value) (st2 : State)
    (hhook : applyHook (withHolder env value) [] value
      { mod := initialModule env replacer space, calls := st.calls } = .ok hooked st1)
    (hrep : applyReplacer (withHolder env value) [] (.ref env.heap.length) hooked st1
      = .ok v st2) :
    stringify env (fuel + 1) value replacer space st
      = serializeValue (withHolder env value) (serializeProperty (withHolder env value) fuel)
          v st2 := by
  unfold stringify
  exact serializeProperty_steps (withHolder env value) fuel [] (.ref env.heap.length) _ hooked
    st1 v st2 (by rw [withHolder_member]; exact hhook) hrep

theorem serializeValue_absent (env : Env)
    (sp : JSString → Value → State → Res (Option JSString)) (v : Value) (st : State) :
    ((∃ st3, serializeValue env sp v st = .ok none st3) ↔ (v = .undefined ∨ isFunction env v)) ∧
    (v = .undefined ∨ isFunction env v → serializeValue env sp v st = .ok none st) := by
  have habs : v = .undefined ∨ isFunction env v → serializeValue env sp v st = .ok none st := by
    rintro (rfl | ⟨a, f, rfl, hk⟩)
    · rfl
    · simp [serializeValue, hk]
  refine ⟨⟨?_, fun h => ⟨st, habs h⟩⟩, habs⟩
  rintro ⟨st3, h⟩
  cases v with
  | undefined => exact Or.inl rfl
  | null => simp [serializeValue] at h
  | bool b => cases b <;> simp [serializeValue] at h
  | number n => simp [serializeValue] at h
  | string s => simp [serializeValue] at h
  | ref a =>
    right
    unfold serializeValue at h
    simp only at h
    cases hk : (env.obj a).kind with
    | plain =>
      rw [hk] at h
      obtain ⟨t, ht, _⟩ := present_ok h
      exact Option.noConfusion ht
    | array elems =>
      rw [hk] at h
      obtain ⟨t, ht, _⟩ := present_ok h
      exact Option.noConfusion ht
    | function f => exact ⟨a, f, rfl, hk⟩

/-- C14 (absent only at the top level): with `v` the root value after the hook
and replacer steps, `stringify` returns the absent value if and only if `v` is
`undefined` or a function, that is none of null, a boolean, a string, a number,
an array or an object, and it does return it then; when `v` is an array or an
object, every result `stringify` returns is a text.  So `[undefined, f]` for a
function `f` gives `[null,null]`, `{a: undefined, f: f}` gives the two braces,
and `undefined` and `f` alone give the absent value. -/
theorem stringify_absent_iff :
    (∀ (env : Env) (fuel : Nat) (value replacer space : Value) (st : State)
        (hooked : Value) (st1 : State) (v : Value) (st2 : State),
      applyHook (withHolder env value) [] value
          { mod := initialModule env replacer space, calls := st.calls } = .ok hooked st1 →
      applyReplacer (withHolder env value) [] (.ref env.heap.length) hooked st1 = .ok v st2 →
      ((∃ st3, stringify env (fuel + 1) value replacer space st = .ok none st3) ↔
        (v = .undefined ∨ isFunction (withHolder env value) v)) ∧
      (v = .undefined ∨ isFunction (withHolder env value) v →
        stringify env (fuel + 1) value replacer space st = .ok none st2) ∧
      (isContainer (withHolder env value) v →
        ∀ r st3, stringify env (fuel + 1) value replacer space st = .ok r st3 →
          ∃ t, r = some t)) ∧
    (stringify circularEnv 3 (.ref 11) .undefined .undefined idleState).value?
      = some (some (js "[null,null]")) ∧
    (stringify circularEnv 3 (.ref 12) .undefined .undefined idleState).value?
      = some (some (js "\x7b\x7d")) ∧
    (stringify circularEnv 3 .undefined .undefined .undefined idleState).value? = some none ∧
    (stringify circularEnv 3 (.ref 7) .undefined .undefined idleState).value? = some none := by
  refine ⟨?_, by decide, by decide, by decide, by decide⟩
  intro env fuel value replacer space st hooked st1 v st2 hhook hrep
  rw [stringify_steps env fuel value replacer space st hooked st1 v st2 hhook hrep]
  obtain ⟨h1, h2⟩ := serializeValue_absent (withHolder env value)
    (serializeProperty (withHolder env value) fuel) v st2
  refine ⟨h1, h2, ?_⟩
  rintro ⟨a, rfl, hk⟩ r st3 h
  cases r with
  | some t => exact ⟨t, rfl⟩
  | none =>
    rcases h1.1 ⟨st3, h⟩ with h' | ⟨b, f, hb, hf⟩
    · exact Value.noConfusion h'
    · cases hb
      rcases hk with ⟨elems, hk⟩ | hk
      · rw [hk] at hf; exact ObjKind.noConfusion hf
      · rw [hk] at hf; exact ObjKind.noConfusion hf

/-- The claim on the absent result applied to the root value `undefined`. -/
theorem stringify_absent_iff_witness :
    applyHook (withHolder circularEnv .undefined) [] .undefined
        { mod := initialModule circularEnv .undefined .undefined, calls := idleState.calls }
      = .ok .undefined idleState ∧
    applyReplacer (withHolder circularEnv .undefined) [] (.ref circularEnv.heap.length)
        .undefined idleState = .ok .undefined idleState ∧
    stringify circularEnv 1 .undefined .undefined .undefined idleState = .ok none idleState :=
  ⟨by decide, by decide,
    (stringify_absent_iff.1 circularEnv 0 .undefined .undefined .undefined idleState
      .undefined idleState .undefined idleState (by decide) (by decide)).2.1 (Or.inl rfl)⟩

/-! ## The states in which the loops call `serializeProperty` -/

theorem memberEntries_calls (env : Env)
    (sp : JSString → Value → State → Res (Option JSString)) (hsp : FramePreserving sp)
    (value : Value) (keys : List JSString) :
    ∀ (st : State) (es : List (JSString × JSString)) (st1 : State),
      memberEntries env sp value keys st = .ok es st1 →
      ∀ e ∈ es, ∃ keyText propertyString s s1, s.mod = st.mod ∧
        sp e.1 value s = .ok (some propertyString) s1 ∧ serializeKey env e.1 = .ok keyText ∧
        e.2 = memberText st.mod.gap keyText propertyString := by
  induction keys with
  | nil =>
    intro st es st1 hr
    simp only [memberEntries, Res.ok.injEq] at hr
    simp [← hr.1]
  | cons key keys ih =>
    intro st es st1 hr
    rw [memberEntries] at hr
    cases hk : sp key value st with
    | ok r st2 =>
      rw [hk] at hr
      have hm := hsp key value st r st2 hk
      cases r with
      | none =>
        intro e he
        have := ih _ _ _ hr e he
        rwa [hm] at this
      | some propertyString =>
        simp only at hr
        cases hs : serializeKey env key with
        | error e => rw [hs] at hr; simp at hr
        | ok keyText =>
          rw [hs] at hr
          simp only at hr
          cases hrest : memberEntries env sp value keys st2 with
          | ok rest st3 =>
            rw [hrest] at hr
            simp only [Res.ok.injEq] at hr
            rw [← hr.1]
            intro e he
            rcases List.mem_cons.1 he with rfl | he
            · exact ⟨keyText, propertyString, st, st2, rfl, hk, hs, by rw [hm]⟩
            · have := ih _ _ _ hrest e he
              rwa [hm] at this
          | throw e st3 => rw [hrest] at hr; simp at hr
          | outOfFuel => rw [hrest] at hr; simp at hr
    | throw e st2 => rw [hk] at hr; simp at hr
    | outOfFuel => rw [hk] at hr; simp at hr

theorem elementResults_calls
    (sp : JSString → Value → State → Res (Option JSString)) (hsp : FramePreserving sp)
    (value : Value) (indices : List Nat) :
    ∀ (st : State) (rs : List (Option JSString)) (st1 : State),
      elementResults sp value indices st = .ok rs st1 →
      ∀ (j : Nat) (r : Option JSString), rs[j]? = some r →
        ∃ i s s1, s.mod = st.mod ∧ indices[j]? = some i ∧ sp (decimal i) value s = .ok r s1 := by
  induction indices with
  | nil =>
    intro st rs st1 hr j r hj
    simp only [elementResults, Res.ok.injEq] at hr
    rw [← hr.1] at hj
    simp at hj
  | cons i rest ih =>
    intro st rs st1 hr j r hj
    rw [elementResults] at hr
    cases hk : sp (decimal i) value st with
    | ok r0 st2 =>
      rw [hk] at hr
      simp only at hr
      have hm := hsp _ value st r0 st2 hk
      cases hrest : elementResults sp value rest st2 with
      | ok rs2 st3 =>
        rw [hrest] at hr
        simp only [Res.ok.injEq] at hr
        rw [← hr.1] at hj
        cases j with
        | zero =>
          simp only [List.getElem?_cons_zero, Option.some.injEq] at hj
          exact ⟨i, st, st2, rfl, by simp, by rw [← hj]; exact hk⟩
        | succ j =>
          simp only [List.getElem?_cons_succ] at hj
          obtain ⟨i', s, s1, h0, h1, h2⟩ := ih _ _ _ hrest j r hj
          exact ⟨i', s, s1, by rw [h0, hm], by simpa using h1, h2⟩
      | throw e st3 => rw [hrest] at hr; simp at hr
      | outOfFuel => rw [hrest] at hr; simp at hr
    | throw e st2 => rw [hk] at hr; simp at hr
    | outOfFuel => rw [hk] at hr; simp at hr

theorem serializeObjectWith_ok (env : Env)
    (sp : JSString → Value → State → Res (Option JSString)) (a : Nat) (st : State)
    (t : JSString) (st3 : State) (h : serializeObjectWith env sp a st = .ok t st3) :
    a ∉ st.mod.stack ∧ ∃ es st2,
      memberEntries env sp (.ref a) (keysOf env (entered st a).mod a) (entered st a)
        = .ok es st2 ∧
      t = assemble (js "\x7b") (js "\x7d") (es.map Prod.snd) st2.mod.gap st2.mod.indent
            st.mod.indent := by
  by_cases hs : a ∈ st.mod.stack
  · unfold serializeObjectWith at h
    rw [if_pos hs] at h
    simp at h
  · refine ⟨hs, ?_⟩
    cases hl : memberEntries env sp (.ref a) (keysOf env (entered st a).mod a) (entered st a)
      with
    | ok es st2 =>
      rw [serializeObjectWith_of_entries env sp a st hs es st2 hl] at h
      simp only [Res.ok.injEq] at h
      exact ⟨es, st2, rfl, h.1.symm⟩
    | throw e st2 =>
      have h' := serializeMembers_eq_entries env sp (.ref a)
        (keysOf env (entered st a).mod a) [] (entered st a)
      rw [hl] at h'
      unfold serializeObjectWith at h
      rw [if_neg hs] at h
      simp only [entered, Res.map] at h'
      simp only [h'] at h
      simp at h
    | outOfFuel =>
      have h' := serializeMembers_eq_entries env sp (.ref a)
        (keysOf env (entered st a).mod a) [] (entered st a)
      rw [hl] at h'
      unfold serializeObjectWith at h
      rw [if_neg hs] at h
      simp only [entered, Res.map] at h'
      simp only [h'] at h
      simp at h

theorem serializeArrayWith_ok (env : Env)
    (sp : JSString → Value → State → Res (Option JSString)) (a : Nat) (st : State)
    (t : JSString) (st3 : State) (h : serializeArrayWith env sp a st = .ok t st3) :
    a ∉ st.mod.stack ∧ ∃ rs st2,
      elementResults sp (.ref a) (List.range (arrayLength env a)) (entered st a)
        = .ok rs st2 ∧
      t = assemble (js "[") (js "]") (rs.map (fun r => r.getD (js "null"))) st2.mod.gap
            st2.mod.indent st.mod.indent := by
  by_cases hs : a ∈ st.mod.stack
  · unfold serializeArrayWith at h
    rw [if_pos hs] at h
    simp at h
  · refine ⟨hs, ?_⟩
    cases hl : elementResults sp (.ref a) (List.range (arrayLength env a)) (entered st a) with
    | ok rs st2 =>
      rw [serializeArrayWith_of_results env sp a st hs rs st2 hl] at h
      simp only [Res.ok.injEq] at h
      exact ⟨rs, st2, rfl, h.1.symm⟩
    | throw e st2 =>
      have h' := serializeElements_eq_results sp (.ref a) (List.range (arrayLength env a)) []
        (entered st a)
      rw [hl] at h'
      unfold serializeArrayWith at h
      rw [if_neg hs] at h
      simp only [entered, Res.map] at h'
      simp only [h'] at h
      simp at h
    | outOfFuel =>
      have h' := serializeElements_eq_results sp (.ref a) (List.range (arrayLength env a)) []
        (entered st a)
      rw [hl] at h'
      unfold serializeArrayWith at h
      rw [if_neg hs] at h
      simp only [entered, Res.map] at h'
      simp only [h'] at h
      simp at h

/-! ## The gap and the compact output -/

theorem tenSpaces : js "          " = List.replicate 10 32 := by decide

theorem spaceCount_finite_neg (mant : Nat) (exp : Int) :
    spaceCount (.finite true mant exp) = 0 := by
  have h : (JSNumber.finite true mant exp).toRat ≤ 0 := by
    simp only [JSNumber.toRat, if_true]
    have h2 : (0 : ℚ) < (2 : ℚ) ^ exp := zpow_pos (by norm_num) exp
    have h3 : (0 : ℚ) ≤ (mant : ℚ) := Nat.cast_nonneg mant
    nlinarith [mul_nonneg h3 h2.le]
  have hf : ⌊(JSNumber.finite true mant exp).toRat⌋ ≤ 0 := by
    have := Int.floor_le (JSNumber.finite true mant exp).toRat
    by_contra hc
    push_neg at hc
    have h1 : (1 : ℚ) ≤ (⌊(JSNumber.finite true mant exp).toRat⌋ : ℚ) := by exact_mod_cast hc
    linarith
  simp only [spaceCount]
  rw [max_eq_left hf]
  simp

theorem floor_finite_pos (mant : Nat) (exp : Int) :
    ⌊(JSNumber.finite false mant exp).toRat⌋
      = match exp with
        | .ofNat e => ((mant * 2 ^ e : Nat) : Int)
        | .negSucc e => ((mant / 2 ^ (e + 1) : Nat) : Int) := by
  cases exp with
  | ofNat e =>
    simp only [JSNumber.toRat, Bool.false_eq_true, if_false, one_mul, Int.ofNat_eq_coe,
      zpow_natCast]
    have : ((mant : ℚ) * (2 : ℚ) ^ e) = ((mant * 2 ^ e : Nat) : ℚ) := by push_cast; ring
    rw [this]
    exact Int.floor_natCast _
  | negSucc e =>
    simp only [JSNumber.toRat, Bool.false_eq_true, if_false, one_mul, zpow_negSucc]
    have : ((mant : ℚ) * ((2 : ℚ) ^ (e + 1))⁻¹) = ((mant : ℚ) / ((2 ^ (e + 1) : Nat) : ℚ)) := by
      push_cast; rw [div_eq_mul_inv]
    rw [this, Rat.floor_natCast_div_natCast]
    norm_cast

theorem toNat_max_natCast (k : Nat) : (max 0 ((k : Nat) : Int)).toNat = k := by
  rw [max_eq_right (Int.natCast_nonneg k), Int.toNat_natCast]

theorem take_tenSpaces (k : Nat) :
    (js "          ").take (min 10 k) = List.replicate (min 10 k) 32 := by
  rw [tenSpaces, List.take_replicate, min_comm (min 10 k) 10, ← min_assoc, min_self]

theorem gapOf_finite_pos (mant : Nat) (exp : Int) (k : Nat)
    (hk : floorMin10 (.finite false mant exp) = min 10 k) (h0 : mant = 0 → k = 0) :
    gapOf (.number (.finite false mant exp)) = List.replicate (min 10 k) 32 := by
  by_cases hm : 0 < mant
  · have hp : (JSNumber.finite false mant exp).isPositive = true := by
      simp [JSNumber.isPositive, hm]
    unfold gapOf
    simp only [hp, if_true]
    rw [hk, take_tenSpaces]
  · have hp : (JSNumber.finite false mant exp).isPositive = false := by
      simp [JSNumber.isPositive, hm]
    have hk0 : k = 0 := h0 (by omega)
    unfold gapOf
    simp only [hp, Bool.false_eq_true, if_false]
    rw [hk0]
    simp

theorem gapOf_number (n : JSNumber) : gapOf (.number n) = List.replicate (spaceCount n) 32 := by
  cases n with
  | nan => simp [gapOf, JSNumber.isPositive, spaceCount]
  | infinity neg =>
    cases neg
    · have h := take_tenSpaces 10
      simpa [gapOf, JSNumber.isPositive, spaceCount, floorMin10] using h
    · simp [gapOf, JSNumber.isPositive, spaceCount]
  | finite neg mant exp =>
    cases neg with
    | true => rw [spaceCount_finite_neg]; simp [gapOf, JSNumber.isPositive]
    | false =>
      have hfl := floor_finite_pos mant exp
      cases exp with
      | ofNat e =>
        simp only at hfl
        have hs : spaceCount (.finite false mant (Int.ofNat e)) = min 10 (mant * 2 ^ e) := by
          simp only [spaceCount]
          rw [hfl, toNat_max_natCast]
        rw [hs]
        exact gapOf_finite_pos mant _ _ rfl (fun h => by rw [h]; simp)
      | negSucc e =>
        simp only at hfl
        have hs : spaceCount (.finite false mant (Int.negSucc e))
            = min 10 (mant / 2 ^ (e + 1)) := by
          simp only [spaceCount]
          rw [hfl, toNat_max_natCast]
        rw [hs]
        exact gapOf_finite_pos mant _ _ rfl (fun h => by rw [h]; simp)

theorem assemble_compact (opening closing : JSString) (partials : List JSString)
    (indent stepback : JSString) :
    assemble opening closing partials [] indent stepback
      = opening ++ (js ",").intercalate partials ++ closing := by
  cases partials with
  | nil => simp [assemble, List.intercalate]
  | cons p rest => simp [assemble, join_eq_intercalate]

theorem exists_members {α : Type} (f : JSString → JSString → α) (P : JSString → JSString → Prop)
    (l : List α) (h : ∀ e ∈ l, ∃ k p, P k p ∧ e = f k p) :
    ∃ members : List (JSString × JSString),
      l = members.map (fun m => f m.1 m.2) ∧ ∀ m ∈ members, P m.1 m.2 := by
  induction l with
  | nil => exact ⟨[], rfl, by simp⟩
  | cons e l ih =>
    obtain ⟨k, p, hP, he⟩ := h e (List.mem_cons_self _ _)
    obtain ⟨ms, hl, hms⟩ := ih (fun e' he' => h e' (List.mem_cons_of_mem _ he'))
    refine ⟨(k, p) :: ms, by simp [he, hl], ?_⟩
    intro m hm
    rcases List.mem_cons.1 hm with rfl | hm
    · exact hP
    · exact hms m hm

theorem serializeProperty_compact (env : Env) (hfree : env.StateFree) (fuel : Nat) :
    ∀ (key : JSString) (holder : Value) (st : State) (t : JSString) (st1 : State),
      st.mod.gap = [] → serializeProperty env fuel key holder st = .ok (some t) st1 →
      CompactText env t := by
  induction fuel with
  | zero => intro key holder st t st1 _ h; simp [serializeProperty] at h
  | succ fuel ih =>
    intro key holder st t st1 hgap h
    obtain ⟨hooked, s1, v, s2, h1, h2, h3⟩ := serializeProperty_ok_steps env fuel key holder st _ _ h
    have hm2 : s2.mod = st.mod := by
      rw [applyReplacer_frame env hfree _ _ _ _ _ _ h2, applyHook_frame env hfree _ _ _ _ _ h1]
    have hg2 : s2.mod.gap = [] := by rw [hm2]; exact hgap
    have hsp := serializeProperty_frame env hfree fuel
    cases v with
    | undefined => simp [serializeValue] at h3
    | null =>
      simp only [serializeValue, Res.ok.injEq, Option.some.injEq] at h3
      rw [← h3.1]; exact .null
    | bool b =>
      cases b
      · simp only [serializeValue, Res.ok.injEq, Option.some.injEq] at h3
        rw [← h3.1]; exact .false
      · simp only [serializeValue, Res.ok.injEq, Option.some.injEq] at h3
        rw [← h3.1]; exact .true
    | number n =>
      simp only [serializeValue, Res.ok.injEq, Option.some.injEq] at h3
      rw [← h3.1]
      split
      · exact .number n
      · exact .null
    | string s =>
      simp only [serializeValue, Res.ok.injEq, Option.some.injEq] at h3
      rw [← h3.1]; exact .string s
    | ref a =>
      unfold serializeValue at h3
      simp only at h3
      cases hk : (env.obj a).kind with
      | function f => rw [hk] at h3; simp at h3
      | array elems =>
        rw [hk] at h3
        obtain ⟨t', ht', h4⟩ := present_ok h3
        cases ht'
        obtain ⟨_, rs, s3, hloop, htext⟩ := serializeArrayWith_ok env _ a s2 _ _ h4
        have hm3 : s3.mod = (entered s2 a).mod := elementResults_frame _ hsp _ _ _ _ _ hloop
        have hg3 : s3.mod.gap = [] := by rw [hm3]; exact hg2
        rw [htext, hg3, assemble_compact]
        apply CompactText.array
        intro x hx
        obtain ⟨r, hr, rfl⟩ := List.mem_map.1 hx
        cases r with
        | none => exact .null
        | some p =>
          obtain ⟨j, hj⟩ := List.getElem?_of_mem hr
          obtain ⟨i, s, s', hs, _, hcall⟩ := elementResults_calls _ hsp _ _ _ _ _ hloop j _ hj
          exact ih _ _ s p s' (by rw [hs]; exact hg2) hcall
      | plain =>
        rw [hk] at h3
        obtain ⟨t', ht', h4⟩ := present_ok h3
        cases ht'
        obtain ⟨_, es, s3, hloop, htext⟩ := serializeObjectWith_ok env _ a s2 _ _ h4
        have hm3 : s3.mod = (entered s2 a).mod := memberEntries_frame env _ hsp _ _ _ _ _ hloop
        have hg3 : s3.mod.gap = [] := by rw [hm3]; exact hg2
        rw [htext, hg3, assemble_compact]
        have hform : ∀ x ∈ es.map Prod.snd, ∃ k p,
            ((∃ key, serializeKey env key = .ok k) ∧ CompactText env p) ∧
              x = k ++ js ":" ++ p := by
          intro x hx
          obtain ⟨e, he, rfl⟩ := List.mem_map.1 hx
          obtain ⟨keyText, p, s, s', hs, hcall, hkey, hmem⟩ :=
            memberEntries_calls env _ hsp _ _ _ _ _ hloop e he
          refine ⟨keyText, p, ⟨⟨e.1, hkey⟩, ih _ _ s p s' (by rw [hs]; exact hg2) hcall⟩, ?_⟩
          rw [hmem]
          have : (entered s2 a).mod.gap = [] := hg2
          simp [memberText, this]
        obtain ⟨ms, hl, hms⟩ := exists_members (fun k p => k ++ js ":" ++ p) _ _ hform
        rw [hl]
        exact CompactText.object ms (fun m hm => (hms m hm).1) (fun m hm => (hms m hm).2)

theorem spaceCount_lt_one (neg : Bool) (mant : Nat) (exp : Int)
    (h : (JSNumber.finite neg mant exp).toRat < 1) :
    spaceCount (.finite neg mant exp) = 0 := by
  have hf : ⌊(JSNumber.finite neg mant exp).toRat⌋ < 1 := by
    rw [Int.floor_lt]; exact_mod_cast h
  have hf' : ⌊(JSNumber.finite neg mant exp).toRat⌋ ≤ 0 := by omega
  simp only [spaceCount]
  rw [max_eq_left hf']
  simp

/-- C12, as amended (space normalisation): for a numeric `space` the gap is
`min(10, max(0, floor(space)))` space characters (ten for `Infinity`, none for
`-Infinity` and `NaN`), hence empty below 1; for a string `space` it is its
first ten characters (UTF-16 code units), the whole string if it is shorter;
for any other `space` it is empty.  When the gap is empty and the user
functions leave the module variables alone (they make no call of `stringify`),
every text `stringify` returns is compact: entries are separated by one comma, a key from its value by one
colon, and nothing is added between them. -/
theorem gapOf_normalised :
    (∀ n, gapOf (.number n) = List.replicate (spaceCount n) 32) ∧
    (∀ neg mant exp, (JSNumber.finite neg mant exp).toRat < 1 →
      gapOf (.number (.finite neg mant exp)) = []) ∧
    (∀ s, gapOf (.string s) = s.take 10 ∧ (s.length ≤ 10 → gapOf (.string s) = s)) ∧
    (∀ v, (∀ n, v ≠ .number n) → (∀ s, v ≠ .string s) → gapOf v = []) ∧
    (∀ env replacer space, (initialModule env replacer space).gap = gapOf space) ∧
    (∀ (env : Env) (fuel : Nat) (value replacer space : Value) (st : State) (t : JSString)
        (st1 : State),
      env.StateFree → gapOf space = [] →
      stringify env fuel value replacer space st = .ok (some t) st1 →
      CompactText (withHolder env value) t) := by
  refine ⟨gapOf_number, ?_, ?_, ?_, ?_, ?_⟩
  · intro neg mant exp h
    rw [gapOf_number, spaceCount_lt_one neg mant exp h]
    rfl
  · intro s
    refine ⟨rfl, fun h => ?_⟩
    show s.take 10 = s
    exact List.take_of_length_le h
  · intro v h1 h2
    cases v with
    | number n => exact absurd rfl (h1 n)
    | string s => exact absurd rfl (h2 s)
    | undefined => rfl
    | null => rfl
    | bool b => rfl
    | ref a => rfl
  · intro env replacer space
    rfl
  · intro env fuel value replacer space st t st1 hfree hgap h
    unfold stringify at h
    exact serializeProperty_compact (withHolder env value)
      (fun f m receiver args => hfree f m receiver args) fuel _ _ _ t st1 hgap h

/-- The compactness claim applied to `stringify({a: 1, b: 2})`. -/
theorem gapOf_normalised_witness :
    exampleEnv.StateFree ∧ gapOf .undefined = [] ∧
    stringify exampleEnv 3 (.ref 0) .undefined .undefined idleState
      = .ok (some (js "\x7ba:1,b:2\x7d")) idleState ∧
    CompactText (withHolder exampleEnv (.ref 0)) (js "\x7ba:1,b:2\x7d") :=
  ⟨exampleEnv_stateFree, rfl, by decide,
    gapOf_normalised.2.2.2.2.2 exampleEnv 3 (.ref 0) .undefined .undefined idleState
      (js "\x7ba:1,b:2\x7d") idleState exampleEnv_stateFree rfl (by decide)⟩

/-! ## The allow-list -/

theorem firstOccurrences_filter (p : JSString → Bool) (l : List JSString) :
    firstOccurrences (l.filter p) = (firstOccurrences l).filter p := by
  induction l with
  | nil => rfl
  | cons x xs ih =>
    by_cases hx : p x = true
    · rw [List.filter_cons_of_pos hx, firstOccurrences, firstOccurrences,
        List.filter_cons_of_pos hx, ih, List.filter_filter, List.filter_filter]
      congr 1
      apply List.filter_congr
      intro y _
      exact Bool.and_comm _ _
    · rw [List.filter_cons_of_neg hx, firstOccurrences, List.filter_cons_of_neg hx, ih,
        List.filter_filter]
      apply List.filter_congr
      intro y _
      by_cases hy : y = x
      · subst hy; simp [hx]
      · simp [hy]

theorem firstOccurrences_mem (l : List JSString) (t : JSString) :
    t ∈ firstOccurrences l ↔ t ∈ l := by
  induction l with
  | nil => simp [firstOccurrences]
  | cons x xs ih =>
    rw [firstOccurrences]
    simp only [List.mem_cons, List.mem_filter, ih, decide_eq_true_eq]
    by_cases h : t = x
    · simp [h]
    · simp [h]

theorem firstOccurrences_nodup (l : List JSString) : (firstOccurrences l).Nodup := by
  induction l with
  | nil => simp [firstOccurrences]
  | cons x xs ih =>
    rw [firstOccurrences, List.nodup_cons]
    refine ⟨?_, ih.filter _⟩
    simp [List.mem_filter]

theorem firstOccurrences_sublist (l : List JSString) : (firstOccurrences l).Sublist l := by
  induction l with
  | nil => simp [firstOccurrences]
  | cons x xs ih =>
    rw [firstOccurrences]
    exact ((List.filter_sublist _).trans ih).cons₂ x

theorem buildPropertyList_eq (env : Env) (items : List Value) :
    ∀ acc : List JSString,
      buildPropertyList env items acc
        = acc ++ firstOccurrences ((allowListItems env items).filter (fun t => decide (t ∉ acc))) := by
  induction items with
  | nil => intro acc; simp [buildPropertyList, allowListItems, firstOccurrences]
  | cons v rest ih =>
    intro acc
    have hstep : ∀ t : JSString,
        (if t ∈ acc then buildPropertyList env rest acc
          else buildPropertyList env rest (acc ++ [t]))
        = acc ++ firstOccurrences
            ((t :: allowListItems env rest).filter (fun t => decide (t ∉ acc))) := by
      intro t
      by_cases ht : t ∈ acc
      · rw [if_pos ht, ih, List.filter_cons_of_neg (by simpa using ht)]
      · rw [if_neg ht, ih, List.filter_cons_of_pos (by simpa using ht), firstOccurrences,
          ← firstOccurrences_filter, List.filter_filter, List.append_assoc]
        congr 2
        simp only [List.singleton_append]
        congr 2
        apply List.filter_congr
        intro y _
        simp only [List.mem_append, List.mem_singleton, not_or, Bool.decide_and,
          decide_not]
        exact Bool.and_comm _ _
    cases v with
    | string s => simpa [buildPropertyList, allowListItems] using hstep s
    | number n => simpa [buildPropertyList, allowListItems] using hstep (numberString env n)
    | undefined => simpa [buildPropertyList, allowListItems] using ih acc
    | null => simpa [buildPropertyList, allowListItems] using ih acc
    | bool b => simpa [buildPropertyList, allowListItems] using ih acc
    | ref a => simpa [buildPropertyList, allowListItems] using ih acc

theorem initialModule_propertyList (env : Env) (replacer space : Value) (a : Nat)
    (items : List Value) (hr : replacer = .ref a) (hk : (env.obj a).kind = .array items) :
    (initialModule env replacer space).propertyList
      = some (firstOccurrences (allowListItems env items)) := by
  subst hr
  have hc : callable? env (.ref a) = none := by simp [callable?, hk]
  simp [initialModule, hc, hk, buildPropertyList_eq]

/-- C11, as amended (allow-list replacer): when the replacer is an array, the
allow-list is the list of its strings and of the texts `String(n)` of its
numbers, its other items left out, without repetitions and in the order of the
first occurrences.  With this allow-list set and user functions that leave the
module variables alone (they make no call of `stringify`), an object at any
depth emits, in allow-list order and each at most once, exactly the names of
the allow-list for which the read of the name on the object, of an own
property or of an inherited one, gives a value that has a text, and its nested
calls see the same allow-list; an array has one entry per
element whatever the allow-list; the root value is serialized whatever the
allow-list.  So with the replacer `['b', 'a', 'b', 7, null]` the array of twice
`{a: 3, b: 4}` gives `[{b:4,a:3},{b:4,a:3}]`. -/
theorem allowList_filters :
    (∀ (env : Env) (replacer space : Value) (a : Nat) (items : List Value),
      replacer = .ref a → (env.obj a).kind = .array items →
      (initialModule env replacer space).propertyList
          = some (firstOccurrences (allowListItems env items)) ∧
        (firstOccurrences (allowListItems env items)).Nodup ∧
        (firstOccurrences (allowListItems env items)).Sublist (allowListItems env items) ∧
        ∀ t, t ∈ firstOccurrences (allowListItems env items) ↔ t ∈ allowListItems env items) ∧
    (∀ (env : Env) (fuel a : Nat) (st : State) (l : List JSString)
        (es : List (JSString × JSString)) (st2 : State),
      env.StateFree → st.mod.propertyList = some l → l.Nodup → a ∉ st.mod.stack →
      memberEntries env (serializeProperty env fuel) (.ref a) l (entered st a) = .ok es st2 →
      serializeObject env fuel a st
          = .ok (layout (js "\x7b") (js "\x7d") st.mod.gap st.mod.indent (es.map Prod.snd))
              { st2 with mod := st.mod } ∧
        (es.map Prod.fst).Sublist l ∧ (es.map Prod.fst).Nodup ∧
        (∀ e ∈ es, ∃ keyText propertyString s s1, s.mod.propertyList = some l ∧
          serializeProperty env fuel e.1 (.ref a) s = .ok (some propertyString) s1 ∧
          serializeKey env e.1 = .ok keyText ∧
          e.2 = memberText st.mod.gap keyText propertyString) ∧
        (∀ k ∈ l, k ∉ es.map Prod.fst →
          ∃ s s1, serializeProperty env fuel k (.ref a) s = .ok none s1)) ∧
    (∀ (env : Env) (fuel a : Nat) (st : State) (rs : List (Option JSString)) (st2 : State),
      elementResults (serializeProperty env fuel) (.ref a) (List.range (arrayLength env a))
          (entered st a) = .ok rs st2 →
      rs.length = arrayLength env a) ∧
    (∀ (env : Env) (fuel : Nat) (value replacer space : Value) (st : State) (a : Nat)
        (items : List Value) (hooked : Value) (st1 : State),
      replacer = .ref a → (env.obj a).kind = .array items →
      applyHook (withHolder env value) [] value
          { mod := initialModule env replacer space, calls := st.calls } = .ok hooked st1 →
      st1.mod.replacerFunc = none →
      stringify env (fuel + 1) value replacer space st
        = serializeValue (withHolder env value) (serializeProperty (withHolder env value) fuel)
            hooked st1) ∧
    (stringify circularEnv 4 (.ref 3) (.ref 2) .undefined idleState).value?
      = some (some (js "[\x7bb:4,a:3\x7d,\x7bb:4,a:3\x7d]")) ∧
    (stringify circularEnv 4 (.ref 0) (.ref 2) .undefined idleState).value?
      = some (some (js "\x7bb:2,a:1\x7d")) := by
  refine ⟨?_, ?_, ?_, ?_, by decide, by decide⟩
  · intro env replacer space a items hr hk
    exact ⟨initialModule_propertyList env replacer space a items hr hk,
      firstOccurrences_nodup _, firstOccurrences_sublist _, firstOccurrences_mem _⟩
  · intro env fuel a st l es st2 hfree hlist hnodup hstack hloop
    have hsp := serializeProperty_frame env hfree fuel
    have hkeys : keysOf env (entered st a).mod a = l := by
      simp [keysOf, entered, hlist]
    have hloop' : memberEntries env (serializeProperty env fuel) (.ref a)
        (keysOf env (entered st a).mod a) (entered st a) = .ok es st2 := by
      rw [hkeys]; exact hloop
    have hmod : st2.mod = (entered st a).mod := memberEntries_frame env _ hsp _ _ _ _ _ hloop
    have hsub := memberEntries_sublist env _ _ _ _ _ _ hloop
    refine ⟨?_, hsub, hnodup.sublist hsub, ?_, (memberEntries_source env _ _ _ _ _ _ hloop).2⟩
    · unfold serializeObject
      rw [serializeObjectWith_of_entries env _ a st hstack es st2 hloop',
        entered_restore st a st2 hmod]
      have hg : st2.mod.gap = st.mod.gap := by rw [hmod]; rfl
      have hi : st2.mod.indent = st.mod.indent ++ st.mod.gap := by rw [hmod]; rfl
      rw [hg, hi, assemble_eq_layout]
    · intro e he
      obtain ⟨keyText, p, s, s1, hs, hcall, hkey, hmem⟩ :=
        memberEntries_calls env _ hsp _ _ _ _ _ hloop e he
      exact ⟨keyText, p, s, s1, by rw [hs]; exact hlist, hcall, hkey, hmem⟩
  · intro env fuel a st rs st2 hloop
    rw [elementResults_length _ _ _ _ _ _ hloop, List.length_range]
  · intro env fuel value replacer space st a items hooked st1 hr hk hhook hnone
    have hrep : applyReplacer (withHolder env value) [] (.ref env.heap.length) hooked st1
        = .ok hooked st1 := by
      unfold applyReplacer
      rw [hnone]
    exact stringify_steps env fuel value replacer space st hooked st1 hooked st1 hhook hrep

/-- The allow-list claim applied to `{a: 3, b: 4}` under the allow-list
`b, a, 7`. -/
theorem allowList_filters_witness :
    circularEnv.StateFree ∧
    (1 ∉ ({ idleState with mod := { idleState.mod with
        propertyList := some [js "b", js "a", js "7"] } } : State).mod.stack) ∧
    (memberEntries circularEnv (serializeProperty circularEnv 2) (.ref 1)
        [js "b", js "a", js "7"]
        (entered { idleState with mod := { idleState.mod with
          propertyList := some [js "b", js "a", js "7"] } } 1)).value?
      = some [(js "b", js "b:4"), (js "a", js "a:3")] ∧
    (serializeObject circularEnv 2 1 { idleState with mod := { idleState.mod with
        propertyList := some [js "b", js "a", js "7"] } }).value?
      = some (js "\x7bb:4,a:3\x7d") := by
  have hfree : circularEnv.StateFree := fun f m receiver args => ⟨num 0, Or.inl rfl⟩
  refine ⟨hfree, by decide, by decide, ?_⟩
  rw [(allowList_filters.2.1 circularEnv 2 1 { idleState with mod := { idleState.mod with
        propertyList := some [js "b", js "a", js "7"] } } [js "b", js "a", js "7"]
      [(js "b", js "b:4"), (js "a", js "a:3")]
      (entered { idleState with mod := { idleState.mod with
          propertyList := some [js "b", js "a", js "7"] } } 1)
      hfree rfl (by decide) (by decide) (by decide)).1]
  decide

/-! ## The empty key, re-entrant calls -/

/-- C19 (`serializeKey` is total) fails on the empty key: `codePointAt(0)` is
`undefined` there and `String.fromCodePoint(undefined)` raises a RangeError,
so `serializeKey('')` raises it, whatever the classifiers, and `stringify` of
the object whose only key is the empty string ends with that error and
returns no text. -/
theorem serializeKey_empty_key_throws :
    (∀ env : Env, serializeKey env [] = .error .invalidCodePoint) ∧
    (circularEnv.obj 10 = { kind := .plain, props := [([], num 1)] }) ∧
    (stringify circularEnv 3 (.ref 10) .undefined .undefined idleState).error?
      = some .invalidCodePoint ∧
    (stringify circularEnv 3 (.ref 10) .undefined .undefined idleState).value? = none := by
  refine ⟨fun env => rfl, by decide, by decide, by decide⟩

/-- C17 as stated fails: in `stringify([o, 1], null, 2)` with `o.toJSON`
returning 0, the text is the array on three indented lines when `toJSON` makes
no nested call, and `[0,1]` when `toJSON` first calls `stringify('x')`: the
nested call has reset the module variables, the gap among them, and the outer
call goes on with the values the nested call left. -/
theorem stringify_nested_call_changes_output :
    (stringify hookEnv 4 (.ref 9) .null (num 2) idleState).value?
      = some (some (js "[\n  0,\n  1,\n]")) ∧
    (stringify reentrantEnv 4 (.ref 9) .null (num 2) idleState).value?
      = some (some (js "[0,1]")) ∧
    (∀ m, afterNestedCall m
      = { stack := [], indent := [], propertyList := none, replacerFunc := none, gap := [] }) ∧
    (invoke hookEnv 0 (.ref 8) [.string (js "0")]
        (entered { idleState with mod := { idleState.mod with gap := js "  " } } 9)).state?.map
      (fun s => s.mod.gap) = some (js "  ") ∧
    (invoke reentrantEnv 0 (.ref 8) [.string (js "0")]
        (entered { idleState with mod := { idleState.mod with gap := js "  " } } 9)).state?.map
      (fun s => (s.mod.gap, s.mod.stack)) = some ([], []) := by
  refine ⟨by decide, by decide, ?_, by decide, by decide⟩
  intro m
  unfold afterNestedCall
  rw [stringify_string]
  rfl

/-! ## Independence of the log of calls and of the previous module variables -/

theorem forget_eq_cases {α : Type} {r r1 : Res α} (h : r.forget = r1.forget) :
    (∃ a s s1, r = .ok a s ∧ r1 = .ok a s1 ∧ s.mod = s1.mod) ∨
    (∃ e s s1, r = .throw e s ∧ r1 = .throw e s1 ∧ s.mod = s1.mod) ∨
    (r = .outOfFuel ∧ r1 = .outOfFuel) := by
  cases r with
  | ok a s =>
    cases r1 with
    | ok a1 s1 =>
      simp only [Res.forget, Res.ok.injEq, State.forget, State.mk.injEq, and_true] at h
      exact Or.inl ⟨a, s, s1, rfl, by rw [h.1], h.2⟩
    | throw e1 s1 => simp [Res.forget] at h
    | outOfFuel => simp [Res.forget] at h
  | throw e s =>
    cases r1 with
    | ok a1 s1 => simp [Res.forget] at h
    | throw e1 s1 =>
      simp only [Res.forget, Res.throw.injEq, State.forget, State.mk.injEq, and_true] at h
      exact Or.inr (Or.inl ⟨e, s, s1, rfl, by rw [h.1], h.2⟩)
    | outOfFuel => simp [Res.forget] at h
  | outOfFuel =>
    cases r1 with
    | ok a1 s1 => simp [Res.forget] at h
    | throw e1 s1 => simp [Res.forget] at h
    | outOfFuel => exact Or.inr (Or.inr ⟨rfl, rfl⟩)

theorem forget_ok {α : Type} (a : α) (s s1 : State) (h : s.mod = s1.mod) :
    (Res.ok a s).forget = (Res.ok a s1).forget := by
  simp [Res.forget, State.forget, h]

theorem forget_throw {α : Type} (e : JSError) (s s1 : State) (h : s.mod = s1.mod) :
    (Res.throw e s : Res α).forget = (Res.throw e s1).forget := by
  simp [Res.forget, State.forget, h]

theorem invoke_blind (env : Env) (f : Nat) (receiver : Value) (args : List Value)
    (st st1 : State) (h : st.mod = st1.mod) :
    (invoke env f receiver args st).forget = (invoke env f receiver args st1).forget := by
  unfold invoke
  rw [h]
  cases env.call f st1.mod receiver args <;> simp [Res.forget, State.forget]

theorem applyHook_blind (env : Env) (key : JSString) (value : Value) (st st1 : State)
    (h : st.mod = st1.mod) :
    (applyHook env key value st).forget = (applyHook env key value st1).forget := by
  unfold applyHook
  split
  · exact forget_ok _ _ _ h
  · split
    · exact invoke_blind env _ _ _ _ _ h
    · split
      · exact invoke_blind env _ _ _ _ _ h
      · split
        · exact invoke_blind env _ _ _ _ _ h
        · exact forget_ok _ _ _ h

theorem applyReplacer_blind (env : Env) (key : JSString) (holder value : Value)
    (st st1 : State) (h : st.mod = st1.mod) :
    (applyReplacer env key holder value st).forget
      = (applyReplacer env key holder value st1).forget := by
  unfold applyReplacer
  rw [h]
  split
  · exact invoke_blind env _ _ _ _ _ h
  · exact forget_ok _ _ _ h

theorem serializeMembers_blind (env : Env)
    (sp : JSString → Value → State → Res (Option JSString)) (hsp : Blind sp)
    (value : Value) (keys : List JSString) :
    ∀ (partials : List JSString) (st st1 : State), st.mod = st1.mod →
      (serializeMembers env sp value keys partials st).forget
        = (serializeMembers env sp value keys partials st1).forget := by
  induction keys with
  | nil => intro partials st st1 h; exact forget_ok _ _ _ h
  | cons key keys ih =>
    intro partials st st1 h
    rw [serializeMembers, serializeMembers]
    rcases forget_eq_cases (hsp key value st st1 h) with
      ⟨r, s, s1, e1, e2, hm⟩ | ⟨e, s, s1, e1, e2, hm⟩ | ⟨e1, e2⟩
    · rw [e1, e2]
      cases r with
      | none => exact ih _ _ _ hm
      | some propertyString =>
        simp only
        cases serializeKey env key with
        | error e => exact forget_throw _ _ _ hm
        | ok keyText =>
          simp only
          rw [hm]
          exact ih _ _ _ hm
    · rw [e1, e2]; exact forget_throw _ _ _ hm
    · rw [e1, e2]

theorem serializeElements_blind
    (sp : JSString → Value → State → Res (Option JSString)) (hsp : Blind sp)
    (value : Value) (indices : List Nat) :
    ∀ (partials : List JSString) (st st1 : State), st.mod = st1.mod →
      (serializeElements sp value indices partials st).forget
        = (serializeElements sp value indices partials st1).forget := by
  induction indices with
  | nil => intro partials st st1 h; exact forget_ok _ _ _ h
  | cons i rest ih =>
    intro partials st st1 h
    rw [serializeElements, serializeElements]
    rcases forget_eq_cases (hsp (decimal i) value st st1 h) with
      ⟨r, s, s1, e1, e2, hm⟩ | ⟨e, s, s1, e1, e2, hm⟩ | ⟨e1, e2⟩
    · rw [e1, e2]; exact ih _ _ _ hm
    · rw [e1, e2]; exact forget_throw _ _ _ hm
    · rw [e1, e2]

theorem serializeObjectWith_blind (env : Env)
    (sp : JSString → Value → State → Res (Option JSString)) (hsp : Blind sp)
    (a : Nat) (st st1 : State) (h : st.mod = st1.mod) :
    (serializeObjectWith env sp a st).forget = (serializeObjectWith env sp a st1).forget := by
  unfold serializeObjectWith
  rw [h]
  split
  · exact forget_throw _ _ _ h
  · simp only
    have hloop := serializeMembers_blind env sp hsp (.ref a) (keysOf env
        { st1.mod with stack := st1.mod.stack ++ [a],
                       indent := st1.mod.indent ++ st1.mod.gap } a) []
      { st with mod := { st1.mod with stack := st1.mod.stack ++ [a],
                                      indent := st1.mod.indent ++ st1.mod.gap } }
      { st1 with mod := { st1.mod with stack := st1.mod.stack ++ [a],
                                       indent := st1.mod.indent ++ st1.mod.gap } } rfl
    rcases forget_eq_cases hloop with
      ⟨r, s, s1, e1, e2, hm⟩ | ⟨e, s, s1, e1, e2, hm⟩ | ⟨e1, e2⟩
    · rw [e1, e2]
      simp only
      rw [hm]
      exact forget_ok _ _ _ rfl
    · rw [e1, e2]; exact forget_throw _ _ _ hm
    · rw [e1, e2]

theorem serializeArrayWith_blind (env : Env)
    (sp : JSString → Value → State → Res (Option JSString)) (hsp : Blind sp)
    (a : Nat) (st st1 : State) (h : st.mod = st1.mod) :
    (serializeArrayWith env sp a st).forget = (serializeArrayWith env sp a st1).forget := by
  unfold serializeArrayWith
  rw [h]
  split
  · exact forget_throw _ _ _ h
  · simp only
    have hloop := serializeElements_blind sp hsp (.ref a) (List.range (arrayLength env a)) []
      { st with mod := { st1.mod with stack := st1.mod.stack ++ [a],
                                      indent := st1.mod.indent ++ st1.mod.gap } }
      { st1 with mod := { st1.mod with stack := st1.mod.stack ++ [a],
                                       indent := st1.mod.indent ++ st1.mod.gap } } rfl
    rcases forget_eq_cases hloop with
      ⟨r, s, s1, e1, e2, hm⟩ | ⟨e, s, s1, e1, e2, hm⟩ | ⟨e1, e2⟩
    · rw [e1, e2]
      simp only
      rw [hm]
      exact forget_ok _ _ _ rfl
    · rw [e1, e2]; exact forget_throw _ _ _ hm
    · rw [e1, e2]

theorem present_forget (r r1 : Res JSString) (h : r.forget = r1.forget) :
    r.present.forget = r1.present.forget := by
  rcases forget_eq_cases h with
    ⟨t, s, s1, e1, e2, hm⟩ | ⟨e, s, s1, e1, e2, hm⟩ | ⟨e1, e2⟩
  · rw [e1, e2]; exact forget_ok _ _ _ hm
  · rw [e1, e2]; exact forget_throw _ _ _ hm
  · rw [e1, e2]

theorem serializeValue_blind (env : Env)
    (sp : JSString → Value → State → Res (Option JSString)) (hsp : Blind sp)
    (value : Value) (st st1 : State) (h : st.mod = st1.mod) :
    (serializeValue env sp value st).forget = (serializeValue env sp value st1).forget := by
  unfold serializeValue
  split
  · exact forget_ok _ _ _ h
  · exact forget_ok _ _ _ h
  · exact forget_ok _ _ _ h
  · exact forget_ok _ _ _ h
  · exact forget_ok _ _ _ h
  · split
    · exact present_forget _ _ (serializeArrayWith_blind env sp hsp _ _ _ h)
    · exact present_forget _ _ (serializeObjectWith_blind env sp hsp _ _ _ h)
    · exact forget_ok _ _ _ h
  · exact forget_ok _ _ _ h

theorem serializeProperty_blind (env : Env) (fuel : Nat) : Blind (serializeProperty env fuel) := by
  induction fuel with
  | zero => intro key holder st st1 _; rfl
  | succ fuel ih =>
    intro key holder st st1 h
    rw [serializeProperty, serializeProperty]
    rcases forget_eq_cases (applyHook_blind env key (member env holder key) st st1 h) with
      ⟨v, s, s1, e1, e2, hm⟩ | ⟨e, s, s1, e1, e2, hm⟩ | ⟨e1, e2⟩
    · rw [e1, e2]
      simp only
      rcases forget_eq_cases (applyReplacer_blind env key holder v s s1 hm) with
        ⟨v2, t, t1, f1, f2, hm2⟩ | ⟨e, t, t1, f1, f2, hm2⟩ | ⟨f1, f2⟩
      · rw [f1, f2]
        exact serializeValue_blind env _ ih v2 t t1 hm2
      · rw [f1, f2]; exact forget_throw _ _ _ hm2
      · rw [f1, f2]
    · rw [e1, e2]; exact forget_throw _ _ _ hm
    · rw [e1, e2]

theorem forget_value {α : Type} (r : Res α) : r.forget.value? = r.value? := by
  cases r <;> rfl

theorem forget_error {α : Type} (r : Res α) : r.forget.error? = r.error? := by
  cases r <;> rfl

/-- C16 (independence of calls): the value `stringify` returns or the error it
ends with, and the module variables it leaves, are the same whatever the
module variables and the log held before the call, the user functions being
functions of their arguments and of the module variables; so a call made after
a call that ended with the circular-structure error and left its array on the
stack, or after a call with another replacer and space, gives the same text as
a first call. -/
theorem stringify_independent :
    (∀ (env : Env) (fuel : Nat) (value replacer space : Value) (st st1 : State),
      (stringify env fuel value replacer space st).forget
          = (stringify env fuel value replacer space st1).forget ∧
        (stringify env fuel value replacer space st).value?
          = (stringify env fuel value replacer space st1).value? ∧
        (stringify env fuel value replacer space st).error?
          = (stringify env fuel value replacer space st1).error?) ∧
    (stringify circularEnv 3 (.ref 4) .undefined .undefined idleState).error?
      = some .circular ∧
    (stringify circularEnv 3 (.ref 4) .undefined .undefined idleState).state?
      = some abortedState ∧
    (stringify circularEnv 4 (.ref 0) .undefined (num 2) abortedState).value?
      = some (some (js "\x7b\n  a: 1,\n  b: 2,\n  c: \x7b\n    a: 3,\n    b: 4,\n  \x7d,\n\x7d")) ∧
    (stringify circularEnv 4 (.ref 0) .undefined (num 2) idleState).value?
      = (stringify circularEnv 4 (.ref 0) .undefined (num 2) abortedState).value? := by
  have hgen : ∀ (env : Env) (fuel : Nat) (value replacer space : Value) (st st1 : State),
      (stringify env fuel value replacer space st).forget
        = (stringify env fuel value replacer space st1).forget := by
    intro env fuel value replacer space st st1
    unfold stringify
    exact serializeProperty_blind (withHolder env value) fuel [] _ _ _ rfl
  refine ⟨?_, by decide, by decide, by decide, ?_⟩
  · intro env fuel value replacer space st st1
    have h := hgen env fuel value replacer space st st1
    refine ⟨h, ?_, ?_⟩
    · rw [← forget_value, h, forget_value]
    · rw [← forget_error, h, forget_error]
  · have h := hgen circularEnv 4 (.ref 0) .undefined (num 2) idleState abortedState
    rw [← forget_value, h, forget_value]

/-! ## The stack and the indent during the traversal -/

theorem memberEntries_every_key (env : Env)
    (sp : JSString → Value → State → Res (Option JSString)) (hsp : FramePreserving sp)
    (value : Value) (keys : List JSString) :
    ∀ (st : State) (es : List (JSString × JSString)) (st1 : State),
      memberEntries env sp value keys st = .ok es st1 →
      ∀ k ∈ keys, ∃ r s s1, s.mod = st.mod ∧ sp k value s = .ok r s1 := by
  induction keys with
  | nil => intro st es st1 _ k hk; simp at hk
  | cons key keys ih =>
    intro st es st1 hr k hk
    rw [memberEntries] at hr
    cases hc : sp key value st with
    | ok r st2 =>
      rw [hc] at hr
      have hm := hsp key value st r st2 hc
      have hrest : ∃ es1 st3, memberEntries env sp value keys st2 = .ok es1 st3 := by
        cases r with
        | none => exact ⟨es, st1, hr⟩
        | some propertyString =>
          simp only at hr
          cases hs : serializeKey env key with
          | error e => rw [hs] at hr; simp at hr
          | ok keyText =>
            rw [hs] at hr
            simp only at hr
            cases hrest : memberEntries env sp value keys st2 with
            | ok rest st3 => exact ⟨rest, st3, rfl⟩
            | throw e st3 => rw [hrest] at hr; simp at hr
            | outOfFuel => rw [hrest] at hr; simp at hr
      obtain ⟨es1, st3, hrest⟩ := hrest
      rcases List.mem_cons.1 hk with rfl | hk
      · exact ⟨r, st, st2, rfl, hc⟩
      · obtain ⟨r1, s, s1, h1, h2⟩ := ih _ _ _ hrest k hk
        exact ⟨r1, s, s1, by rw [h1, hm], h2⟩
    | throw e st2 => rw [hc] at hr; simp at hr
    | outOfFuel => rw [hc] at hr; simp at hr

theorem elementResults_every_index
    (sp : JSString → Value → State → Res (Option JSString)) (hsp : FramePreserving sp)
    (value : Value) (indices : List Nat) :
    ∀ (st : State) (rs : List (Option JSString)) (st1 : State),
      elementResults sp value indices st = .ok rs st1 →
      ∀ i ∈ indices, ∃ r s s1, s.mod = st.mod ∧ sp (decimal i) value s = .ok r s1 := by
  induction indices with
  | nil => intro st rs st1 _ i hi; simp at hi
  | cons j rest ih =>
    intro st rs st1 hr i hi
    rw [elementResults] at hr
    cases hc : sp (decimal j) value st with
    | ok r st2 =>
      rw [hc] at hr
      simp only at hr
      have hm := hsp _ value st r st2 hc
      cases hrest : elementResults sp value rest st2 with
      | ok rs2 st3 =>
        rcases List.mem_cons.1 hi with rfl | hi
        · exact ⟨r, st, st2, rfl, hc⟩
        · obtain ⟨r1, s, s1, h1, h2⟩ := ih _ _ _ hrest i hi
          exact ⟨r1, s, s1, by rw [h1, hm], h2⟩
      | throw e st3 => rw [hrest] at hr; simp at hr
      | outOfFuel => rw [hrest] at hr; simp at hr
    | throw e st2 => rw [hc] at hr; simp at hr
    | outOfFuel => rw [hc] at hr; simp at hr

theorem repeatGap_succ (gap : JSString) (d : Nat) :
    repeatGap gap (d + 1) = repeatGap gap d ++ gap := by
  simp [repeatGap, List.replicate_succ']

theorem entered_invariant (st : State) (a : Nat) (path : List Nat)
    (hstack : st.mod.stack = path) (hindent : st.mod.indent = repeatGap st.mod.gap path.length) :
    (entered st a).mod.stack = path ++ [a] ∧
    (entered st a).mod.indent = repeatGap st.mod.gap (path.length + 1) ∧
    (entered st a).mod.gap = st.mod.gap ∧
    (entered st a).mod.propertyList = st.mod.propertyList ∧
    (entered st a).mod.replacerFunc = st.mod.replacerFunc := by
  refine ⟨by simp [entered, hstack], ?_, rfl, rfl, rfl⟩
  rw [repeatGap_succ, ← hindent]
  rfl

/-- C18 (stack and indent are restored): with user functions that leave the
module variables alone, a call of `serializeObject` or `serializeArray` that
returns leaves the stack and the indent (and the other module variables) as
they were on entry.  `stringify` starts with the empty stack and the empty
indent, and when a container is entered with the stack holding its `d`
ancestors and the indent being the gap repeated `d` times, every call of
`serializeProperty` for one of its keys or indices is made with the stack
holding these ancestors followed by the container itself (`d + 1` containers,
the path from the root) and the indent being the gap repeated `d + 1` times. -/
theorem stack_indent_restored :
    (∀ (env : Env) (fuel a : Nat) (st : State) (t : JSString) (st1 : State),
      env.StateFree →
      (serializeObject env fuel a st = .ok t st1 ∨ serializeArray env fuel a st = .ok t st1) →
      st1.mod.stack = st.mod.stack ∧ st1.mod.indent = st.mod.indent ∧ st1.mod = st.mod) ∧
    (∀ (env : Env) (replacer space : Value),
      (initialModule env replacer space).stack = [] ∧
      (initialModule env replacer space).indent
        = repeatGap (initialModule env replacer space).gap 0) ∧
    (∀ (env : Env) (fuel a : Nat) (st : State) (t : JSString) (st1 : State) (path : List Nat),
      env.StateFree → st.mod.stack = path →
      st.mod.indent = repeatGap st.mod.gap path.length →
      serializeObject env fuel a st = .ok t st1 →
      ∀ k ∈ keysOf env (entered st a).mod a, ∃ r s s1,
        serializeProperty env fuel k (.ref a) s = .ok r s1 ∧
        s.mod.stack = path ++ [a] ∧ s.mod.indent = repeatGap s.mod.gap (path.length + 1) ∧
        s.mod.gap = st.mod.gap) ∧
    (∀ (env : Env) (fuel a : Nat) (st : State) (t : JSString) (st1 : State) (path : List Nat),
      env.StateFree → st.mod.stack = path →
      st.mod.indent = repeatGap st.mod.gap path.length →
      serializeArray env fuel a st = .ok t st1 →
      ∀ i < arrayLength env a, ∃ r s s1,
        serializeProperty env fuel (decimal i) (.ref a) s = .ok r s1 ∧
        s.mod.stack = path ++ [a] ∧ s.mod.indent = repeatGap s.mod.gap (path.length + 1) ∧
        s.mod.gap = st.mod.gap) := by
  refine ⟨?_, ?_, ?_, ?_⟩
  · intro env fuel a st t st1 hfree h
    have hsp := serializeProperty_frame env hfree fuel
    have hm : st1.mod = st.mod := by
      rcases h with h | h
      · exact serializeObjectWith_frame env _ hsp a st t st1 h
      · exact serializeArrayWith_frame env _ hsp a st t st1 h
    exact ⟨by rw [hm], by rw [hm], hm⟩
  · intro env replacer space
    constructor
    · unfold initialModule
      simp only
      split
      · rfl
      · split
        · split <;> rfl
        · rfl
    · unfold initialModule
      simp only
      split
      · rfl
      · split
        · split <;> rfl
        · rfl
  · intro env fuel a st t st1 path hfree hstack hindent h
    have hsp := serializeProperty_frame env hfree fuel
    obtain ⟨_, es, st2, hloop, _⟩ := serializeObjectWith_ok env _ a st t st1 h
    obtain ⟨h1, h2, h3, _, _⟩ := entered_invariant st a path hstack hindent
    intro k hk
    obtain ⟨r, s, s1, hs, hcall⟩ := memberEntries_every_key env _ hsp _ _ _ _ _ hloop k hk
    refine ⟨r, s, s1, hcall, by rw [hs, h1], ?_, by rw [hs, h3]⟩
    rw [hs, h2, h3]
  · intro env fuel a st t st1 path hfree hstack hindent h
    have hsp := serializeProperty_frame env hfree fuel
    obtain ⟨_, rs, st2, hloop, _⟩ := serializeArrayWith_ok env _ a st t st1 h
    obtain ⟨h1, h2, h3, _, _⟩ := entered_invariant st a path hstack hindent
    intro i hi
    obtain ⟨r, s, s1, hs, hcall⟩ :=
      elementResults_every_index _ hsp _ _ _ _ _ hloop i (List.mem_range.2 hi)
    refine ⟨r, s, s1, hcall, by rw [hs, h1], ?_, by rw [hs, h3]⟩
    rw [hs, h2, h3]

theorem circularEnv_stateFree : circularEnv.StateFree :=
  fun _ _ _ _ => ⟨num 0, Or.inl rfl⟩

/-- The claim on the stack and the indent applied to the object `{a: 3, b: 4}`
nested in `{a: 1, b: 2, c: ...}`: it is laid out at depth 1 and the state is
given back unchanged. -/
theorem stack_indent_restored_witness :
    circularEnv.StateFree ∧
    serializeObject circularEnv 2 1 depthOneState
      = .ok (js "\x7b\n    a: 3,\n    b: 4,\n  \x7d") depthOneState ∧
    depthOneState.mod.indent = repeatGap depthOneState.mod.gap [0].length ∧
    (∃ r s s1, serializeProperty circularEnv 2 (js "a") (.ref 1) s = .ok r s1 ∧
      s.mod.stack = [0] ++ [1] ∧ s.mod.indent = repeatGap s.mod.gap ([0].length + 1) ∧
      s.mod.gap = depthOneState.mod.gap) :=
  ⟨circularEnv_stateFree, by decide, by decide,
    stack_indent_restored.2.2.1 circularEnv 2 1 depthOneState
      (js "\x7b\n    a: 3,\n    b: 4,\n  \x7d") depthOneState [0] circularEnv_stateFree rfl
      (by decide) (by decide) (js "a") (by decide)⟩

/-! ## Runs without hooks and without a replacer -/

theorem quiet_stateFree (env : Env) : env.quiet.StateFree :=
  fun _ _ _ _ => ⟨.undefined, Or.inl rfl⟩

theorem applyHook_noHooks (env : Env) (hno : env.NoHooks) (key : JSString) (value : Value)
    (st : State) : applyHook env key value st = .ok value st := by
  by_cases h : value = .null ∨ value = .undefined
  · unfold applyHook
    rw [if_pos h]
  · have h1 : value ≠ .null := fun e => h (Or.inl e)
    have h2 : value ≠ .undefined := fun e => h (Or.inr e)
    rw [applyHook_eq_firstHook env key value st h1 h2, hno value]

theorem serializeProperty_noHooks (env : Env) (hno : env.NoHooks) (fuel : Nat)
    (key : JSString) (holder : Value) (st : State) (hrep : st.mod.replacerFunc = none) :
    serializeProperty env (fuel + 1) key holder st
      = serializeValue env (serializeProperty env fuel) (member env holder key) st := by
  apply serializeProperty_steps env fuel key holder st _ st _ st
  · exact applyHook_noHooks env hno key _ st
  · unfold applyReplacer
    rw [hrep]

theorem serializeMembers_congr_on (env : Env)
    (sp sp1 : JSString → Value → State → Res (Option JSString)) (P : ModuleState → Prop)
    (value : Value) (hframe : FramePreserving sp1) (keys : List JSString)
    (hagree : ∀ k ∈ keys, ∀ s, P s.mod → sp k value s = sp1 k value s) :
    ∀ (partials : List JSString) (st : State), P st.mod →
      serializeMembers env sp value keys partials st
        = serializeMembers env sp1 value keys partials st := by
  induction keys with
  | nil => intro partials st _; simp [serializeMembers]
  | cons key keys ih =>
    intro partials st hP
    have ih' := ih (fun j hj s => hagree j (List.mem_cons_of_mem _ hj) s)
    rw [serializeMembers, serializeMembers, hagree key (List.mem_cons_self _ _) st hP]
    cases hc : sp1 key value st with
    | ok r st1 =>
      have hP1 : P st1.mod := by rw [hframe key value st r st1 hc]; exact hP
      cases r with
      | none => exact ih' _ _ hP1
      | some propertyString =>
        simp only
        cases serializeKey env key with
        | error e => rfl
        | ok keyText => exact ih' _ _ hP1
    | throw e st1 => rfl
    | outOfFuel => rfl

theorem serializeElements_congr_on
    (sp sp1 : JSString → Value → State → Res (Option JSString)) (P : ModuleState → Prop)
    (value : Value) (hframe : FramePreserving sp1) (indices : List Nat)
    (hagree : ∀ i ∈ indices, ∀ s, P s.mod → sp (decimal i) value s = sp1 (decimal i) value s) :
    ∀ (partials : List JSString) (st : State), P st.mod →
      serializeElements sp value indices partials st
        = serializeElements sp1 value indices partials st := by
  induction indices with
  | nil => intro partials st _; simp [serializeElements]
  | cons i rest ih =>
    intro partials st hP
    have ih' := ih (fun j hj s => hagree j (List.mem_cons_of_mem _ hj) s)
    rw [serializeElements, serializeElements, hagree i (List.mem_cons_self _ _) st hP]
    cases hc : sp1 (decimal i) value st with
    | ok r st1 =>
      have hP1 : P st1.mod := by rw [hframe _ value st r st1 hc]; exact hP
      exact ih' _ _ hP1
    | throw e st1 => rfl
    | outOfFuel => rfl

theorem serializeKeyLoop_quiet (env : Env) (key : JSString) (l : List Nat) :
    serializeKeyLoop env.quiet key l = serializeKeyLoop env key l := by
  induction l with
  | nil => rfl
  | cons i rest ih =>
    rw [serializeKeyLoop, serializeKeyLoop, ih]
    rfl

theorem serializeKey_quiet (env : Env) (key : JSString) :
    serializeKey env.quiet key = serializeKey env key := by
  unfold serializeKey
  cases fromCodePoint (codePointAt key 0) with
  | error e => rfl
  | ok firstChar =>
    simp only
    rw [serializeKeyLoop_quiet]
    rfl

theorem serializeMembers_quiet (env : Env)
    (sp : JSString → Value → State → Res (Option JSString)) (value : Value)
    (keys : List JSString) :
    ∀ (partials : List JSString) (st : State),
      serializeMembers env.quiet sp value keys partials st
        = serializeMembers env sp value keys partials st := by
  induction keys with
  | nil => intro partials st; rfl
  | cons key keys ih =>
    intro partials st
    rw [serializeMembers, serializeMembers, serializeKey_quiet]
    cases sp key value st with
    | ok r st1 =>
      cases r with
      | none => exact ih _ _
      | some propertyString =>
        simp only
        cases serializeKey env key with
        | error e => rfl
        | ok keyText => exact ih _ _
    | throw e st1 => rfl
    | outOfFuel => rfl

/-- Without hooks and without a replacer function the user functions are
never called: the run is the run of the environment whose user functions do
nothing. -/
theorem serializeProperty_quiet (env : Env) (hno : env.NoHooks) (fuel : Nat) :
    ∀ (key : JSString) (holder : Value) (st : State), st.mod.replacerFunc = none →
      serializeProperty env fuel key holder st
        = serializeProperty env.quiet fuel key holder st := by
  induction fuel with
  | zero => intro key holder st _; rfl
  | succ fuel ih =>
    intro key holder st hrep
    have hnoq : env.quiet.NoHooks := hno
    rw [serializeProperty_noHooks env hno fuel key holder st hrep,
      serializeProperty_noHooks env.quiet hnoq fuel key holder st hrep]
    have hframe := serializeProperty_frame env.quiet (quiet_stateFree env) fuel
    show serializeValue env (serializeProperty env fuel) (member env holder key) st
      = serializeValue env.quiet (serializeProperty env.quiet fuel) (member env holder key) st
    cases hv : member env holder key with
    | undefined => rfl
    | null => rfl
    | bool b => cases b <;> rfl
    | number n => rfl
    | string s => rfl
    | ref a =>
      unfold serializeValue
      simp only
      show (match (env.obj a).kind with
          | .array _ => (serializeArrayWith env (serializeProperty env fuel) a st).present
          | .plain => (serializeObjectWith env (serializeProperty env fuel) a st).present
          | .function _ => Res.ok none st)
        = (match (env.obj a).kind with
          | .array _ =>
            (serializeArrayWith env.quiet (serializeProperty env.quiet fuel) a st).present
          | .plain =>
            (serializeObjectWith env.quiet (serializeProperty env.quiet fuel) a st).present
          | .function _ => Res.ok none st)
      cases (env.obj a).kind with
      | function f => rfl
      | array elems =>
        simp only
        congr 1
        unfold serializeArrayWith
        split
        · rfl
        · simp only
          have e := serializeElements_congr_on (serializeProperty env fuel)
            (serializeProperty env.quiet fuel) (fun m => m.replacerFunc = none) (.ref a) hframe
            (List.range (arrayLength env a)) (fun i _ s hs => ih _ _ s hs) [] (entered st a) hrep
          simp only [entered] at e
          rw [e]
          rfl
      | plain =>
        simp only
        congr 1
        unfold serializeObjectWith
        split
        · rfl
        · simp only
          have e := serializeMembers_congr_on env (serializeProperty env fuel)
            (serializeProperty env.quiet fuel) (fun m => m.replacerFunc = none) (.ref a) hframe
            (keysOf env (entered st a).mod a) (fun k _ s hs => ih _ _ s hs) [] (entered st a)
            hrep
          simp only [entered] at e
          rw [e, serializeMembers_quiet]
          rfl

/-! ## Where an error of the traversal comes from -/

theorem fromCodePoint_error (cp : Option Nat) (e : JSError)
    (h : fromCodePoint cp = .error e) : e = .invalidCodePoint := by
  unfold fromCodePoint at h
  split at h
  · exact (Except.error.inj h).symm
  · split at h
    · exact (Except.error.inj h).symm
    · split at h <;> exact Except.noConfusion h

theorem serializeKeyLoop_error (env : Env) (key : JSString) (l : List Nat) (e : JSError)
    (h : serializeKeyLoop env key l = .error e) : e = .invalidCodePoint := by
  induction l with
  | nil => exact Except.noConfusion h
  | cons i rest ih =>
    rw [serializeKeyLoop] at h
    cases hc : fromCodePoint (codePointAt key i) with
    | error e1 =>
      rw [hc] at h
      have := fromCodePoint_error _ _ hc
      rw [← Except.error.inj h]; exact this
    | ok c =>
      rw [hc] at h
      simp only at h
      split at h
      · exact Except.noConfusion h
      · exact ih h

theorem serializeKey_error (env : Env) (key : JSString) (e : JSError)
    (h : serializeKey env key = .error e) : e = .invalidCodePoint := by
  unfold serializeKey at h
  cases hc : fromCodePoint (codePointAt key 0) with
  | error e1 =>
    rw [hc] at h
    have := fromCodePoint_error _ _ hc
    rw [← Except.error.inj h]; exact this
  | ok c =>
    rw [hc] at h
    simp only at h
    split at h
    · exact Except.noConfusion h
    · exact serializeKeyLoop_error env key _ e h

theorem serializeMembers_throw (env : Env)
    (sp : JSString → Value → State → Res (Option JSString)) (hsp : FramePreserving sp)
    (value : Value) (keys : List JSString) :
    ∀ (partials : List JSString) (st : State) (e : JSError) (st1 : State),
      serializeMembers env sp value keys partials st = .throw e st1 →
      (∃ k ∈ keys, ∃ s, s.mod = st.mod ∧ sp k value s = .throw e st1) ∨
        e = .invalidCodePoint := by
  induction keys with
  | nil => intro partials st e st1 h; simp [serializeMembers] at h
  | cons key keys ih =>
    intro partials st e st1 h
    rw [serializeMembers] at h
    cases hc : sp key value st with
    | ok r st2 =>
      rw [hc] at h
      have hm := hsp key value st r st2 hc
      have hrest : ∀ ps, serializeMembers env sp value keys ps st2 = .throw e st1 →
          (∃ k ∈ key :: keys, ∃ s, s.mod = st.mod ∧ sp k value s = .throw e st1) ∨
            e = .invalidCodePoint := by
        intro ps hps
        rcases ih ps st2 e st1 hps with ⟨k, hk, s, hs, hcall⟩ | h'
        · exact Or.inl ⟨k, List.mem_cons_of_mem _ hk, s, by rw [hs, hm], hcall⟩
        · exact Or.inr h'
      cases r with
      | none => exact hrest _ h
      | some propertyString =>
        simp only at h
        cases hs : serializeKey env key with
        | error e1 =>
          rw [hs] at h
          simp only [Res.throw.injEq] at h
          right
          rw [← h.1]
          exact serializeKey_error env key e1 hs
        | ok keyText =>
          rw [hs] at h
          exact hrest _ h
    | throw e2 st2 =>
      rw [hc] at h
      simp only [Res.throw.injEq] at h
      exact Or.inl ⟨key, List.mem_cons_self _ _, st, rfl, by rw [hc, h.1, h.2]⟩
    | outOfFuel => rw [hc] at h; simp at h

theorem serializeElements_throw
    (sp : JSString → Value → State → Res (Option JSString)) (hsp : FramePreserving sp)
    (value : Value) (indices : List Nat) :
    ∀ (partials : List JSString) (st : State) (e : JSError) (st1 : State),
      serializeElements sp value indices partials st = .throw e st1 →
      ∃ i ∈ indices, ∃ s, s.mod = st.mod ∧ sp (decimal i) value s = .throw e st1 := by
  induction indices with
  | nil => intro partials st e st1 h; simp [serializeElements] at h
  | cons i rest ih =>
    intro partials st e st1 h
    rw [serializeElements] at h
    cases hc : sp (decimal i) value st with
    | ok r st2 =>
      rw [hc] at h
      have hm := hsp _ value st r st2 hc
      obtain ⟨k, hk, s, hs, hcall⟩ := ih _ st2 e st1 h
      exact ⟨k, List.mem_cons_of_mem _ hk, s, by rw [hs, hm], hcall⟩
    | throw e2 st2 =>
      rw [hc] at h
      simp only [Res.throw.injEq] at h
      exact ⟨i, List.mem_cons_self _ _, st, rfl, by rw [hc, h.1, h.2]⟩
    | outOfFuel => rw [hc] at h; simp at h

theorem present_throw {r : Res JSString} {e : JSError} {st : State}
    (h : r.present = .throw e st) : r = .throw e st := by
  cases r with
  | ok t st1 => simp [Res.present] at h
  | throw e1 st1 => simpa [Res.present] using h
  | outOfFuel => simp [Res.present] at h

theorem childValues_array (env : Env) (a : Nat) (elems : List Value)
    (hk : (env.obj a).kind = .array elems) (i : Nat) (hi : i < arrayLength env a) :
    member env (.ref a) (decimal i) ∈ childValues env a := by
  have hlen : arrayLength env a = elems.length := by simp [arrayLength, hk]
  unfold childValues
  rw [hk]
  simp only [List.mem_map, List.mem_range]
  exact ⟨i, by rw [← hlen]; exact hi, rfl⟩

theorem childValues_plain (env : Env) (a : Nat) (hk : (env.obj a).kind = .plain)
    (k : JSString) (hmem : k ∈ ownKeys (env.obj a)) :
    member env (.ref a) k ∈ childValues env a := by
  unfold childValues
  rw [hk]
  simp only [List.mem_map]
  exact ⟨k, hmem, rfl⟩

theorem throw_origin (env : Env) (hfree : env.StateFree) (hno : env.NoHooks) (fuel : Nat) :
    ∀ (key : JSString) (holder : Value) (st : State) (e : JSError) (st1 : State),
      st.mod.replacerFunc = none → st.mod.propertyList = none →
      serializeProperty env fuel key holder st = .throw e st1 →
      e = .invalidCodePoint ∨
        (e = .circular ∧ ∃ b, member env holder key = .ref b ∧
          ReachesAncestor env st.mod.stack b) := by
  induction fuel with
  | zero => intro key holder st e st1 _ _ h; simp [serializeProperty] at h
  | succ fuel ih =>
    intro key holder st e st1 hrep hlist h
    rw [serializeProperty_noHooks env hno fuel key holder st hrep] at h
    have hsp := serializeProperty_frame env hfree fuel
    cases hv : member env holder key with
    | undefined => rw [hv] at h; simp [serializeValue] at h
    | null => rw [hv] at h; simp [serializeValue] at h
    | bool b => rw [hv] at h; cases b <;> simp [serializeValue] at h
    | number n => rw [hv] at h; simp [serializeValue] at h
    | string s => rw [hv] at h; simp [serializeValue] at h
    | ref a =>
      rw [hv] at h
      unfold serializeValue at h
      simp only at h
      cases hk : (env.obj a).kind with
      | function f => rw [hk] at h; simp at h
      | array elems =>
        rw [hk] at h
        have h2 := present_throw h
        have hcont : isContainerAt env a := Or.inl ⟨elems, hk⟩
        by_cases hs : a ∈ st.mod.stack
        · unfold serializeArrayWith at h2
          rw [if_pos hs] at h2
          simp only [Res.throw.injEq] at h2
          exact Or.inr ⟨h2.1.symm, a, rfl, .onPath _ _ hs hcont⟩
        · unfold serializeArrayWith at h2
          rw [if_neg hs] at h2
          simp only at h2
          cases hl : serializeElements (serializeProperty env fuel) (.ref a)
              (List.range (arrayLength env a)) [] (entered st a) with
          | ok ps s2 => simp only [entered] at hl; rw [hl] at h2; simp at h2
          | outOfFuel => simp only [entered] at hl; rw [hl] at h2; simp at h2
          | throw e2 s2 =>
            have hl' := hl
            simp only [entered] at hl
            rw [hl] at h2
            simp only [Res.throw.injEq] at h2
            obtain ⟨i, hi, s, hsm, hcall⟩ := serializeElements_throw _ hsp _ _ _ _ _ _ hl'
            rw [h2.1] at hcall
            rcases ih _ _ s e s2 (by rw [hsm]; exact hrep) (by rw [hsm]; exact hlist) hcall
              with h3 | ⟨h3, b, hb, hreach⟩
            · exact Or.inl h3
            · refine Or.inr ⟨h3, a, rfl, .deeper _ a b hs hcont ?_ ?_⟩
              · rw [← hb]
                exact childValues_array env a elems hk i (List.mem_range.1 hi)
              · rw [hsm] at hreach
                exact hreach
      | plain =>
        rw [hk] at h
        have h2 := present_throw h
        have hcont : isContainerAt env a := Or.inr hk
        by_cases hs : a ∈ st.mod.stack
        · unfold serializeObjectWith at h2
          rw [if_pos hs] at h2
          simp only [Res.throw.injEq] at h2
          exact Or.inr ⟨h2.1.symm, a, rfl, .onPath _ _ hs hcont⟩
        · unfold serializeObjectWith at h2
          rw [if_neg hs] at h2
          simp only at h2
          have hkeys : keysOf env (entered st a).mod a = ownKeys (env.obj a) := by
            simp [keysOf, entered, hlist]
          cases hl : serializeMembers env (serializeProperty env fuel) (.ref a)
              (keysOf env (entered st a).mod a) [] (entered st a) with
          | ok ps s2 => simp only [entered] at hl; rw [hl] at h2; simp at h2
          | outOfFuel => simp only [entered] at hl; rw [hl] at h2; simp at h2
          | throw e2 s2 =>
            have hl' := hl
            simp only [entered] at hl
            rw [hl] at h2
            simp only [Res.throw.injEq] at h2
            rcases serializeMembers_throw env _ hsp _ _ _ _ _ _ hl' with
              ⟨k, hkm, s, hsm, hcall⟩ | h3
            · rw [h2.1] at hcall
              rcases ih _ _ s e s2 (by rw [hsm]; exact hrep) (by rw [hsm]; exact hlist) hcall
                with h3 | ⟨h3, b, hb, hreach⟩
              · exact Or.inl h3
              · refine Or.inr ⟨h3, a, rfl, .deeper _ a b hs hcont ?_ ?_⟩
                · rw [← hb]
                  rw [hkeys] at hkm
                  exact childValues_plain env a hk k hkm
                · rw [hsm] at hreach
                  exact hreach
            · left
              rw [← h2.1]; exact h3

/-! ## A structure that reaches one of its ancestors yields no text -/

theorem childValues_mem (env : Env) (a b : Nat) (h : Value.ref b ∈ childValues env a) :
    (∃ elems, (env.obj a).kind = .array elems ∧
      ∃ i < arrayLength env a, member env (.ref a) (decimal i) = .ref b) ∨
    ((env.obj a).kind = .plain ∧
      ∃ k ∈ ownKeys (env.obj a), member env (.ref a) k = .ref b) := by
  unfold childValues at h
  cases hk : (env.obj a).kind with
  | function f => rw [hk] at h; simp at h
  | array elems =>
    rw [hk] at h
    simp only [List.mem_map, List.mem_range] at h
    obtain ⟨i, hi, hm⟩ := h
    have hlen : arrayLength env a = elems.length := by simp [arrayLength, hk]
    exact Or.inl ⟨elems, rfl, i, by rw [hlen]; exact hi, hm⟩
  | plain =>
    rw [hk] at h
    simp only [List.mem_map] at h
    obtain ⟨k, hkm, hm⟩ := h
    exact Or.inr ⟨rfl, k, hkm, hm⟩

theorem reaches_never_ok (env : Env) (hfree : env.StateFree) (hno : env.NoHooks)
    (path : List Nat) (b : Nat) (hreach : ReachesAncestor env path b) :
    ∀ (fuel : Nat) (key : JSString) (holder : Value) (st : State) (r : Option JSString)
      (st1 : State),
      st.mod.stack = path → st.mod.replacerFunc = none → st.mod.propertyList = none →
      member env holder key = .ref b →
      serializeProperty env fuel key holder st ≠ .ok r st1 := by
  induction hreach with
  | onPath path a hmem hcont =>
    intro fuel key holder st r st1 hstack hrep hlist hv h
    cases fuel with
    | zero => simp [serializeProperty] at h
    | succ fuel =>
      rw [serializeProperty_noHooks env hno fuel key holder st hrep, hv] at h
      have hs : a ∈ st.mod.stack := by rw [hstack]; exact hmem
      unfold serializeValue at h
      simp only at h
      rcases hcont with ⟨elems, hk⟩ | hk
      · rw [hk] at h
        obtain ⟨t, _, h2⟩ := present_ok h
        exact (serializeArrayWith_ok env _ a st t st1 h2).1 hs
      · rw [hk] at h
        obtain ⟨t, _, h2⟩ := present_ok h
        exact (serializeObjectWith_ok env _ a st t st1 h2).1 hs
  | deeper path a b hnot hcont hchild hreach ih =>
    intro fuel key holder st r st1 hstack hrep hlist hv h
    cases fuel with
    | zero => simp [serializeProperty] at h
    | succ fuel =>
      rw [serializeProperty_noHooks env hno fuel key holder st hrep, hv] at h
      have hsp := serializeProperty_frame env hfree fuel
      unfold serializeValue at h
      simp only at h
      rcases childValues_mem env a b hchild with ⟨elems, hk, i, hi, hm⟩ | ⟨hk, k, hkm, hm⟩
      · rw [hk] at h
        obtain ⟨t, _, h2⟩ := present_ok h
        obtain ⟨_, rs, s2, hloop, _⟩ := serializeArrayWith_ok env _ a st t st1 h2
        obtain ⟨r1, s, s1, hs, hcall⟩ :=
          elementResults_every_index _ hsp _ _ _ _ _ hloop i (List.mem_range.2 hi)
        exact ih fuel (decimal i) (.ref a) s r1 s1 (by rw [hs]; simp [entered, hstack])
          (by rw [hs]; exact hrep) (by rw [hs]; exact hlist) hm hcall
      · rw [hk] at h
        obtain ⟨t, _, h2⟩ := present_ok h
        obtain ⟨_, es, s2, hloop, _⟩ := serializeObjectWith_ok env _ a st t st1 h2
        have hkeys : keysOf env (entered st a).mod a = ownKeys (env.obj a) := by
          simp [keysOf, entered, hlist]
        obtain ⟨r1, s, s1, hs, hcall⟩ :=
          memberEntries_every_key env _ hsp _ _ _ _ _ hloop k (by rw [hkeys]; exact hkm)
        exact ih fuel k (.ref a) s r1 s1 (by rw [hs]; simp [entered, hstack])
          (by rw [hs]; exact hrep) (by rw [hs]; exact hlist) hm hcall

/-! ## The traversal ends within a recursion depth the heap bounds -/

theorem freeSlots_push (env : Env) (stack : List Nat) (a : Nat) (ha : a < env.heap.length)
    (hs : a ∉ stack) : freeSlots env (stack ++ [a]) < freeSlots env stack := by
  unfold freeSlots
  have e : (List.range env.heap.length).filter (fun x => decide (x ∉ stack ++ [a]))
      = ((List.range env.heap.length).filter (fun x => decide (x ∉ stack))).filter
          (fun x => decide (x ≠ a)) := by
    rw [List.filter_filter]
    apply List.filter_congr
    intro x _
    simp only [List.mem_append, List.mem_singleton, not_or, Bool.decide_and]
    exact Bool.and_comm _ _
  rw [e, List.length_filter_lt_length_iff_exists]
  exact ⟨a, List.mem_filter.2 ⟨List.mem_range.2 ha, by simpa using hs⟩, by simp⟩

theorem obj_default (env : Env) (a : Nat) (ha : env.heap.length ≤ a) :
    env.obj a = { kind := .plain, props := [] } := by
  unfold Env.obj
  rw [List.getD_eq_getElem?_getD, List.getElem?_eq_none ha]
  rfl

theorem serializeMembers_terminates (env : Env)
    (sp : JSString → Value → State → Res (Option JSString)) (hsp : FramePreserving sp)
    (value : Value) (keys : List JSString) :
    ∀ (partials : List JSString) (st : State),
      (∀ k ∈ keys, ∀ s, s.mod = st.mod → sp k value s ≠ .outOfFuel) →
      serializeMembers env sp value keys partials st ≠ .outOfFuel := by
  induction keys with
  | nil => intro partials st _; simp [serializeMembers]
  | cons key keys ih =>
    intro partials st h
    rw [serializeMembers]
    cases hc : sp key value st with
    | ok r st2 =>
      have hm := hsp key value st r st2 hc
      have hrest : ∀ ps, serializeMembers env sp value keys ps st2 ≠ .outOfFuel := fun ps =>
        ih ps st2 (fun k hk s hs => h k (List.mem_cons_of_mem _ hk) s (by rw [hs, hm]))
      cases r with
      | none => exact hrest _
      | some propertyString =>
        simp only
        cases serializeKey env key with
        | error e => simp
        | ok keyText => exact hrest _
    | throw e st2 => simp
    | outOfFuel => exact absurd hc (h key (List.mem_cons_self _ _) st rfl)

theorem serializeElements_terminates
    (sp : JSString → Value → State → Res (Option JSString)) (hsp : FramePreserving sp)
    (value : Value) (indices : List Nat) :
    ∀ (partials : List JSString) (st : State),
      (∀ i ∈ indices, ∀ s, s.mod = st.mod → sp (decimal i) value s ≠ .outOfFuel) →
      serializeElements sp value indices partials st ≠ .outOfFuel := by
  induction indices with
  | nil => intro partials st _; simp [serializeElements]
  | cons i rest ih =>
    intro partials st h
    rw [serializeElements]
    cases hc : sp (decimal i) value st with
    | ok r st2 =>
      have hm := hsp _ value st r st2 hc
      exact ih _ st2 (fun k hk s hs => h k (List.mem_cons_of_mem _ hk) s (by rw [hs, hm]))
    | throw e st2 => simp
    | outOfFuel => exact absurd hc (h i (List.mem_cons_self _ _) st rfl)

theorem present_outOfFuel {r : Res JSString} (h : r.present = .outOfFuel) : r = .outOfFuel := by
  cases r with
  | ok t st1 => simp [Res.present] at h
  | throw e1 st1 => simp [Res.present] at h
  | outOfFuel => rfl

theorem serializeProperty_terminates (env : Env) (hfree : env.StateFree) (hno : env.NoHooks)
    (fuel : Nat) :
    ∀ (key : JSString) (holder : Value) (st : State),
      st.mod.replacerFunc = none → st.mod.propertyList = none →
      freeSlots env st.mod.stack + 2 ≤ fuel →
      serializeProperty env fuel key holder st ≠ .outOfFuel := by
  induction fuel with
  | zero => intro key holder st _ _ h; omega
  | succ fuel ih =>
    intro key holder st hrep hlist hfuel h
    rw [serializeProperty_noHooks env hno fuel key holder st hrep] at h
    have hsp := serializeProperty_frame env hfree fuel
    have hchild : ∀ a : Nat, a ∉ st.mod.stack → a < env.heap.length →
        ∀ (k : JSString) (s : State), s.mod = (entered st a).mod →
          serializeProperty env fuel k (.ref a) s ≠ .outOfFuel := by
      intro a hs ha k s hsm
      apply ih k (.ref a) s (by rw [hsm]; exact hrep) (by rw [hsm]; exact hlist)
      have := freeSlots_push env st.mod.stack a ha hs
      have e : s.mod.stack = st.mod.stack ++ [a] := by rw [hsm]; rfl
      rw [e]
      omega
    cases hv : member env holder key with
    | undefined => rw [hv] at h; simp [serializeValue] at h
    | null => rw [hv] at h; simp [serializeValue] at h
    | bool b => rw [hv] at h; cases b <;> simp [serializeValue] at h
    | number n => rw [hv] at h; simp [serializeValue] at h
    | string s => rw [hv] at h; simp [serializeValue] at h
    | ref a =>
      rw [hv] at h
      unfold serializeValue at h
      simp only at h
      cases hk : (env.obj a).kind with
      | function f => rw [hk] at h; simp at h
      | array elems =>
        rw [hk] at h
        have h2 := present_outOfFuel h
        have ha : a < env.heap.length := by
          by_contra hge
          rw [obj_default env a (by omega)] at hk
          exact ObjKind.noConfusion hk
        unfold serializeArrayWith at h2
        by_cases hs : a ∈ st.mod.stack
        · rw [if_pos hs] at h2; simp at h2
        · rw [if_neg hs] at h2
          simp only at h2
          have hl := serializeElements_terminates (serializeProperty env fuel) hsp (.ref a)
            (List.range (arrayLength env a)) [] (entered st a)
            (fun i _ s hsm => hchild a hs ha (decimal i) s hsm)
          simp only [entered] at hl
          cases hl2 : serializeElements (serializeProperty env fuel) (.ref a)
              (List.range (arrayLength env a)) []
              { mod := { st.mod with stack := st.mod.stack ++ [a],
                                     indent := st.mod.indent ++ st.mod.gap },
                calls := st.calls } with
          | ok ps s2 => rw [hl2] at h2; simp at h2
          | throw e s2 => rw [hl2] at h2; simp at h2
          | outOfFuel => exact hl hl2
      | plain =>
        rw [hk] at h
        have h2 := present_outOfFuel h
        unfold serializeObjectWith at h2
        by_cases hs : a ∈ st.mod.stack
        · rw [if_pos hs] at h2; simp at h2
        · rw [if_neg hs] at h2
          simp only at h2
          have hkeys : keysOf env (entered st a).mod a = ownKeys (env.obj a) := by
            simp [keysOf, entered, hlist]
          have hl := serializeMembers_terminates env (serializeProperty env fuel) hsp (.ref a)
            (keysOf env (entered st a).mod a) [] (entered st a)
            (by
              intro k hkm s hsm
              by_cases ha : a < env.heap.length
              · exact hchild a hs ha k s hsm
              · rw [hkeys, obj_default env a (by omega)] at hkm
                simp [ownKeys] at hkm)
          simp only [entered] at hl
          cases hl2 : serializeMembers env (serializeProperty env fuel) (.ref a)
              (keysOf env { st.mod with stack := st.mod.stack ++ [a],
                                         indent := st.mod.indent ++ st.mod.gap } a) []
              { mod := { st.mod with stack := st.mod.stack ++ [a],
                                     indent := st.mod.indent ++ st.mod.gap },
                calls := st.calls } with
          | ok ps s2 => rw [hl2] at h2; simp at h2
          | throw e s2 => rw [hl2] at h2; simp at h2
          | outOfFuel => exact hl hl2

/-! ## The circular-structure error -/

theorem noHooks_of_heap (env : Env)
    (h : ∀ a < env.heap.length, firstHook env (.ref a) = none) : env.NoHooks := by
  intro v
  cases v with
  | undefined => rfl
  | null => rfl
  | bool b => rfl
  | number n => rfl
  | string s => rfl
  | ref a =>
    by_cases ha : a < env.heap.length
    · exact h a ha
    · have hobj := obj_default env a (by omega)
      have hm : ∀ name, member env (.ref a) name = .undefined := by
        intro name
        simp [member, hobj, getProp, lookupProp]
      simp [firstHook, hm, callable?]

theorem quiet_reaches (env : Env) (path : List Nat) (b : Nat)
    (h : ReachesAncestor env path b) : ReachesAncestor env.quiet path b := by
  induction h with
  | onPath path a hmem hcont => exact .onPath path a hmem hcont
  | deeper path a b hnot hcont hchild _ ih => exact .deeper path a b hnot hcont hchild ih

theorem reaches_of_quiet (env : Env) (path : List Nat) (b : Nat)
    (h : ReachesAncestor env.quiet path b) : ReachesAncestor env path b := by
  induction h with
  | onPath path a hmem hcont => exact .onPath path a hmem hcont
  | deeper path a b hnot hcont hchild _ ih => exact .deeper path a b hnot hcont hchild ih

theorem freeSlots_nil (env : Env) : freeSlots env [] = env.heap.length := by
  simp [freeSlots]

/-- C15 (circular structures), without hooks and without a replacer.  A call
of `serializeObject` or `serializeArray` on a container that is on the stack
ends at once with the circular-structure error, the state untouched.  An
error of the traversal is the circular-structure error only if the value
reaches a container that is then one of its own ancestors (the other error is
the RangeError of an empty key).  A value that reaches such a container never
yields a text, and with a recursion depth above the size of the heap
`stringify` ends with an error on it.  So the array that is its own element
and the two objects that hold each other fail with the circular-structure
error and return no text, while the array of twice the same object is
serialized, the object twice. -/
theorem circular_structure_error :
    (∀ (env : Env) (sp : JSString → Value → State → Res (Option JSString)) (a : Nat)
        (st : State),
      a ∈ st.mod.stack →
      serializeObjectWith env sp a st = .throw .circular st ∧
        serializeArrayWith env sp a st = .throw .circular st) ∧
    (∀ (env : Env) (fuel : Nat) (key : JSString) (holder : Value) (st : State) (e : JSError)
        (st1 : State),
      env.NoHooks → st.mod.replacerFunc = none → st.mod.propertyList = none →
      serializeProperty env fuel key holder st = .throw e st1 →
      e = .invalidCodePoint ∨
        (e = .circular ∧ ∃ b, member env holder key = .ref b ∧
          ReachesAncestor env st.mod.stack b)) ∧
    (∀ (env : Env) (fuel : Nat) (key : JSString) (holder : Value) (st : State) (b : Nat),
      env.NoHooks → st.mod.replacerFunc = none → st.mod.propertyList = none →
      member env holder key = .ref b → ReachesAncestor env st.mod.stack b →
      (∀ r st1, serializeProperty env fuel key holder st ≠ .ok r st1) ∧
      (freeSlots env st.mod.stack + 2 ≤ fuel →
        ∃ e st1, serializeProperty env fuel key holder st = .throw e st1 ∧
          (e = .circular ∨ e = .invalidCodePoint))) ∧
    (∀ (env : Env) (fuel b : Nat) (st : State),
      (withHolder env (.ref b)).NoHooks → ReachesAncestor (withHolder env (.ref b)) [] b →
      env.heap.length + 3 ≤ fuel →
      ∃ e st1, stringify env fuel (.ref b) .undefined .undefined st = .throw e st1 ∧
        (e = .circular ∨ e = .invalidCodePoint)) ∧
    ((stringify circularEnv 3 (.ref 4) .undefined .undefined idleState).error?
        = some .circular ∧
      (stringify circularEnv 3 (.ref 4) .undefined .undefined idleState).value? = none) ∧
    ((stringify circularEnv 4 (.ref 5) .undefined .undefined idleState).error?
        = some .circular ∧
      (stringify circularEnv 4 (.ref 5) .undefined .undefined idleState).value? = none) ∧
    (stringify circularEnv 4 (.ref 3) .undefined .undefined idleState).value?
      = some (some (js "[\x7ba:3,b:4\x7d,\x7ba:3,b:4\x7d]")) := by
  have hnever : ∀ (env : Env) (fuel : Nat) (key : JSString) (holder : Value) (st : State)
      (b : Nat), env.NoHooks → st.mod.replacerFunc = none → st.mod.propertyList = none →
      member env holder key = .ref b → ReachesAncestor env st.mod.stack b →
      ∀ r st1, serializeProperty env fuel key holder st ≠ .ok r st1 := by
    intro env fuel key holder st b hno hrep hlist hv hreach r st1
    rw [serializeProperty_quiet env hno fuel key holder st hrep]
    exact reaches_never_ok env.quiet (quiet_stateFree env) hno _ b (quiet_reaches env _ b hreach)
      fuel key holder st r st1 rfl hrep hlist hv
  have horigin : ∀ (env : Env) (fuel : Nat) (key : JSString) (holder : Value) (st : State)
      (e : JSError) (st1 : State),
      env.NoHooks → st.mod.replacerFunc = none → st.mod.propertyList = none →
      serializeProperty env fuel key holder st = .throw e st1 →
      e = .invalidCodePoint ∨
        (e = .circular ∧ ∃ b, member env holder key = .ref b ∧
          ReachesAncestor env st.mod.stack b) := by
    intro env fuel key holder st e st1 hno hrep hlist h
    rw [serializeProperty_quiet env hno fuel key holder st hrep] at h
    rcases throw_origin env.quiet (quiet_stateFree env) hno fuel key holder st e st1 hrep hlist h
      with h1 | ⟨h1, b, hb, hreach⟩
    · exact Or.inl h1
    · exact Or.inr ⟨h1, b, hb, reaches_of_quiet env _ b hreach⟩
  have hfails : ∀ (env : Env) (fuel : Nat) (key : JSString) (holder : Value) (st : State)
      (b : Nat), env.NoHooks → st.mod.replacerFunc = none → st.mod.propertyList = none →
      member env holder key = .ref b → ReachesAncestor env st.mod.stack b →
      freeSlots env st.mod.stack + 2 ≤ fuel →
      ∃ e st1, serializeProperty env fuel key holder st = .throw e st1 ∧
        (e = .circular ∨ e = .invalidCodePoint) := by
    intro env fuel key holder st b hno hrep hlist hv hreach hfuel
    have hterm : serializeProperty env fuel key holder st ≠ .outOfFuel := by
      rw [serializeProperty_quiet env hno fuel key holder st hrep]
      exact serializeProperty_terminates env.quiet (quiet_stateFree env) hno fuel key holder st
        hrep hlist hfuel
    cases hr : serializeProperty env fuel key holder st with
    | ok r st1 => exact absurd hr (hnever env fuel key holder st b hno hrep hlist hv hreach r st1)
    | outOfFuel => exact absurd hr hterm
    | throw e st1 =>
      refine ⟨e, st1, rfl, ?_⟩
      rcases horigin env fuel key holder st e st1 hno hrep hlist hr with h1 | ⟨h1, _⟩
      · exact Or.inr h1
      · exact Or.inl h1
  refine ⟨?_, horigin, ?_, ?_, ⟨by decide, by decide⟩, ⟨by decide, by decide⟩, by decide⟩
  · intro env sp a st hs
    constructor
    · unfold serializeObjectWith; rw [if_pos hs]
    · unfold serializeArrayWith; rw [if_pos hs]
  · intro env fuel key holder st b hno hrep hlist hv hreach
    exact ⟨hnever env fuel key holder st b hno hrep hlist hv hreach,
      hfails env fuel key holder st b hno hrep hlist hv hreach⟩
  · intro env fuel b st hno hreach hfuel
    unfold stringify
    apply hfails (withHolder env (.ref b)) fuel [] (.ref env.heap.length) _ b hno
    · simp [initialModule, callable?]
    · simp [initialModule, callable?]
    · exact withHolder_member env (.ref b)
    · have : (initialModule env .undefined .undefined).stack = [] := by
        simp [initialModule, callable?]
      rw [this]
      exact hreach
    · have : (initialModule env .undefined .undefined).stack = [] := by
        simp [initialModule, callable?]
      rw [this, freeSlots_nil]
      simp only [withHolder, List.length_append, List.length_singleton]
      omega

theorem selfArray_noHooks : (withHolder circularEnv (.ref 4)).NoHooks := by
  apply noHooks_of_heap
  have h : ∀ a < 14, firstHook (withHolder circularEnv (.ref 4)) (.ref a) = none := by decide
  exact h

theorem selfArray_reaches : ReachesAncestor (withHolder circularEnv (.ref 4)) [] 4 :=
  .deeper [] 4 4 (by decide) (Or.inl ⟨[.ref 4], by decide⟩) (by decide)
    (.onPath [4] 4 (by decide) (Or.inl ⟨[.ref 4], by decide⟩))

/-- The claim on circular structures applied to the array that is its own
element. -/
theorem circular_structure_error_witness :
    (withHolder circularEnv (.ref 4)).NoHooks ∧
    ReachesAncestor (withHolder circularEnv (.ref 4)) [] 4 ∧
    circularEnv.heap.length + 3 ≤ 16 ∧
    ∃ e st1, stringify circularEnv 16 (.ref 4) .undefined .undefined idleState = .throw e st1 ∧
      (e = .circular ∨ e = .invalidCodePoint) :=
  ⟨selfArray_noHooks, selfArray_reaches, by decide,
    circular_structure_error.2.2.2.1 circularEnv 16 4 idleState selfArray_noHooks
      selfArray_reaches (by decide)⟩

/-! ## Decoding the output of `quoteString` -/

theorem decodeBody_raw (q fuel u : Nat) (rest : JSString) (hq : u ≠ q) (hb : u ≠ BACKSLASH)
    (h32 : 32 ≤ u) :
    decodeBody q (fuel + 1) (u :: rest) = (decodeBody q fuel rest).map (fun t => u :: t) := by
  have h13 : u ≠ 13 := by omega
  have h10 : u ≠ 10 := by omega
  rw [decodeBody.eq_def]
  simp [hq, hb, h13, h10]

theorem decodeBody_quote (q fuel : Nat) (rest : JSString)
    (hq : q = APOSTROPHE ∨ q = DQUOTE ∨ q = BACKTICK) :
    decodeBody q (fuel + 1) (BACKSLASH :: q :: rest)
      = (decodeBody q fuel rest).map (fun t => q :: t) := by
  rcases hq with rfl | rfl | rfl <;>
    · rw [decodeBody.eq_def]
      simp [BACKSLASH, APOSTROPHE, DQUOTE, BACKTICK]

theorem decodeBody_close (q fuel : Nat) : decodeBody q (fuel + 1) [q] = some [] := by
  rw [decodeBody.eq_def]
  simp

theorem decodeBody_escape_low (q fuel : Nat) (rest : JSString) (hq : q ≠ BACKSLASH) :
    ∀ u < 32, decodeBody q (fuel + 1) (mandatoryEscape u ++ rest)
      = (decodeBody q fuel rest).map (fun t => u :: t) := by
  intro u hu
  have hq' : ¬ (92 = q) := fun e => hq (by rw [← e]; rfl)
  interval_cases u <;>
    · simp only [mandatoryEscape, namedEscape?, hexDigit, BACKSLASH]
      rw [decodeBody.eq_def]
      simp [hq', BACKSLASH, hexValue?, hexDigitValue?]

theorem decodeBody_escape (q fuel : Nat) (rest : JSString) (hq : q ≠ BACKSLASH) (u : Nat)
    (hu : needsEscape u = true) :
    decodeBody q (fuel + 1) (mandatoryEscape u ++ rest)
      = (decodeBody q fuel rest).map (fun t => u :: t) := by
  by_cases h0 : u < 32
  · exact decodeBody_escape_low q fuel rest hq u h0
  · have hq' : ¬ (92 = q) := fun e => hq (by rw [← e]; rfl)
    simp only [needsEscape, h0, decide_False, Bool.false_or, Bool.or_eq_true, beq_iff_eq] at hu
    rcases hu with rfl | rfl
    · simp only [mandatoryEscape, namedEscape?, BACKSLASH]
      rw [decodeBody.eq_def]
      simp [hq', BACKSLASH, hexValue?, hexDigitValue?]
    · simp only [mandatoryEscape, namedEscape?, BACKSLASH]
      rw [decodeBody.eq_def]
      simp [hq', BACKSLASH, hexValue?, hexDigitValue?]

theorem renderChar_length_pos (q : Nat) (c : JSString) (hc : c ≠ []) :
    0 < (renderChar q c).length := by
  unfold renderChar
  split
  · simp
  · unfold escapeProcessed
    split
    · split
      · unfold mandatoryEscape
        split
        · simp
        · split
          · simp
          · split <;> simp
      · simp
    · exact List.length_pos.2 hc

theorem decodeBody_chunk (q : Nat) (hq : q = APOSTROPHE ∨ q = DQUOTE ∨ q = BACKTICK)
    (c : JSString)
    (hc : (∃ u, c = [u]) ∨ ∃ u v, c = [u, v] ∧ isHighSurrogate u = true ∧ isLowSurrogate v = true)
    (hb : BACKSLASH ∉ c) (rest t : JSString) (fuel : Nat)
    (hrest : ∀ f, rest.length ≤ f → decodeBody q f rest = some t)
    (hfuel : (renderChar q c ++ rest).length ≤ fuel) :
    decodeBody q fuel (renderChar q c ++ rest) = some (c ++ t) := by
  have hq92 : q ≠ BACKSLASH := by rcases hq with rfl | rfl | rfl <;> decide
  have hq32 : 32 ≤ q ∧ q < 128 := by rcases hq with rfl | rfl | rfl <;> decide
  rcases hc with ⟨u, rfl⟩ | ⟨u, v, rfl, hu, hv⟩
  · have hu92 : u ≠ BACKSLASH := fun e => hb (by rw [e]; exact List.mem_singleton_self _)
    by_cases e : u = q
    · subst e
      have hr : renderChar u [u] = [BACKSLASH, u] := by simp [renderChar]
      rw [hr] at hfuel ⊢
      simp only [List.cons_append, List.nil_append, List.length_cons] at hfuel ⊢
      obtain ⟨f, rfl⟩ : ∃ f, fuel = f + 1 := ⟨fuel - 1, by omega⟩
      rw [decodeBody_quote u f rest hq, hrest f (by omega)]
      rfl
    · have e' : ([u] : JSString) ≠ [q] := by simpa using e
      have hr : renderChar q [u] = escapeProcessed [u] := by rw [renderChar, if_neg e']
      rw [hr] at hfuel ⊢
      cases hn : needsEscape u with
      | true =>
        have he : escapeProcessed [u] = mandatoryEscape u := by simp [escapeProcessed, hn]
        rw [he] at hfuel ⊢
        have hpos : 0 < (mandatoryEscape u).length := by
          have := renderChar_length_pos q [u] (by simp)
          rw [hr, he] at this
          exact this
        rw [List.length_append] at hfuel
        obtain ⟨f, rfl⟩ : ∃ f, fuel = f + 1 := ⟨fuel - 1, by omega⟩
        rw [decodeBody_escape q f rest hq92 u hn, hrest f (by omega)]
        rfl
      | false =>
        have he : escapeProcessed [u] = [u] := by simp [escapeProcessed, hn]
        rw [he] at hfuel ⊢
        simp only [List.cons_append, List.nil_append, List.length_cons] at hfuel ⊢
        have h32 : 32 ≤ u := by
          simp only [needsEscape, Bool.or_eq_false_iff, decide_eq_false_iff_not] at hn
          omega
        obtain ⟨f, rfl⟩ : ∃ f, fuel = f + 1 := ⟨fuel - 1, by omega⟩
        rw [decodeBody_raw q f u rest e hu92 h32, hrest f (by omega)]
        rfl
  · simp only [isHighSurrogate, isLowSurrogate, Bool.and_eq_true, decide_eq_true_eq] at hu hv
    have e' : ([u, v] : JSString) ≠ [q] := by simp
    have hr : renderChar q [u, v] = [u, v] := by rw [renderChar, if_neg e']; rfl
    rw [hr] at hfuel ⊢
    simp only [List.cons_append, List.nil_append, List.length_cons] at hfuel ⊢
    obtain ⟨f, rfl⟩ : ∃ f, fuel = f + 2 := ⟨fuel - 2, by omega⟩
    have hb92 : BACKSLASH = 92 := rfl
    rw [decodeBody_raw q (f + 1) u (v :: rest) (by omega) (by rw [hb92]; omega) (by omega),
      decodeBody_raw q f v rest (by omega) (by rw [hb92]; omega) (by omega),
      hrest f (by omega)]
    rfl

theorem decodeBody_chunks (q : Nat) (hq : q = APOSTROPHE ∨ q = DQUOTE ∨ q = BACKTICK)
    (chunks : List JSString)
    (hshape : ∀ c ∈ chunks, (∃ u, c = [u]) ∨
      ∃ u v, c = [u, v] ∧ isHighSurrogate u = true ∧ isLowSurrogate v = true)
    (hb : ∀ c ∈ chunks, BACKSLASH ∉ c) :
    ∀ fuel, ((chunks.map (renderChar q)).flatten ++ [q]).length ≤ fuel →
      decodeBody q fuel ((chunks.map (renderChar q)).flatten ++ [q]) = some chunks.flatten := by
  induction chunks with
  | nil =>
    intro fuel hfuel
    simp only [List.map_nil, List.flatten_nil, List.nil_append, List.length_singleton] at hfuel ⊢
    obtain ⟨f, rfl⟩ : ∃ f, fuel = f + 1 := ⟨fuel - 1, by omega⟩
    exact decodeBody_close q f
  | cons c cs ih =>
    intro fuel hfuel
    have ih' := ih (fun c' hc' => hshape c' (List.mem_cons_of_mem _ hc'))
      (fun c' hc' => hb c' (List.mem_cons_of_mem _ hc'))
    simp only [List.map_cons, List.flatten_cons, List.append_assoc] at hfuel ⊢
    exact decodeBody_chunk q hq c (hshape c (List.mem_cons_self _ _))
      (hb c (List.mem_cons_self _ _)) _ _ fuel ih' hfuel

/-- C20 (backslash-free string round trip): for a string `s` without a
backslash and for both `isKey` settings, decoding `quoteString(s, isKey)` by
the string rules of the specification (the delimiters stripped, the named
escapes, `\x` with two hexadecimal digits, `\u` with four, a backslash before
any other character giving that character) gives back `s`. -/
theorem quoteString_round_trip (s : JSString) (isKey : Bool) (h : BACKSLASH ∉ s) :
    parseString (quoteString s isKey) = some s := by
  obtain ⟨q, hmem, heq, _⟩ := quoteString_chosen s isKey
  have hq := mem_candidates_all isKey q hmem
  rw [escapeChosen_text q hq s] at heq
  rw [heq]
  simp only [List.singleton_append, List.cons_append]
  unfold parseString
  simp only
  rw [if_pos hq]
  have hb : ∀ c ∈ stringIterator s, BACKSLASH ∉ c := by
    intro c hc hin
    apply h
    rw [← stringIterator_flatten s]
    exact List.mem_flatten.2 ⟨c, hc, hin⟩
  have := decodeBody_chunks q hq (stringIterator s) (stringIterator_shape s) hb
    ((((stringIterator s).map (renderChar q)).flatten ++ [q]).length + 1) (by omega)
  simp only [List.nil_append]
  rw [this, stringIterator_flatten]

/-- The round trip of the string `it's "x"` followed by a line feed, as a
value and as a key. -/
theorem quoteString_round_trip_witness :
    BACKSLASH ∉ js "it\x27s \"x\"\n" ∧
    quoteString (js "it\x27s \"x\"\n") false = js "`it\x27s \"x\"\\n`" ∧
    parseString (quoteString (js "it\x27s \"x\"\n") false) = some (js "it\x27s \"x\"\n") ∧
    parseString (quoteString (js "it\x27s \"x\"\n") true) = some (js "it\x27s \"x\"\n") :=
  ⟨by decide, by decide, quoteString_round_trip _ false (by decide),
    quoteString_round_trip _ true (by decide)⟩
/-! ## Callbacks that call `stringify`, inherited properties -/

theorem stringify_string_of (env : Env) (fuel : Nat) (s : JSString) (replacer space : Value)
    (st : State) (hr : (initialModule env replacer space).replacerFunc = none) :
    stringify env (fuel + 1) (.string s) replacer space st
      = .ok (some (quoteString s false))
          { mod := initialModule env replacer space, calls := st.calls } := by
  unfold stringify
  rw [serializeProperty, withHolder_member]
  have hm : ∀ name, member (withHolder env (.string s)) (.string s) name = .undefined := by
    intro name; rfl
  have hc : callable? (withHolder env (.string s)) .undefined = none := rfl
  simp [applyHook, hm, hc, applyReplacer, hr, serializeValue]

theorem afterNestedCallWith_eq (space : Value) (m : ModuleState) :
    afterNestedCallWith space m = initialModule circularEnv .null space := by
  unfold afterNestedCallWith
  rw [stringify_string_of circularEnv 0 (js "x") .null space _ (by simp [initialModule, callable?])]

theorem restoring_eq (env : Env) (h : env.StateFree) : env.restoring = env := by
  have hcall : env.restoring.call = env.call := by
    funext f m receiver args
    obtain ⟨v, hv | hv⟩ := h f m receiver args
    · simp [Env.restoring, hv]
    · simp [Env.restoring, hv]
  cases env
  simp only [Env.restoring] at hcall ⊢
  rw [hcall]

theorem withHolder_stateFree (env : Env) (value : Value) (h : env.StateFree) :
    (withHolder env value).StateFree :=
  fun f m receiver args => h f m receiver args

theorem initialModule_stack_indent (env : Env) (replacer space : Value) :
    (initialModule env replacer space).stack = [] ∧
    (initialModule env replacer space).indent = [] := by
  constructor
  · unfold initialModule
    simp only
    split
    · rfl
    · split
      · split <;> rfl
      · rfl
  · unfold initialModule
    simp only
    split
    · rfl
    · split
      · split <;> rfl
      · rfl

/-- C6 as stated fails when a hook calls `stringify`: in
`stringify({a: 1, k: o}, null, 2)` with `o.toJSON` calling `stringify('x')`
and returning 0, the object is entered with a gap of two spaces and an empty
indent and its members are `a: 1` and `k:0`, the second without a space; the
text returned is these members joined by a comma between the braces, not their
indented layout, the nested call having emptied the gap before the text is
assembled.  So the layout does not hold for every environment.  With the hook
returning 0 without the nested call the text is the indented one. -/
theorem serializeObject_nested_call_counterexample :
    twoSpaceState.mod.gap = js "  " ∧ twoSpaceState.mod.indent = [] ∧
    (memberEntries (nestingEnv .undefined) (serializeProperty (nestingEnv .undefined) 2) (.ref 0)
        (keysOf (nestingEnv .undefined) (entered twoSpaceState 0).mod 0)
        (entered twoSpaceState 0)).value?
      = some [(js "a", js "a: 1"), (js "k", js "k:0")] ∧
    (serializeObject (nestingEnv .undefined) 2 0 twoSpaceState).value?
      = some (js "\x7ba: 1,k:0\x7d") ∧
    layout (js "\x7b") (js "\x7d") (js "  ") [] [js "a: 1", js "k:0"]
      = js "\x7b\n  a: 1,\n  k:0,\n\x7d" ∧
    (stringify (nestingEnv .undefined) 4 (.ref 0) .null (num 2) idleState).value?
      = some (some (js "\x7ba: 1,k:0\x7d")) ∧
    (stringify (nestingEnv .undefined).restoring 4 (.ref 0) .null (num 2) idleState).value?
      = some (some (js "\x7b\n  a: 1,\n  k: 0,\n\x7d")) ∧
    ¬ (∀ (env : Env) (fuel a : Nat) (st : State) (es : List (JSString × JSString))
        (st2 : State),
      a ∉ st.mod.stack →
      memberEntries env (serializeProperty env fuel) (.ref a)
          (keysOf env (entered st a).mod a) (entered st a) = .ok es st2 →
      (serializeObject env fuel a st).value?
        = some (layout (js "\x7b") (js "\x7d") st.mod.gap st.mod.indent (es.map Prod.snd))) := by
  refine ⟨by decide, by decide, by decide, by decide, by decide, by decide, by decide, ?_⟩
  intro h
  have h1 := h (nestingEnv .undefined) 2 0 twoSpaceState
    [(js "a", js "a: 1"), (js "k", js "k:0")]
    { mod := { stack := [], indent := [], propertyList := none, replacerFunc := none,
               gap := [] },
      calls := [⟨0, .ref 1, [.string (js "k")]⟩] }
    (by decide) (by decide)
  revert h1
  decide

/-- C7 as stated fails, in its layout part, when a hook calls `stringify`:
in `stringify([o, 1], null, 2)` with `o.toJSON` calling
`stringify('x', null, 2)` and returning 0, the array is entered with a gap of
two spaces and an empty indent and its two entries are `0` and `1`; the text
returned has each entry on its own line but without indent, the nested call
having emptied the indent: it is neither the compact nor the indented layout
of the entries.  So the layout does not hold for every environment.  With the
hook returning 0 without the nested call the text is the indented one. -/
theorem serializeArray_nested_call_counterexample :
    twoSpaceState.mod.gap = js "  " ∧ twoSpaceState.mod.indent = [] ∧
    (elementResults (serializeProperty (nestingEnv (num 2)) 2) (.ref 3)
        (List.range (arrayLength (nestingEnv (num 2)) 3)) (entered twoSpaceState 3)).value?
      = some [some (js "0"), some (js "1")] ∧
    (serializeArray (nestingEnv (num 2)) 2 3 twoSpaceState).value?
      = some (js "[\n0,\n1,\n]") ∧
    layout (js "[") (js "]") (js "  ") [] [js "0", js "1"] = js "[\n  0,\n  1,\n]" ∧
    layout (js "[") (js "]") [] [] [js "0", js "1"] = js "[0,1]" ∧
    (stringify (nestingEnv (num 2)) 4 (.ref 3) .null (num 2) idleState).value?
      = some (some (js "[\n0,\n1,\n]")) ∧
    (stringify (nestingEnv (num 2)).restoring 4 (.ref 3) .null (num 2) idleState).value?
      = some (some (js "[\n  0,\n  1,\n]")) ∧
    ¬ (∀ (env : Env) (fuel a : Nat) (st : State) (rs : List (Option JSString)) (st2 : State),
      a ∉ st.mod.stack →
      elementResults (serializeProperty env fuel) (.ref a) (List.range (arrayLength env a))
          (entered st a) = .ok rs st2 →
      (serializeArray env fuel a st).value?
        = some (layout (js "[") (js "]") st.mod.gap st.mod.indent
            (rs.map (fun r => r.getD (js "null"))))) := by
  refine ⟨by decide, by decide, by decide, by decide, by decide, by decide, by decide,
    by decide, ?_⟩
  intro h
  have h1 := h (nestingEnv (num 2)) 2 3 twoSpaceState [some (js "0"), some (js "1")]
    { mod := { stack := [], indent := [], propertyList := none, replacerFunc := none,
               gap := js "  " },
      calls := [⟨0, .ref 1, [.string (js "0")]⟩] }
    (by decide) (by decide)
  revert h1
  decide

/-- C12 as stated fails, in its compact part, when a hook calls `stringify`:
in `stringify([o, 1])`, without a `space`, with `o.toJSON`
calling `stringify('x', null, 2)` and returning 0, the gap is empty when the
traversal starts and the text returned has a line break before each entry and
before the closing bracket, the nested call having set the gap.  With the hook
returning 0 without the nested call the text is `[0,1]`. -/
theorem stringify_compact_counterexample :
    gapOf .undefined = [] ∧
    (initialModule (nestingEnv (num 2)) .undefined .undefined).gap = [] ∧
    (stringify (nestingEnv (num 2)) 4 (.ref 3) .undefined .undefined idleState).value?
      = some (some (js "[\n0,\n1,\n]")) ∧
    (10 : Nat) ∈ js "[\n0,\n1,\n]" ∧
    js "[\n0,\n1,\n]" ≠ js "[0,1]" ∧
    (stringify (nestingEnv (num 2)).restoring 4 (.ref 3) .undefined .undefined idleState).value?
      = some (some (js "[0,1]")) := by
  refine ⟨by decide, by decide, by decide, by decide, by decide, by decide⟩

/-- C11 as stated fails on two kinds of input.  A name of the
allow-list that an object does not own but inherits is emitted: the object
`{a: 1, b: 2}` under the allow-list `['__proto__']` gives its prototype,
itself read through the allow-list, and the object made from the prototype
`{x: 1}` with the own property `a: 5` gives `x` and `a` under the allow-list
`['x', 'a']`, while without an allow-list they give their own members only.
And after a hook that calls `stringify` the allow-list is gone: under the
allow-list `['k', 'c']` the object `{k: o, c: {a: 3, b: 4}}`, with `o.toJSON`
calling `stringify('x')` and returning 0, emits the members `a` and `b` of
`c`, which are not in the allow-list. -/
theorem allowList_counterexample :
    ownKeys ((nestingEnv .undefined).obj 8) = [js "a", js "b"] ∧
    (initialModule (nestingEnv .undefined) (.ref 9) .undefined).propertyList
      = some [js "__proto__"] ∧
    (stringify (nestingEnv .undefined) 5 (.ref 8) (.ref 9) .undefined idleState).value?
      = some (some (js "\x7b__proto__:\x7b__proto__:null\x7d\x7d")) ∧
    (stringify (nestingEnv .undefined) 5 (.ref 8) .undefined .undefined idleState).value?
      = some (some (js "\x7ba:1,b:2\x7d")) ∧
    ownKeys ((nestingEnv .undefined).obj 11) = [js "a"] ∧
    (stringify (nestingEnv .undefined) 5 (.ref 11) (.ref 12) .undefined idleState).value?
      = some (some (js "\x7bx:1,a:5\x7d")) ∧
    (stringify (nestingEnv .undefined) 5 (.ref 11) .undefined .undefined idleState).value?
      = some (some (js "\x7ba:5\x7d")) ∧
    (initialModule (nestingEnv .undefined) (.ref 6) .undefined).propertyList
      = some [js "k", js "c"] ∧
    (stringify (nestingEnv .undefined) 5 (.ref 4) (.ref 6) .undefined idleState).value?
      = some (some (js "\x7bk:0,c:\x7ba:3,b:4\x7d\x7d")) ∧
    (stringify (nestingEnv .undefined).restoring 5 (.ref 4) (.ref 6) .undefined idleState).value?
      = some (some (js "\x7bk:0,c:\x7b\x7d\x7d")) := by
  refine ⟨by decide, by decide, by decide, by decide, by decide, by decide, by decide,
    by decide, by decide, by decide⟩

/-- C17, as amended (reentrancy): the traversal state is held in the
module variables, which every call of `stringify` overwrites and none saves.
With user functions that leave the module variables as they found them, a
call of `stringify` that returns leaves the variables as its own arguments set
them, the stack and the indent empty and the gap that of its `space`, whatever
they held before; a call of a user function leaves them as they were; and the
result of `stringify` is that of the run in which the user functions return the
same values and make no call of `stringify`.  A user function that calls
`stringify('x', null, space)` leaves the variables that call has set, whatever
the outer call held in them. -/
theorem stringify_overwrites_module_variables :
    (∀ (env : Env) (fuel : Nat) (value replacer space : Value) (st : State)
        (r : Option JSString) (st1 : State),
      env.StateFree → stringify env fuel value replacer space st = .ok r st1 →
      st1.mod = initialModule env replacer space ∧ st1.mod.stack = [] ∧
        st1.mod.indent = [] ∧ st1.mod.gap = gapOf space) ∧
    (∀ (env : Env) (f : Nat) (receiver : Value) (args : List Value) (st : State) (x : Value)
        (st1 : State),
      env.StateFree → invoke env f receiver args st = .ok x st1 → st1.mod = st.mod) ∧
    (∀ (env : Env) (fuel : Nat) (value replacer space : Value) (st : State),
      env.StateFree →
      stringify env fuel value replacer space st
        = stringify env.restoring fuel value replacer space st) ∧
    (∀ (space : Value) (m : ModuleState),
      afterNestedCallWith space m = initialModule circularEnv .null space ∧
      (afterNestedCallWith space m).stack = [] ∧ (afterNestedCallWith space m).indent = [] ∧
      (afterNestedCallWith space m).propertyList = none ∧
      (afterNestedCallWith space m).replacerFunc = none ∧
      (afterNestedCallWith space m).gap = gapOf space) := by
  refine ⟨?_, ?_, ?_, ?_⟩
  · intro env fuel value replacer space st r st1 hfree h
    unfold stringify at h
    have hm := serializeProperty_frame (withHolder env value)
      (withHolder_stateFree env value hfree) fuel _ _ _ _ _ h
    simp only at hm
    refine ⟨hm, ?_, ?_, ?_⟩
    · rw [hm]; exact (initialModule_stack_indent env replacer space).1
    · rw [hm]; exact (initialModule_stack_indent env replacer space).2
    · rw [hm]; rfl
  · intro env f receiver args st x st1 hfree h
    unfold invoke at h
    obtain ⟨v, hv | hv⟩ := hfree f st.mod receiver args
    · rw [hv] at h
      simp only [Res.ok.injEq] at h
      rw [← h.2]
    · rw [hv] at h
      exact Res.noConfusion h
  · intro env fuel value replacer space st hfree
    rw [restoring_eq env hfree]
  · intro space m
    rw [afterNestedCallWith_eq]
    exact ⟨rfl, rfl, rfl, rfl, rfl, rfl⟩

/-- The amended reentrancy claim applied to `stringify({a: 1, b: 2}, null, 2)`
made after a call that has left an array on the stack. -/
theorem stringify_overwrites_module_variables_witness :
    exampleEnv.StateFree ∧
    stringify exampleEnv 3 (.ref 0) .null (num 2) abortedState
      = .ok (some (js "\x7b\n  a: 1,\n  b: 2,\n\x7d")) twoSpaceState ∧
    twoSpaceState.mod = initialModule exampleEnv .null (num 2) ∧
    twoSpaceState.mod.stack = [] ∧ twoSpaceState.mod.indent = [] ∧
    twoSpaceState.mod.gap = gapOf (num 2) :=
  ⟨exampleEnv_stateFree, by decide,
    stringify_overwrites_module_variables.1 exampleEnv 3 (.ref 0) .null (num 2) abortedState
      (some (js "\x7b\n  a: 1,\n  b: 2,\n\x7d")) twoSpaceState exampleEnv_stateFree (by decide)⟩

end JSONext
